import Mathlib

/-!
# symupload: metadata assembly and multi-target upload

A shallow embedding of the two command-line tools

* `src/tools/windows/symupload/symupload.cc` (namespace `symupload`):
  the version is read from the symbol file, the debug identifier is a hash;
* `src/tools/windows/symupload_nodump/symupload.cc` (namespace
  `symupload_nodump`): a `--version` option exists, the debug identifier is a
  fixed placeholder.

Wide strings are `String`, `argc` is `argv.length`, `int` values are `Int`,
`DWORD` values are `Nat` below `2 ^ 32`.  Everything outside the two files (the
HTTP uploader, the Windows version-resource API, the C runtime, the string
utilities header) is a field of `Env`.  A run of `wmain` yields the exit status
of the process together with the ordered list of its observable events.
-/

set_option autoImplicit false

/-! ## Parameter maps (`std::map<wstring, wstring>`) -/

/-- The `parameters` map, as an association list without duplicate keys. -/
abbrev Params := List (String × String)

/-- The assignment `m[k] = v`: overwrite the entry for `k`, or add one. -/
def Params.set : Params → String → String → Params
  | [], k, v => [(k, v)]
  | (k', v') :: rest, k, v =>
    if k' = k then (k, v) :: rest else (k', v') :: Params.set rest k v

/-- Lookup of a key. -/
def Params.find : Params → String → Option String
  | [], _ => none
  | (k', v') :: rest, k => if k' = k then some v' else Params.find rest k

/-- The keys that are present. -/
def Params.keys (m : Params) : List String := m.map Prod.fst

/-! ## Events and the environment -/

/-- The arguments of one `HTTPUpload::SendRequest` call
(`url, parameters, upload_file, file_part_name, timeout`); the two remaining
arguments are the constant `nullptr` and the output `&response_code`. -/
structure SendArgs where
  url : String
  parameters : Params
  upload_file : String
  file_part_name : String
  timeout : Option Int
deriving DecidableEq, Repr

/-- One line written by `wprintf` or `fwprintf(stderr, ...)`, by format string. -/
inductive Line where
  /-- The three `wprintf` calls of `printUsageAndExit`. -/
  | usage
  /-- The line `Warning: No product name (flag --product) was specified for %s`. -/
  | warnNoProduct (symbol_file : String)
  /-- The line `Warning: Could not get file version for %s`. -/
  | warnNoVersion (symbol_file : String)
  /-- The line `Symbol file upload to %s failed. Response code = %ld`. -/
  | uploadFailed (url : String) (response_code : Int)
  /-- The line `Response code = %ld`. -/
  | responseCode (response_code : Int)
  /-- The line `Uploaded symbols for windows-x86/%s (%s %s)`, with its three arguments in
  the order of the call. -/
  | uploaded (arg1 arg2 arg3 : String)
deriving DecidableEq, Repr

/-- What a run does that can be observed from outside. -/
inductive Event where
  /-- A read of `argv[i]`. -/
  | argvRead (i : Nat)
  /-- A line on standard output or on the diagnostic stream. -/
  | print (l : Line)
  /-- A call of `GetFileVersionString(filename, ...)`. -/
  | resolve (filename : String)
  /-- A call of `HTTPUpload::SendRequest` with what it returned and what it
  wrote to `response_code`. -/
  | send (call : SendArgs) (ok : Bool) (response_code : Int)
deriving DecidableEq, Repr

/-- Everything the two files call but do not define. -/
structure Env where
  /-- The function `WindowsStringUtils::GetBaseName` of `common/windows/string_utils-inl.h`. -/
  GetBaseName : String → String
  /-- The C runtime function `_wtoi`. -/
  wtoi : String → Int
  /-- The value of `std::hash<wstring>` on a string. -/
  wstr_hash : String → Nat
  /-- The Windows function `GetFileVersionInfoSize`: the size of the version block. -/
  GetFileVersionInfoSize : String → Nat
  /-- The Windows function `GetFileVersionInfo`: whether the block could be read. -/
  GetFileVersionInfo : String → Bool
  /-- The Windows function `VerQueryValue` on the root block: on success the
  fields `dwFileVersionMS` and `dwFileVersionLS` of the record it points to. -/
  VerQueryValue : String → Option (Nat × Nat)
  /-- The function `HTTPUpload::SendRequest`: given the calls made earlier in the run and
  the present call, the returned flag and the response code. -/
  SendRequest : List SendArgs → SendArgs → Bool × Int

/-- The result of a run: the exit status and the events in order. -/
structure Run where
  status : Int
  trace : List Event
deriving DecidableEq, Repr

/-- The uploader calls of a trace, in order. -/
def sends : List Event → List SendArgs
  | [] => []
  | Event.send call _ _ :: rest => call :: sends rest
  | _ :: rest => sends rest

/-- The success flags the uploader returned, in order. -/
def sendFlags : List Event → List Bool
  | [] => []
  | Event.send _ ok _ :: rest => ok :: sendFlags rest
  | _ :: rest => sendFlags rest

/-- The files on which the version resolver was called, in order. -/
def resolves : List Event → List String
  | [] => []
  | Event.resolve f :: rest => f :: resolves rest
  | _ :: rest => resolves rest

/-- The lines printed, in order. -/
def printed : List Event → List Line
  | [] => []
  | Event.print l :: rest => l :: printed rest
  | _ :: rest => printed rest

/-! ## Formatting -/

/-- The conversion `%d` of `printf` applied to a 32-bit argument: the low 32
bits read as a signed integer, in decimal. -/
def fmtD (v : Nat) : String :=
  let w := v % 2 ^ 32
  if w < 2 ^ 31 then Nat.repr w else "-" ++ Nat.repr (2 ^ 32 - w)

/-- The size in bytes of the Windows record `VS_FIXEDFILEINFO` (thirteen `DWORD`s). -/
def sizeof_VS_FIXEDFILEINFO : Nat := 52

/-- The number of elements of the buffer `ver_string`. -/
def ver_string_size : Nat := 24

/-- The text `swprintf` produces for `"%d.%d.%d.%d"` from the two packed words. -/
def formatVersion (dwFileVersionMS dwFileVersionLS : Nat) : String :=
  fmtD (dwFileVersionMS >>> 16) ++ "." ++ fmtD (dwFileVersionMS &&& 0xffff) ++ "." ++
    fmtD (dwFileVersionLS >>> 16) ++ "." ++ fmtD (dwFileVersionLS &&& 0xffff)

/-- The content of `ver_string` after `swprintf` with the buffer size and the
forced terminator in the last element: at most `ver_string_size - 1` characters
of the formatted text. -/
def ver_string (dwFileVersionMS dwFileVersionLS : Nat) : String :=
  String.mk ((formatVersion dwFileVersionMS dwFileVersionLS).data.take (ver_string_size - 1))

/-- The function `GetFileVersionString` (the same text in both files): `none` is the
return value `false`, `some v` is `true` with `*version = v`. -/
def GetFileVersionString (env : Env) (filename : String) : Option String :=
  if env.GetFileVersionInfoSize filename < sizeof_VS_FIXEDFILEINFO then none
  else if !env.GetFileVersionInfo filename then none
  else
    match env.VerQueryValue filename with
    | none => none
    | some (dwFileVersionMS, dwFileVersionLS) =>
      some (ver_string dwFileVersionMS dwFileVersionLS)

/-- The function `printUsageAndExit`: the usage text is printed and the process ends with
`exit(0)`; `before` holds the events up to the call. -/
def printUsageAndExit (before : List Event) : Run :=
  { status := 0, trace := before ++ [Event.print Line.usage] }

/-- The argument `timeout == -1 ? NULL : &timeout` of `SendRequest`. -/
def timeoutArg (timeout : Int) : Option Int :=
  if timeout = -1 then none else some timeout

/-- The arguments of the `SendRequest` call in the upload loop, for `argv[currentarg] = url`. -/
def callFor (parameters : Params) (symbol_file : String) (timeout : Int) (url : String) :
    SendArgs :=
  { url := url, parameters := parameters, upload_file := symbol_file,
    file_part_name := "symbol_file", timeout := timeoutArg timeout }

/-- The upload loop `while (currentarg < argc)` (the same in both files).
Arguments: fuel, `currentarg`, the calls made so far, `success`.  The result is
the final `success` and the events of the loop; `none` if an `argv` read were
out of range or the fuel ran out. -/
def uploadLoop (env : Env) (argv : List String) (parameters : Params)
    (symbol_file : String) (timeout : Int) :
    Nat → Nat → List SendArgs → Bool → Option (Bool × List Event)
  | 0, currentarg, _, success =>
    if currentarg < argv.length then none else some (success, [])
  | fuel + 1, currentarg, made, success =>
    if currentarg < argv.length then
      match argv[currentarg]? with
      | none => none
      | some url =>
        let call := callFor parameters symbol_file timeout url
        let r := env.SendRequest made call
        let here : List Event :=
          if r.1 then
            [Event.argvRead currentarg, Event.send call r.1 r.2,
              Event.print (Line.responseCode r.2)]
          else
            [Event.argvRead currentarg, Event.send call r.1 r.2,
              Event.argvRead currentarg, Event.print (Line.uploadFailed url r.2),
              Event.print (Line.responseCode r.2)]
        match uploadLoop env argv parameters symbol_file timeout fuel (currentarg + 1)
            (made ++ [call]) (success && r.1) with
        | none => none
        | some (s, later) => some (s, here ++ later)
    else some (success, [])

/-- The five entries both files always put into `parameters`. -/
def baseParameters (code_file symbol_file debug_identifier : String) : Params :=
  ((((Params.set [] "code_file" code_file).set "debug_file" symbol_file).set
    "debug_identifier" debug_identifier).set "os" "windows").set "cpu" "x86"

/-- The statement `if (product) parameters["product"] = product; else warn`. -/
def addProduct (parameters : Params) (product : Option String) (symbol_file : String) :
    Params × List Event :=
  match product with
  | some p => (parameters.set "product" p, [])
  | none => (parameters, [Event.print (Line.warnNoProduct symbol_file)])

/-- The end of `wmain` in both files: the summary line when `success`, and
`return success ? 0 : 1`. -/
def finish (before : List Event) (success : Bool) (symbol_file code_file file_version : String) :
    Run :=
  { status := if success then 0 else 1,
    trace := before ++
      (if success then [Event.print (Line.uploaded symbol_file code_file file_version)] else []) }

/-! ## `symupload/symupload.cc` -/

namespace symupload

/-- The locals of `wmain` the option loop assigns, with their initial values. -/
structure Options where
  product : Option String := none
  timeout : Int := -1
deriving DecidableEq, Repr

/-- The option loop `while (argc > currentarg + 1)`.  Arguments: fuel,
`currentarg`, the options so far.  The result is `currentarg` and the options
at loop exit with the `argv` reads made; `none` if a read were out of range or
the fuel ran out. -/
def optionLoop (env : Env) (argv : List String) :
    Nat → Nat → Options → Option (Nat × Options × List Event)
  | 0, currentarg, o =>
    if argv.length > currentarg + 1 then none else some (currentarg, o, [])
  | fuel + 1, currentarg, o =>
    if argv.length > currentarg + 1 then
      match argv[currentarg]? with
      | none => none
      | some a =>
        if a = "--timeout" then
          match argv[currentarg + 1]? with
          | none => none
          | some v =>
            match optionLoop env argv fuel (currentarg + 2) { o with timeout := env.wtoi v } with
            | none => none
            | some (c, o', later) =>
              some (c, o', [Event.argvRead currentarg, Event.argvRead (currentarg + 1)] ++ later)
        else if a = "--product" then
          match argv[currentarg + 1]? with
          | none => none
          | some v =>
            match optionLoop env argv fuel (currentarg + 2) { o with product := some v } with
            | none => none
            | some (c, o', later) =>
              some (c, o', [Event.argvRead currentarg, Event.argvRead currentarg,
                Event.argvRead (currentarg + 1)] ++ later)
        else some (currentarg, o, [Event.argvRead currentarg, Event.argvRead currentarg])
    else some (currentarg, o, [])

/-- The debug identifier: `sprintf(buffer, "%d", wstr_hash(code_file + symbol_file))`. -/
def debugIdentifier (env : Env) (code_file symbol_file : String) : String :=
  fmtD (env.wstr_hash (code_file ++ symbol_file))

/-- The statement `if (GetFileVersionString(symbol_file, &file_version)) ... else warn`:
the parameters, `file_version` and the events. -/
def addVersion (env : Env) (parameters : Params) (symbol_file : String) :
    Params × String × List Event :=
  match GetFileVersionString env symbol_file with
  | some file_version =>
    (parameters.set "version" file_version, file_version, [Event.resolve symbol_file])
  | none =>
    (parameters, "", [Event.resolve symbol_file, Event.print (Line.warnNoVersion symbol_file)])

/-- The function `wmain`; `none` if an `argv` read were out of range or a loop
ran out of fuel. -/
def wmain (env : Env) (argv : List String) : Option Run :=
  match optionLoop env argv argv.length 1 {} with
  | none => none
  | some (currentarg, o, ev0) =>
    if argv.length ≥ currentarg + 3 then
      match argv[currentarg]? with
      | none => none
      | some symbol_file =>
        let ev1 := ev0 ++ [Event.argvRead currentarg]
        let currentarg := currentarg + 1
        if argv.length ≥ currentarg + 2 then
          match argv[currentarg]? with
          | none => none
          | some code_file_raw =>
            let code_file := env.GetBaseName code_file_raw
            let ev2 := ev1 ++ [Event.argvRead currentarg]
            let currentarg := currentarg + 1
            let debug_identifier := debugIdentifier env code_file symbol_file
            let p0 := baseParameters code_file symbol_file debug_identifier
            let p1 := addProduct p0 o.product symbol_file
            let p2 := addVersion env p1.1 symbol_file
            match uploadLoop env argv p2.1 symbol_file o.timeout argv.length currentarg []
                true with
            | none => none
            | some (success, ev3) =>
              some (finish (ev2 ++ p1.2 ++ p2.2.2 ++ ev3) success symbol_file code_file p2.2.1)
        else some (printUsageAndExit ev1)
    else some (printUsageAndExit ev0)

end symupload

/-! ## `symupload_nodump/symupload.cc` -/

namespace symupload_nodump

/-- The locals of `wmain` the option loop assigns, with their initial values. -/
structure Options where
  product : Option String := none
  version : Option String := none
  timeout : Int := -1
deriving DecidableEq, Repr

/-- The option loop `while (argc > currentarg + 1)`.  Arguments: fuel,
`currentarg`, the options so far.  The result is `currentarg` and the options
at loop exit with the `argv` reads made; `none` if a read were out of range or
the fuel ran out. -/
def optionLoop (env : Env) (argv : List String) :
    Nat → Nat → Options → Option (Nat × Options × List Event)
  | 0, currentarg, o =>
    if argv.length > currentarg + 1 then none else some (currentarg, o, [])
  | fuel + 1, currentarg, o =>
    if argv.length > currentarg + 1 then
      match argv[currentarg]? with
      | none => none
      | some a =>
        if a = "--timeout" then
          match argv[currentarg + 1]? with
          | none => none
          | some v =>
            match optionLoop env argv fuel (currentarg + 2) { o with timeout := env.wtoi v } with
            | none => none
            | some (c, o', later) =>
              some (c, o', [Event.argvRead currentarg, Event.argvRead (currentarg + 1)] ++ later)
        else if a = "--product" then
          match argv[currentarg + 1]? with
          | none => none
          | some v =>
            match optionLoop env argv fuel (currentarg + 2) { o with product := some v } with
            | none => none
            | some (c, o', later) =>
              some (c, o', [Event.argvRead currentarg, Event.argvRead currentarg,
                Event.argvRead (currentarg + 1)] ++ later)
        else if a = "--version" then
          match argv[currentarg + 1]? with
          | none => none
          | some v =>
            match optionLoop env argv fuel (currentarg + 2) { o with version := some v } with
            | none => none
            | some (c, o', later) =>
              some (c, o', [Event.argvRead currentarg, Event.argvRead currentarg,
                Event.argvRead currentarg, Event.argvRead (currentarg + 1)] ++ later)
        else some (currentarg, o, [Event.argvRead currentarg, Event.argvRead currentarg,
          Event.argvRead currentarg])
    else some (currentarg, o, [])

/-- The debug identifier: the literal assigned to `parameters[L"debug_identifier"]`. -/
def debugIdentifier : String := "000000000000000000000000000000000"

/-- The statement `if (version) ... else if (GetFileVersionString(...)) ... else
(warn; return -1)`: `Except.error` is the `return -1` branch (with its
events), otherwise the parameters, `file_version` and the events. -/
def addVersion (env : Env) (parameters : Params) (version : Option String)
    (symbol_file : String) : Except (List Event) (Params × String × List Event) :=
  match version with
  | some v => Except.ok (parameters.set "version" v, "", [])
  | none =>
    match GetFileVersionString env symbol_file with
    | some file_version =>
      Except.ok (parameters.set "version" file_version, file_version,
        [Event.resolve symbol_file])
    | none =>
      Except.error [Event.resolve symbol_file, Event.print (Line.warnNoVersion symbol_file)]

/-- The function `wmain`; `none` if an `argv` read were out of range or a loop
ran out of fuel. -/
def wmain (env : Env) (argv : List String) : Option Run :=
  match optionLoop env argv argv.length 1 {} with
  | none => none
  | some (currentarg, o, ev0) =>
    if argv.length ≥ currentarg + 3 then
      match argv[currentarg]? with
      | none => none
      | some symbol_file =>
        let ev1 := ev0 ++ [Event.argvRead currentarg]
        let currentarg := currentarg + 1
        if argv.length ≥ currentarg + 2 then
          match argv[currentarg]? with
          | none => none
          | some code_file_raw =>
            let code_file := env.GetBaseName code_file_raw
            let ev2 := ev1 ++ [Event.argvRead currentarg]
            let currentarg := currentarg + 1
            let p0 := baseParameters code_file symbol_file debugIdentifier
            let p1 := addProduct p0 o.product symbol_file
            match addVersion env p1.1 o.version symbol_file with
            | Except.error evV => some { status := -1, trace := ev2 ++ p1.2 ++ evV }
            | Except.ok p2 =>
              match uploadLoop env argv p2.1 symbol_file o.timeout argv.length currentarg []
                  true with
              | none => none
              | some (success, ev3) =>
                some (finish (ev2 ++ p1.2 ++ p2.2.2 ++ ev3) success symbol_file code_file p2.2.1)
        else some (printUsageAndExit ev1)
    else some (printUsageAndExit ev0)

end symupload_nodump

/-! ## The parameters of a run -/

/-- The map `symupload` hands to the uploader, from the two positionals and
the product option. -/
def symupload.parameters (env : Env) (symbol_file code_file_raw : String)
    (product : Option String) : Params :=
  (symupload.addVersion env
    (addProduct (baseParameters (env.GetBaseName code_file_raw) symbol_file
      (symupload.debugIdentifier env (env.GetBaseName code_file_raw) symbol_file))
      product symbol_file).1 symbol_file).1

/-- The map `symupload_nodump` builds before the version is added. -/
def symupload_nodump.parametersBeforeVersion (env : Env) (symbol_file code_file_raw : String)
    (product : Option String) : Params :=
  (addProduct (baseParameters (env.GetBaseName code_file_raw) symbol_file
    symupload_nodump.debugIdentifier) product symbol_file).1

/-! ## The meaning of a parsed option -/

/-- The value an option loop holds for the option `name`, in terms of the
argument vector.  The loop reads option names at the indices `c0, c0 + 2, ...`
below `c`; `start` is the value before the loop and `held` the one after it.
`held` is absent exactly when `start` is and no such index holds `name`, and a
present `held` is the argument that follows the last such index holding `name`
(or `start` when there is none). -/
def OptionMeaning (argv : List String) (name : String) (c0 c : Nat)
    (start held : Option String) : Prop :=
  (held = none ↔ start = none ∧
    ∀ j, c0 ≤ j → j < c → (j - c0) % 2 = 0 → argv[j]? ≠ some name) ∧
  (∀ v, held = some v →
    (start = some v ∧ ∀ j, c0 ≤ j → j < c → (j - c0) % 2 = 0 → argv[j]? ≠ some name) ∨
    ∃ i, c0 ≤ i ∧ i + 1 < c ∧ (i - c0) % 2 = 0 ∧ argv[i]? = some name ∧
      argv[i + 1]? = some v ∧
      ∀ j, i < j → j < c → (j - c0) % 2 = 0 → argv[j]? ≠ some name)

/-! ## The uploader's replies -/

/-- The replies of the uploader to a sequence of calls made after the calls `made`. -/
def replies (env : Env) : List SendArgs → List SendArgs → List (Bool × Int)
  | _, [] => []
  | made, call :: rest => env.SendRequest made call :: replies env (made ++ [call]) rest

/-! ## A sample environment -/

/-- A sample uploader: every URL answers 200 except `http://b`, which fails with 500. -/
def demoSendRequest (_made : List SendArgs) (call : SendArgs) : Bool × Int :=
  if call.url = "http://b" then (false, 500) else (true, 200)

/-- A sample environment: `app.sym` carries the version 1.2.3.4, every other
file has no version resource. -/
def demoEnv : Env where
  GetBaseName := fun s => s
  wtoi := fun s => if s = "0" then 0 else if s = "-1" then -1 else 5000
  wstr_hash := fun s => s.length
  GetFileVersionInfoSize := fun f => if f = "app.sym" then 52 else 0
  GetFileVersionInfo := fun _ => true
  VerQueryValue := fun _ => some (0x00010002, 0x00030004)
  SendRequest := demoSendRequest


/-! ## Reads, lines and results of a trace -/

/-- The indices of the `argv` reads of a trace, in order. -/
def reads : List Event → List Nat
  | [] => []
  | Event.argvRead i :: rest => i :: reads rest
  | _ :: rest => reads rest

/-- The uploader calls of a trace with the flag and the response code of each, in order. -/
def sendResults : List Event → List (SendArgs × Bool × Int)
  | [] => []
  | Event.send call ok response_code :: rest => (call, ok, response_code) :: sendResults rest
  | _ :: rest => sendResults rest

/-- The response codes of the `Response code = ...` lines, in order. -/
def responseCodes : List Line → List Int
  | [] => []
  | Line.responseCode r :: rest => r :: responseCodes rest
  | _ :: rest => responseCodes rest

/-- The target and the response code of each failure line, in order. -/
def failures : List Line → List (String × Int)
  | [] => []
  | Line.uploadFailed url r :: rest => (url, r) :: failures rest
  | _ :: rest => failures rest

/-- The three fields of each summary line `Uploaded symbols for ...`, in order. -/
def summaries : List Line → List (String × String × String)
  | [] => []
  | Line.uploaded a b v :: rest => (a, b, v) :: summaries rest
  | _ :: rest => summaries rest

/-- The target and the response code of the calls that failed, in order. -/
def failedTargets : List (SendArgs × Bool × Int) → List (String × Int)
  | [] => []
  | (call, ok, response_code) :: rest =>
    if ok then failedTargets rest else (call.url, response_code) :: failedTargets rest

/-! ## The meaning of the parsed timeout -/

/-- The value an option loop holds for `timeout`, in terms of the argument
vector.  The loop reads option names at the indices `c0, c0 + 2, ...` below
`c`; `start` is the value before the loop and `held` the one after it.  Either
no such index holds `--timeout` and `held` is `start`, or `held` is `_wtoi` of
the argument that follows the last such index holding `--timeout`. -/
def TimeoutMeaning (wtoi : String → Int) (argv : List String) (c0 c : Nat)
    (start held : Int) : Prop :=
  (held = start ∧
    ∀ j, c0 ≤ j → j < c → (j - c0) % 2 = 0 → argv[j]? ≠ some "--timeout") ∨
  ∃ i v, c0 ≤ i ∧ i + 1 < c ∧ (i - c0) % 2 = 0 ∧ argv[i]? = some "--timeout" ∧
    argv[i + 1]? = some v ∧ held = wtoi v ∧
    ∀ j, i < j → j < c → (j - c0) % 2 = 0 → argv[j]? ≠ some "--timeout"

/-! ## The base name of a path -/

/-- The two directory separators. -/
def isSeparator (ch : Char) : Bool := ch == '/' || ch == '\\'

/-- Modelled from the spec: `WindowsStringUtils::GetBaseName` of
`common/windows/string_utils-inl.h`, which is not among the sources.  The spec
says that basename extraction strips any directory prefix (`/` or `\`): the
result is what follows the last separator, and the whole string when there is
none. -/
def GetBaseName (filename : String) : String :=
  String.mk (filename.data.reverse.takeWhile (fun ch => !isSeparator ch)).reverse

/-! ## A sample string hash -/

/-- One step of 32-bit FNV-1a: the byte is xor-ed in, then the state is
multiplied by the FNV prime modulo `2 ^ 32`. -/
def fnv1aByte (h b : Nat) : Nat := ((h ^^^ b) * 16777619) % 2 ^ 32

/-- A sample value for `std::hash<wstring>`: 32-bit FNV-1a over the low and the
high byte of every character, from the offset basis 2166136261. -/
def fnv1a (s : String) : Nat :=
  s.data.foldl (fun h ch => fnv1aByte (fnv1aByte h (ch.toNat % 256)) (ch.toNat / 256 % 256))
    2166136261

/-- The sample environment with `fnv1a` as string hash and the modelled base name. -/
def fnvEnv : Env :=
  { demoEnv with GetBaseName := GetBaseName, wstr_hash := fnv1a }

/-- Events that are neither reads, nor calls, nor response-code, failure or
summary lines. -/
def Silent (m : List Event) : Prop :=
  reads m = [] ∧ sends m = [] ∧ sendFlags m = [] ∧ sendResults m = [] ∧
  responseCodes (printed m) = [] ∧ failures (printed m) = [] ∧ summaries (printed m) = []

/-! ## Traces, loops and the shape of a run -/

theorem sends_append (a b : List Event) : sends (a ++ b) = sends a ++ sends b := by
  induction a with
  | nil => rfl
  | cons e rest ih => cases e <;> simp [sends, ih]

theorem sendFlags_append (a b : List Event) :
    sendFlags (a ++ b) = sendFlags a ++ sendFlags b := by
  induction a with
  | nil => rfl
  | cons e rest ih => cases e <;> simp [sendFlags, ih]

theorem resolves_append (a b : List Event) :
    resolves (a ++ b) = resolves a ++ resolves b := by
  induction a with
  | nil => rfl
  | cons e rest ih => cases e <;> simp [resolves, ih]

theorem printed_append (a b : List Event) :
    printed (a ++ b) = printed a ++ printed b := by
  induction a with
  | nil => rfl
  | cons e rest ih => cases e <;> simp [printed, ih]

/-- One iteration of the upload loop. -/
theorem uploadLoop_step (env : Env) (argv : List String) (parameters : Params)
    (symbol_file : String) (timeout : Int) (fuel currentarg : Nat) (made : List SendArgs)
    (success : Bool) (hc : currentarg < argv.length) (s : Bool) (later : List Event)
    (hl : uploadLoop env argv parameters symbol_file timeout fuel (currentarg + 1)
      (made ++ [callFor parameters symbol_file timeout argv[currentarg]])
      (success && (env.SendRequest made
        (callFor parameters symbol_file timeout argv[currentarg])).1) = some (s, later)) :
    uploadLoop env argv parameters symbol_file timeout (fuel + 1) currentarg made success =
      some (s,
        (if (env.SendRequest made (callFor parameters symbol_file timeout argv[currentarg])).1
          then
            [Event.argvRead currentarg,
              Event.send (callFor parameters symbol_file timeout argv[currentarg])
                (env.SendRequest made (callFor parameters symbol_file timeout argv[currentarg])).1
                (env.SendRequest made (callFor parameters symbol_file timeout argv[currentarg])).2,
              Event.print (Line.responseCode
                (env.SendRequest made (callFor parameters symbol_file timeout argv[currentarg])).2)]
          else
            [Event.argvRead currentarg,
              Event.send (callFor parameters symbol_file timeout argv[currentarg])
                (env.SendRequest made (callFor parameters symbol_file timeout argv[currentarg])).1
                (env.SendRequest made (callFor parameters symbol_file timeout argv[currentarg])).2,
              Event.argvRead currentarg,
              Event.print (Line.uploadFailed argv[currentarg]
                (env.SendRequest made (callFor parameters symbol_file timeout argv[currentarg])).2),
              Event.print (Line.responseCode
                (env.SendRequest made
                  (callFor parameters symbol_file timeout argv[currentarg])).2)]) ++ later) := by
  rw [uploadLoop]
  simp only [hc, if_true, List.getElem?_eq_getElem hc]
  rw [hl]

/-- The upload loop always ends, with one call per remaining argument. -/
theorem uploadLoop_spec (env : Env) (argv : List String) (parameters : Params)
    (symbol_file : String) (timeout : Int) :
    ∀ (fuel currentarg : Nat) (made : List SendArgs) (success : Bool),
      argv.length ≤ currentarg + fuel →
      ∃ s ev, uploadLoop env argv parameters symbol_file timeout fuel currentarg made success
          = some (s, ev) ∧
        sends ev = (argv.drop currentarg).map (callFor parameters symbol_file timeout) ∧
        sendFlags ev = (replies env made (sends ev)).map Prod.fst ∧
        s = (success && (sendFlags ev).all id) ∧
        resolves ev = [] ∧
        (∀ l ∈ printed ev, (∃ u r, l = Line.uploadFailed u r) ∨ ∃ r, l = Line.responseCode r) := by
  intro fuel
  induction fuel with
  | zero =>
    intro c made s h
    have hc : ¬ c < argv.length := by omega
    refine ⟨s, [], by simp [uploadLoop, hc], ?_, ?_, ?_, ?_, ?_⟩ <;>
      simp [sends, sendFlags, resolves, printed, replies,
        List.drop_eq_nil_of_le (by omega : argv.length ≤ c)]
  | succ fuel ih =>
    intro c made s h
    by_cases hc : c < argv.length
    · obtain ⟨s', ev, hl, h1, h2, h3, h4, h5⟩ :=
        ih (c + 1) (made ++ [callFor parameters symbol_file timeout argv[c]])
          (s && (env.SendRequest made (callFor parameters symbol_file timeout argv[c])).1)
          (by omega)
      have hd : argv.drop c = argv[c] :: argv.drop (c + 1) := List.drop_eq_getElem_cons hc
      refine ⟨s', _, uploadLoop_step env argv parameters symbol_file timeout fuel c made s hc
        s' ev hl, ?_⟩
      cases hr : (env.SendRequest made (callFor parameters symbol_file timeout argv[c])).1
      · simp only [Bool.false_eq_true, if_false, List.cons_append, List.nil_append]
        simp only [sends, sendFlags, resolves, printed]
        refine ⟨?_, ?_, ?_, h4, ?_⟩
        · rw [hd, List.map_cons, h1]
        · rw [replies, List.map_cons, hr, h2]
        · rw [h3, hr, List.all_cons]; simp
        · intro l hl'
          rcases List.mem_cons.1 hl' with rfl | hl'
          · exact Or.inl ⟨_, _, rfl⟩
          · rcases List.mem_cons.1 hl' with rfl | hl'
            · exact Or.inr ⟨_, rfl⟩
            · exact h5 l hl'
      · simp only [if_true, List.cons_append, List.nil_append]
        simp only [sends, sendFlags, resolves, printed]
        refine ⟨?_, ?_, ?_, h4, ?_⟩
        · rw [hd, List.map_cons, h1]
        · rw [replies, List.map_cons, hr, h2]
        · rw [h3, hr, List.all_cons]; simp
        · intro l hl'
          rcases List.mem_cons.1 hl' with rfl | hl'
          · exact Or.inr ⟨_, rfl⟩
          · exact h5 l hl'
    · refine ⟨s, [], by simp [uploadLoop, hc], ?_, ?_, ?_, ?_, ?_⟩ <;>
        simp [sends, sendFlags, resolves, printed, replies,
          List.drop_eq_nil_of_le (by omega : argv.length ≤ c)]

/-- The option loop of `symupload` always ends, and only reads arguments. -/
theorem symupload.optionLoop_spec (env : Env) (argv : List String) :
    ∀ (fuel currentarg : Nat) (o : symupload.Options),
      argv.length ≤ currentarg + 1 + 2 * fuel →
      ∃ c o' ev, symupload.optionLoop env argv fuel currentarg o = some (c, o', ev) ∧
        sends ev = [] ∧ sendFlags ev = [] ∧ resolves ev = [] ∧ printed ev = [] := by
  intro fuel
  induction fuel with
  | zero =>
    intro c o h
    have hc : ¬ argv.length > c + 1 := by omega
    exact ⟨c, o, [], by simp [symupload.optionLoop, hc], rfl, rfl, rfl, rfl⟩
  | succ fuel ih =>
    intro c o h
    by_cases hc : argv.length > c + 1
    · have h0 : argv[c]? = some argv[c] := List.getElem?_eq_getElem (by omega)
      have h1 : argv[c + 1]? = some argv[c + 1] := List.getElem?_eq_getElem (by omega)
      rw [symupload.optionLoop]
      simp only [hc, if_true, h0, h1]
      by_cases ht : argv[c] = "--timeout"
      · obtain ⟨c', o', ev, hl, e1, e2, e3, e4⟩ :=
          ih (c + 2) { o with timeout := env.wtoi argv[c + 1] } (by omega)
        simp only [ht, if_true, hl]
        exact ⟨_, _, _, rfl, by simpa [sends] using e1, by simpa [sendFlags] using e2,
          by simpa [resolves] using e3, by simpa [printed] using e4⟩
      · by_cases hp : argv[c] = "--product"
        · obtain ⟨c', o', ev, hl, e1, e2, e3, e4⟩ :=
            ih (c + 2) { o with product := some argv[c + 1] } (by omega)
          simp only [ht, hp, if_true, if_false, hl]
          exact ⟨_, _, _, rfl, by simpa [sends] using e1, by simpa [sendFlags] using e2,
            by simpa [resolves] using e3, by simpa [printed] using e4⟩
        · simp only [ht, hp, if_false]
          exact ⟨_, _, _, rfl, rfl, rfl, rfl, rfl⟩
    · exact ⟨c, o, [], by simp [symupload.optionLoop, hc], rfl, rfl, rfl, rfl⟩

/-- The option loop of `symupload_nodump` always ends, and only reads arguments. -/
theorem symupload_nodump.nodump_optionLoop_spec (env : Env) (argv : List String) :
    ∀ (fuel currentarg : Nat) (o : symupload_nodump.Options),
      argv.length ≤ currentarg + 1 + 2 * fuel →
      ∃ c o' ev, symupload_nodump.optionLoop env argv fuel currentarg o = some (c, o', ev) ∧
        sends ev = [] ∧ sendFlags ev = [] ∧ resolves ev = [] ∧ printed ev = [] := by
  intro fuel
  induction fuel with
  | zero =>
    intro c o h
    have hc : ¬ argv.length > c + 1 := by omega
    exact ⟨c, o, [], by simp [symupload_nodump.optionLoop, hc], rfl, rfl, rfl, rfl⟩
  | succ fuel ih =>
    intro c o h
    by_cases hc : argv.length > c + 1
    · have h0 : argv[c]? = some argv[c] := List.getElem?_eq_getElem (by omega)
      have h1 : argv[c + 1]? = some argv[c + 1] := List.getElem?_eq_getElem (by omega)
      rw [symupload_nodump.optionLoop]
      simp only [hc, if_true, h0, h1]
      by_cases ht : argv[c] = "--timeout"
      · obtain ⟨c', o', ev, hl, e1, e2, e3, e4⟩ :=
          ih (c + 2) { o with timeout := env.wtoi argv[c + 1] } (by omega)
        simp only [ht, if_true, hl]
        exact ⟨_, _, _, rfl, by simpa [sends] using e1, by simpa [sendFlags] using e2,
          by simpa [resolves] using e3, by simpa [printed] using e4⟩
      · by_cases hp : argv[c] = "--product"
        · obtain ⟨c', o', ev, hl, e1, e2, e3, e4⟩ :=
            ih (c + 2) { o with product := some argv[c + 1] } (by omega)
          simp only [ht, hp, if_true, if_false, hl]
          exact ⟨_, _, _, rfl, by simpa [sends] using e1, by simpa [sendFlags] using e2,
            by simpa [resolves] using e3, by simpa [printed] using e4⟩
        · by_cases hv : argv[c] = "--version"
          · obtain ⟨c', o', ev, hl, e1, e2, e3, e4⟩ :=
              ih (c + 2) { o with version := some argv[c + 1] } (by omega)
            simp only [ht, hp, hv, if_true, if_false, hl]
            exact ⟨_, _, _, rfl, by simpa [sends] using e1, by simpa [sendFlags] using e2,
              by simpa [resolves] using e3, by simpa [printed] using e4⟩
          · simp only [ht, hp, hv, if_false]
            exact ⟨_, _, _, rfl, rfl, rfl, rfl, rfl⟩
    · exact ⟨c, o, [], by simp [symupload_nodump.optionLoop, hc], rfl, rfl, rfl, rfl⟩

/-- With three arguments left after the options, `symupload` assembles the
parameters, runs the upload loop to its end and returns through `finish`. -/
theorem symupload.wmain_eq (env : Env) (argv : List String) (c : Nat)
    (o : symupload.Options) (ev0 : List Event)
    (hp : symupload.optionLoop env argv argv.length 1 {} = some (c, o, ev0))
    (h3 : c + 3 ≤ argv.length) :
    ∃ symbol_file code_file_raw s ev3,
      argv[c]? = some symbol_file ∧ argv[c + 1]? = some code_file_raw ∧
      uploadLoop env argv
        (symupload.addVersion env
          (addProduct (baseParameters (env.GetBaseName code_file_raw) symbol_file
            (symupload.debugIdentifier env (env.GetBaseName code_file_raw) symbol_file))
            o.product symbol_file).1 symbol_file).1
        symbol_file o.timeout argv.length (c + 2) [] true = some (s, ev3) ∧
      symupload.wmain env argv = some (finish
        (ev0 ++ [Event.argvRead c] ++ [Event.argvRead (c + 1)] ++
          (addProduct (baseParameters (env.GetBaseName code_file_raw) symbol_file
            (symupload.debugIdentifier env (env.GetBaseName code_file_raw) symbol_file))
            o.product symbol_file).2 ++
          (symupload.addVersion env
            (addProduct (baseParameters (env.GetBaseName code_file_raw) symbol_file
              (symupload.debugIdentifier env (env.GetBaseName code_file_raw) symbol_file))
              o.product symbol_file).1 symbol_file).2.2 ++ ev3)
        s symbol_file (env.GetBaseName code_file_raw)
        (symupload.addVersion env
          (addProduct (baseParameters (env.GetBaseName code_file_raw) symbol_file
            (symupload.debugIdentifier env (env.GetBaseName code_file_raw) symbol_file))
            o.product symbol_file).1 symbol_file).2.1) := by
  have h0 : argv[c]? = some argv[c] := List.getElem?_eq_getElem (by omega)
  have h1 : argv[c + 1]? = some argv[c + 1] := List.getElem?_eq_getElem (by omega)
  obtain ⟨s, ev3, hl, -⟩ := uploadLoop_spec env argv
    (symupload.addVersion env
      (addProduct (baseParameters (env.GetBaseName argv[c + 1]) argv[c]
        (symupload.debugIdentifier env (env.GetBaseName argv[c + 1]) argv[c]))
        o.product argv[c]).1 argv[c]).1
    argv[c] o.timeout argv.length (c + 2) [] true (by omega)
  refine ⟨argv[c], argv[c + 1], s, ev3, h0, h1, hl, ?_⟩
  have h3' : argv.length ≥ c + 3 := h3
  have h2' : argv.length ≥ c + 1 + 2 := by omega
  rw [symupload.wmain]
  simp only [hp, h3', h2', if_true, h0, h1, hl]

/-- With fewer than three arguments left after the options, `symupload` prints
the usage text and exits. -/
theorem symupload.wmain_usage (env : Env) (argv : List String) (c : Nat)
    (o : symupload.Options) (ev0 : List Event)
    (hp : symupload.optionLoop env argv argv.length 1 {} = some (c, o, ev0))
    (h3 : argv.length < c + 3) :
    symupload.wmain env argv = some (printUsageAndExit ev0) := by
  have h3' : ¬ argv.length ≥ c + 3 := by omega
  rw [symupload.wmain]
  simp only [hp, h3', if_false]

/-- With three arguments left after the options, `symupload_nodump` either
returns `-1` before the upload loop or runs the loop to its end. -/
theorem symupload_nodump.nodump_wmain_eq (env : Env) (argv : List String) (c : Nat)
    (o : symupload_nodump.Options) (ev0 : List Event)
    (hp : symupload_nodump.optionLoop env argv argv.length 1 {} = some (c, o, ev0))
    (h3 : c + 3 ≤ argv.length) :
    ∃ symbol_file code_file_raw,
      argv[c]? = some symbol_file ∧ argv[c + 1]? = some code_file_raw ∧
      ((∃ evV, symupload_nodump.addVersion env
            (addProduct (baseParameters (env.GetBaseName code_file_raw) symbol_file
              symupload_nodump.debugIdentifier) o.product symbol_file).1
            o.version symbol_file = Except.error evV ∧
          symupload_nodump.wmain env argv = some
            { status := -1,
              trace := ev0 ++ [Event.argvRead c] ++ [Event.argvRead (c + 1)] ++
                (addProduct (baseParameters (env.GetBaseName code_file_raw) symbol_file
                  symupload_nodump.debugIdentifier) o.product symbol_file).2 ++ evV }) ∨
        (∃ p2 s ev3, symupload_nodump.addVersion env
            (addProduct (baseParameters (env.GetBaseName code_file_raw) symbol_file
              symupload_nodump.debugIdentifier) o.product symbol_file).1
            o.version symbol_file = Except.ok p2 ∧
          uploadLoop env argv p2.1 symbol_file o.timeout argv.length (c + 2) [] true
            = some (s, ev3) ∧
          symupload_nodump.wmain env argv = some (finish
            (ev0 ++ [Event.argvRead c] ++ [Event.argvRead (c + 1)] ++
              (addProduct (baseParameters (env.GetBaseName code_file_raw) symbol_file
                symupload_nodump.debugIdentifier) o.product symbol_file).2 ++ p2.2.2 ++ ev3)
            s symbol_file (env.GetBaseName code_file_raw) p2.2.1))) := by
  have h0 : argv[c]? = some argv[c] := List.getElem?_eq_getElem (by omega)
  have h1 : argv[c + 1]? = some argv[c + 1] := List.getElem?_eq_getElem (by omega)
  have h3' : argv.length ≥ c + 3 := h3
  have h2' : argv.length ≥ c + 1 + 2 := by omega
  refine ⟨argv[c], argv[c + 1], h0, h1, ?_⟩
  cases hv : symupload_nodump.addVersion env
      (addProduct (baseParameters (env.GetBaseName argv[c + 1]) argv[c]
        symupload_nodump.debugIdentifier) o.product argv[c]).1 o.version argv[c] with
  | error evV =>
    refine Or.inl ⟨evV, rfl, ?_⟩
    rw [symupload_nodump.wmain]
    simp only [hp, h3', h2', if_true, h0, h1, hv]
  | ok p2 =>
    obtain ⟨s, ev3, hl, -⟩ := uploadLoop_spec env argv p2.1 argv[c] o.timeout argv.length
      (c + 2) [] true (by omega)
    refine Or.inr ⟨p2, s, ev3, rfl, hl, ?_⟩
    rw [symupload_nodump.wmain]
    simp only [hp, h3', h2', if_true, h0, h1, hv, hl]

/-- With fewer than three arguments left after the options, `symupload_nodump`
prints the usage text and exits. -/
theorem symupload_nodump.nodump_wmain_usage (env : Env) (argv : List String) (c : Nat)
    (o : symupload_nodump.Options) (ev0 : List Event)
    (hp : symupload_nodump.optionLoop env argv argv.length 1 {} = some (c, o, ev0))
    (h3 : argv.length < c + 3) :
    symupload_nodump.wmain env argv = some (printUsageAndExit ev0) := by
  have h3' : ¬ argv.length ≥ c + 3 := by omega
  rw [symupload_nodump.wmain]
  simp only [hp, h3', if_false]

theorem finish_sends (before : List Event) (success : Bool) (a b v : String) :
    sends (finish before success a b v).trace = sends before := by
  cases success <;> simp [finish, sends_append, sends]

theorem finish_sendFlags (before : List Event) (success : Bool) (a b v : String) :
    sendFlags (finish before success a b v).trace = sendFlags before := by
  cases success <;> simp [finish, sendFlags_append, sendFlags]

theorem finish_resolves (before : List Event) (success : Bool) (a b v : String) :
    resolves (finish before success a b v).trace = resolves before := by
  cases success <;> simp [finish, resolves_append, resolves]

theorem finish_usage (before : List Event) (success : Bool) (a b v : String) :
    (Line.usage ∉ printed (finish before success a b v).trace) =
      (Line.usage ∉ printed before) := by
  cases success <;> simp [finish, printed_append, printed]

theorem finish_status (before : List Event) (success : Bool) (a b v : String) :
    (finish before success a b v).status = if success then 0 else 1 := rfl

/-- The events of the option loop of `symupload` are argument reads only. -/
theorem symupload.optionLoop_quiet (env : Env) (argv : List String) (c : Nat)
    (o : symupload.Options) (ev0 : List Event)
    (hp : symupload.optionLoop env argv argv.length 1 {} = some (c, o, ev0)) :
    sends ev0 = [] ∧ sendFlags ev0 = [] ∧ resolves ev0 = [] ∧ printed ev0 = [] := by
  obtain ⟨c', o', ev, hl, h⟩ := symupload.optionLoop_spec env argv argv.length 1 {} (by omega)
  rw [hp] at hl
  injection hl with hl
  injection hl with _ hl
  injection hl with _ hl
  subst hl
  exact h

/-- The events of the option loop of `symupload_nodump` are argument reads only. -/
theorem symupload_nodump.nodump_optionLoop_quiet (env : Env) (argv : List String) (c : Nat)
    (o : symupload_nodump.Options) (ev0 : List Event)
    (hp : symupload_nodump.optionLoop env argv argv.length 1 {} = some (c, o, ev0)) :
    sends ev0 = [] ∧ sendFlags ev0 = [] ∧ resolves ev0 = [] ∧ printed ev0 = [] := by
  obtain ⟨c', o', ev, hl, h⟩ :=
    symupload_nodump.nodump_optionLoop_spec env argv argv.length 1 {} (by omega)
  rw [hp] at hl
  injection hl with hl
  injection hl with _ hl
  injection hl with _ hl
  subst hl
  exact h

/-- The statement about the product adds no call, no resolver call, and at most
the warning line. -/
theorem addProduct_quiet (m : Params) (product : Option String) (symbol_file : String) :
    sends (addProduct m product symbol_file).2 = [] ∧
    sendFlags (addProduct m product symbol_file).2 = [] ∧
    resolves (addProduct m product symbol_file).2 = [] ∧
    Line.usage ∉ printed (addProduct m product symbol_file).2 := by
  cases product <;> simp [addProduct, sends, sendFlags, resolves, printed]

/-- The version statement of `symupload` calls the resolver once and the uploader never. -/
theorem symupload.addVersion_quiet (env : Env) (m : Params) (symbol_file : String) :
    sends (symupload.addVersion env m symbol_file).2.2 = [] ∧
    sendFlags (symupload.addVersion env m symbol_file).2.2 = [] ∧
    resolves (symupload.addVersion env m symbol_file).2.2 = [symbol_file] ∧
    Line.usage ∉ printed (symupload.addVersion env m symbol_file).2.2 := by
  unfold symupload.addVersion
  cases GetFileVersionString env symbol_file <;> simp [sends, sendFlags, resolves, printed]

/-- The facts about a run of `symupload` that gets past the usage check. -/
theorem symupload.upload_run (env : Env) (argv : List String) (c : Nat)
    (o : symupload.Options) (ev0 : List Event)
    (hp : symupload.optionLoop env argv argv.length 1 {} = some (c, o, ev0))
    (h3 : c + 3 ≤ argv.length) :
    ∃ symbol_file code_file_raw run,
      argv[c]? = some symbol_file ∧ argv[c + 1]? = some code_file_raw ∧
      symupload.wmain env argv = some run ∧
      sends run.trace = (argv.drop (c + 2)).map
        (callFor (symupload.parameters env symbol_file code_file_raw o.product)
          symbol_file o.timeout) ∧
      sendFlags run.trace = (replies env [] (sends run.trace)).map Prod.fst ∧
      run.status = (if (sendFlags run.trace).all id then 0 else 1) ∧
      resolves run.trace = [symbol_file] ∧
      Line.usage ∉ printed run.trace := by
  obtain ⟨sym, raw, s, ev3, h0, h1, hl, hw⟩ := symupload.wmain_eq env argv c o ev0 hp h3
  obtain ⟨s', ev', hl', f1, f2, f3, f4, f5⟩ := uploadLoop_spec env argv
    (symupload.parameters env sym raw o.product) sym o.timeout argv.length (c + 2) [] true
    (by omega)
  have hl2 := hl
  rw [show (symupload.addVersion env
          (addProduct (baseParameters (env.GetBaseName raw) sym
            (symupload.debugIdentifier env (env.GetBaseName raw) sym))
            o.product sym).1 sym).1 = symupload.parameters env sym raw o.product from rfl,
    hl'] at hl2
  injection hl2 with hl2
  injection hl2 with hs hev
  subst hs hev
  obtain ⟨q1, q2, q3, q4⟩ := symupload.optionLoop_quiet env argv c o ev0 hp
  obtain ⟨a1, a2, a3, a4⟩ := addProduct_quiet (baseParameters (env.GetBaseName raw) sym
    (symupload.debugIdentifier env (env.GetBaseName raw) sym)) o.product sym
  obtain ⟨b1, b2, b3, b4⟩ := symupload.addVersion_quiet env
    (addProduct (baseParameters (env.GetBaseName raw) sym
      (symupload.debugIdentifier env (env.GetBaseName raw) sym)) o.product sym).1 sym
  have hu : Line.usage ∉ printed ev' := by
    intro h
    rcases f5 _ h with ⟨u, r, e⟩ | ⟨r, e⟩ <;> cases e
  refine ⟨sym, raw, _, h0, h1, hw, ?_, ?_, ?_, ?_, ?_⟩
  · rw [finish_sends]
    simp only [sends_append, q1, a1, b1, sends, List.nil_append, List.append_nil]
    exact f1
  · rw [finish_sendFlags, finish_sends]
    simp only [sends_append, sendFlags_append, q1, q2, a1, a2, b1, b2, sends, sendFlags,
      List.nil_append, List.append_nil]
    exact f2
  · rw [finish_sendFlags, finish_status]
    simp only [sendFlags_append, q2, a2, b2, sendFlags, List.nil_append, List.append_nil]
    rw [f3, Bool.true_and]
  · rw [finish_resolves]
    simp only [resolves_append, q3, a3, b3, f4, resolves, List.nil_append, List.append_nil]
  · rw [finish_usage]
    simp only [printed_append, q4, printed, List.nil_append, List.mem_append, not_or]
    exact ⟨⟨a4, b4⟩, hu⟩

/-- The three outcomes of the version statement of `symupload_nodump`. -/
theorem symupload_nodump.nodump_addVersion_cases (env : Env) (m : Params) (version : Option String)
    (symbol_file : String) :
    (∃ v, version = some v ∧
      symupload_nodump.addVersion env m version symbol_file
        = Except.ok (m.set "version" v, "", [])) ∨
    (∃ v, version = none ∧ GetFileVersionString env symbol_file = some v ∧
      symupload_nodump.addVersion env m version symbol_file
        = Except.ok (m.set "version" v, v, [Event.resolve symbol_file])) ∨
    (version = none ∧ GetFileVersionString env symbol_file = none ∧
      symupload_nodump.addVersion env m version symbol_file
        = Except.error [Event.resolve symbol_file,
            Event.print (Line.warnNoVersion symbol_file)]) := by
  cases version with
  | some v => exact Or.inl ⟨v, rfl, rfl⟩
  | none =>
    cases h : GetFileVersionString env symbol_file with
    | some v => exact Or.inr (Or.inl ⟨v, rfl, rfl, by simp [symupload_nodump.addVersion, h]⟩)
    | none => exact Or.inr (Or.inr ⟨rfl, rfl, by simp [symupload_nodump.addVersion, h]⟩)

/-- The facts about a run of `symupload_nodump` that gets past the usage check:
either no version is available and it returns `-1` without any upload, or the
version `v` (the option if given, else the resolved one) is sent to every URL. -/
theorem symupload_nodump.nodump_upload_run (env : Env) (argv : List String) (c : Nat)
    (o : symupload_nodump.Options) (ev0 : List Event)
    (hp : symupload_nodump.optionLoop env argv argv.length 1 {} = some (c, o, ev0))
    (h3 : c + 3 ≤ argv.length) :
    ∃ symbol_file code_file_raw run,
      argv[c]? = some symbol_file ∧ argv[c + 1]? = some code_file_raw ∧
      symupload_nodump.wmain env argv = some run ∧
      Line.usage ∉ printed run.trace ∧
      ((o.version = none ∧ GetFileVersionString env symbol_file = none ∧
          run.status = -1 ∧ sends run.trace = [] ∧ sendFlags run.trace = [] ∧
          resolves run.trace = [symbol_file]) ∨
        (∃ v, (o.version = some v ∧ resolves run.trace = [] ∨
            o.version = none ∧ GetFileVersionString env symbol_file = some v ∧
              resolves run.trace = [symbol_file]) ∧
          sends run.trace = (argv.drop (c + 2)).map
            (callFor ((symupload_nodump.parametersBeforeVersion env symbol_file code_file_raw
              o.product).set "version" v) symbol_file o.timeout) ∧
          sendFlags run.trace = (replies env [] (sends run.trace)).map Prod.fst ∧
          run.status = (if (sendFlags run.trace).all id then 0 else 1))) := by
  obtain ⟨sym, raw, h0, h1, hw⟩ := symupload_nodump.nodump_wmain_eq env argv c o ev0 hp h3
  obtain ⟨q1, q2, q3, q4⟩ := symupload_nodump.nodump_optionLoop_quiet env argv c o ev0 hp
  obtain ⟨a1, a2, a3, a4⟩ := addProduct_quiet (baseParameters (env.GetBaseName raw) sym
    symupload_nodump.debugIdentifier) o.product sym
  rcases symupload_nodump.nodump_addVersion_cases env
      (addProduct (baseParameters (env.GetBaseName raw) sym
        symupload_nodump.debugIdentifier) o.product sym).1 o.version sym with
    ⟨v, hv, hadd⟩ | ⟨v, hv, hg, hadd⟩ | ⟨hv, hg, hadd⟩
  · rcases hw with ⟨evV, he, -⟩ | ⟨p2, s, ev3, he, hl, hw⟩
    · rw [hadd] at he; cases he
    · rw [hadd] at he
      injection he with he
      subst he
      obtain ⟨s', ev', hl', f1, f2, f3, f4, f5⟩ := uploadLoop_spec env argv
        ((symupload_nodump.parametersBeforeVersion env sym raw o.product).set "version" v)
        sym o.timeout argv.length (c + 2) [] true (by omega)
      have hl2 := hl
      rw [show ((addProduct (baseParameters (env.GetBaseName raw) sym
            symupload_nodump.debugIdentifier) o.product sym).1.set "version" v, "",
            ([] : List Event)).1 =
          (symupload_nodump.parametersBeforeVersion env sym raw o.product).set "version" v
          from rfl, hl'] at hl2
      injection hl2 with hl2
      injection hl2 with hs hev
      subst hs hev
      have hu : Line.usage ∉ printed ev' := by
        intro h
        rcases f5 _ h with ⟨u, r, e⟩ | ⟨r, e⟩ <;> cases e
      refine ⟨sym, raw, _, h0, h1, hw, ?_, Or.inr ⟨v, Or.inl ⟨hv, ?_⟩, ?_, ?_, ?_⟩⟩
      · rw [finish_usage]
        simp only [printed_append, q4, printed, List.nil_append, List.mem_append, not_or]
        exact ⟨⟨a4, by simp⟩, hu⟩
      · rw [finish_resolves]
        simp only [resolves_append, q3, a3, f4, resolves, List.nil_append, List.append_nil]
      · rw [finish_sends]
        simp only [sends_append, q1, a1, sends, List.nil_append, List.append_nil]
        exact f1
      · rw [finish_sendFlags, finish_sends]
        simp only [sends_append, sendFlags_append, q1, q2, a1, a2, sends, sendFlags,
          List.nil_append, List.append_nil]
        exact f2
      · rw [finish_sendFlags, finish_status]
        simp only [sendFlags_append, q2, a2, sendFlags, List.nil_append, List.append_nil]
        rw [f3, Bool.true_and]
  · rcases hw with ⟨evV, he, -⟩ | ⟨p2, s, ev3, he, hl, hw⟩
    · rw [hadd] at he; cases he
    · rw [hadd] at he
      injection he with he
      subst he
      obtain ⟨s', ev', hl', f1, f2, f3, f4, f5⟩ := uploadLoop_spec env argv
        ((symupload_nodump.parametersBeforeVersion env sym raw o.product).set "version" v)
        sym o.timeout argv.length (c + 2) [] true (by omega)
      have hl2 := hl
      rw [show ((addProduct (baseParameters (env.GetBaseName raw) sym
            symupload_nodump.debugIdentifier) o.product sym).1.set "version" v, v,
            [Event.resolve sym]).1 =
          (symupload_nodump.parametersBeforeVersion env sym raw o.product).set "version" v
          from rfl, hl'] at hl2
      injection hl2 with hl2
      injection hl2 with hs hev
      subst hs hev
      have hu : Line.usage ∉ printed ev' := by
        intro h
        rcases f5 _ h with ⟨u, r, e⟩ | ⟨r, e⟩ <;> cases e
      refine ⟨sym, raw, _, h0, h1, hw, ?_, Or.inr ⟨v, Or.inr ⟨hv, hg, ?_⟩, ?_, ?_, ?_⟩⟩
      · rw [finish_usage]
        simp only [printed_append, q4, printed, List.nil_append, List.mem_append, not_or]
        exact ⟨⟨a4, by simp⟩, hu⟩
      · rw [finish_resolves]
        simp only [resolves_append, q3, a3, f4, resolves, List.nil_append, List.append_nil]
      · rw [finish_sends]
        simp only [sends_append, q1, a1, sends, List.nil_append, List.append_nil]
        exact f1
      · rw [finish_sendFlags, finish_sends]
        simp only [sends_append, sendFlags_append, q1, q2, a1, a2, sends, sendFlags,
          List.nil_append, List.append_nil]
        exact f2
      · rw [finish_sendFlags, finish_status]
        simp only [sendFlags_append, q2, a2, sendFlags, List.nil_append, List.append_nil]
        rw [f3, Bool.true_and]
  · rcases hw with ⟨evV, he, hw⟩ | ⟨p2, s, ev3, he, -⟩
    · rw [hadd] at he
      injection he with he
      subst he
      refine ⟨sym, raw, _, h0, h1, hw, ?_, Or.inl ⟨hv, hg, rfl, ?_, ?_, ?_⟩⟩
      · simp only [printed_append, q4, printed, List.nil_append, List.mem_append, not_or]
        exact ⟨a4, by simp⟩
      · simp only [sends_append, q1, a1, sends, List.nil_append, List.append_nil]
      · simp only [sendFlags_append, q2, a2, sendFlags, List.nil_append, List.append_nil]
      · simp only [resolves_append, q3, a3, resolves, List.nil_append, List.append_nil]
    · rw [hadd] at he; cases he

/-- The usage exit makes no call and prints the usage text after `before`. -/
theorem printUsageAndExit_facts (before : List Event) (q1 : sends before = [])
    (q3 : resolves before = []) :
    (printUsageAndExit before).status = 0 ∧ sends (printUsageAndExit before).trace = [] ∧
    resolves (printUsageAndExit before).trace = [] ∧
    Line.usage ∈ printed (printUsageAndExit before).trace := by
  refine ⟨rfl, ?_, ?_, ?_⟩
  · simp [printUsageAndExit, sends_append, sends, q1]
  · simp [printUsageAndExit, resolves_append, resolves, q3]
  · simp [printUsageAndExit, printed_append, printed]

/-- The value of `success ? 0 : 1` when `success` is the conjunction of the flags. -/
theorem status_of_flags (l : List Bool) :
    ((if l.all id = true then (0 : Int) else 1) = 0 ↔ ∀ ok ∈ l, ok = true) ∧
    ((if l.all id = true then (0 : Int) else 1) = 1 ↔ ¬ ∀ ok ∈ l, ok = true) := by
  have key : l.all id = true ↔ ∀ ok ∈ l, ok = true := by
    simp only [List.all_eq_true, id]
  by_cases h : l.all id = true
  · rw [if_pos h]
    exact ⟨⟨fun _ => key.1 h, fun _ => rfl⟩,
      ⟨fun h1 => absurd h1 (by decide), fun h1 => absurd (key.1 h) h1⟩⟩
  · rw [if_neg h]
    exact ⟨⟨fun h1 => absurd h1 (by decide), fun h1 => absurd (key.2 h1) h⟩,
      ⟨fun _ h1 => h (key.2 h1), fun _ => rfl⟩⟩

theorem Params.find_set_same (m : Params) (k v : String) : (m.set k v).find k = some v := by
  induction m with
  | nil => simp [Params.set, Params.find]
  | cons e rest ih =>
    obtain ⟨k', v'⟩ := e
    by_cases h : k' = k
    · simp [Params.set, Params.find, h]
    · simp [Params.set, Params.find, h, ih]

theorem Params.find_set_other (m : Params) (k v k' : String) (hk : k' ≠ k) :
    (m.set k v).find k' = m.find k' := by
  induction m with
  | nil => simp [Params.set, Params.find, hk.symm]
  | cons e rest ih =>
    obtain ⟨k0, v0⟩ := e
    by_cases h : k0 = k
    · subst h
      simp [Params.set, Params.find, hk.symm]
    · by_cases h' : k0 = k'
      · subst h'
        simp [Params.set, Params.find, h]
      · simp [Params.set, Params.find, h, h', ih]

theorem Params.keys_set (m : Params) (k v : String) :
    (m.set k v).keys = if k ∈ m.keys then m.keys else m.keys ++ [k] := by
  induction m with
  | nil => simp [Params.set, Params.keys]
  | cons e rest ih =>
    obtain ⟨k0, v0⟩ := e
    by_cases h : k0 = k
    · simp [Params.set, Params.keys, h]
    · have h' : ¬ k = k0 := fun e => h e.symm
      simp only [Params.keys] at ih
      simp only [Params.set, Params.keys, h, if_false, List.map_cons, List.mem_cons, h',
        false_or, ih]
      split <;> simp

/-- The five fixed entries and the key list of the base parameters. -/
theorem baseParameters_facts (code_file symbol_file debug_identifier : String) :
    (baseParameters code_file symbol_file debug_identifier).find "code_file" = some code_file ∧
    (baseParameters code_file symbol_file debug_identifier).find "debug_file"
      = some symbol_file ∧
    (baseParameters code_file symbol_file debug_identifier).find "debug_identifier"
      = some debug_identifier ∧
    (baseParameters code_file symbol_file debug_identifier).find "os" = some "windows" ∧
    (baseParameters code_file symbol_file debug_identifier).find "cpu" = some "x86" ∧
    (baseParameters code_file symbol_file debug_identifier).find "product" = none ∧
    (baseParameters code_file symbol_file debug_identifier).find "version" = none ∧
    (baseParameters code_file symbol_file debug_identifier).keys
      = ["code_file", "debug_file", "debug_identifier", "os", "cpu"] := by
  simp [baseParameters, Params.set, Params.find, Params.keys]

/-- The entries and the key list of the map `symupload` hands to the uploader. -/
theorem symupload.parameters_facts (env : Env) (symbol_file code_file_raw : String)
    (product : Option String) :
    (symupload.parameters env symbol_file code_file_raw product).find "code_file"
      = some (env.GetBaseName code_file_raw) ∧
    (symupload.parameters env symbol_file code_file_raw product).find "debug_file"
      = some symbol_file ∧
    (symupload.parameters env symbol_file code_file_raw product).find "debug_identifier"
      = some (symupload.debugIdentifier env (env.GetBaseName code_file_raw) symbol_file) ∧
    (symupload.parameters env symbol_file code_file_raw product).find "os" = some "windows" ∧
    (symupload.parameters env symbol_file code_file_raw product).find "cpu" = some "x86" ∧
    (symupload.parameters env symbol_file code_file_raw product).find "product" = product ∧
    (symupload.parameters env symbol_file code_file_raw product).find "version"
      = GetFileVersionString env symbol_file ∧
    (symupload.parameters env symbol_file code_file_raw product).keys
      = ["code_file", "debug_file", "debug_identifier", "os", "cpu"] ++
        (if product.isSome then ["product"] else []) ++
        (if (GetFileVersionString env symbol_file).isSome then ["version"] else []) := by
  obtain ⟨b1, b2, b3, b4, b5, b6, b7, b8⟩ := baseParameters_facts (env.GetBaseName code_file_raw)
    symbol_file (symupload.debugIdentifier env (env.GetBaseName code_file_raw) symbol_file)
  cases product <;> cases h : GetFileVersionString env symbol_file <;>
    simp [symupload.parameters, symupload.addVersion, addProduct, h, Params.find_set_same,
      Params.find_set_other, Params.keys_set, b1, b2, b3, b4, b5, b6, b7, b8]

/-- The entries and the key list of the map `symupload_nodump` hands to the
uploader when the version is `v`. -/
theorem symupload_nodump.nodump_parameters_facts (env : Env) (symbol_file code_file_raw : String)
    (product : Option String) (v : String) :
    ((symupload_nodump.parametersBeforeVersion env symbol_file code_file_raw product).set
      "version" v).find "code_file" = some (env.GetBaseName code_file_raw) ∧
    ((symupload_nodump.parametersBeforeVersion env symbol_file code_file_raw product).set
      "version" v).find "debug_file" = some symbol_file ∧
    ((symupload_nodump.parametersBeforeVersion env symbol_file code_file_raw product).set
      "version" v).find "debug_identifier" = some symupload_nodump.debugIdentifier ∧
    ((symupload_nodump.parametersBeforeVersion env symbol_file code_file_raw product).set
      "version" v).find "os" = some "windows" ∧
    ((symupload_nodump.parametersBeforeVersion env symbol_file code_file_raw product).set
      "version" v).find "cpu" = some "x86" ∧
    ((symupload_nodump.parametersBeforeVersion env symbol_file code_file_raw product).set
      "version" v).find "product" = product ∧
    ((symupload_nodump.parametersBeforeVersion env symbol_file code_file_raw product).set
      "version" v).find "version" = some v := by
  obtain ⟨b1, b2, b3, b4, b5, b6, b7, b8⟩ := baseParameters_facts (env.GetBaseName code_file_raw)
    symbol_file symupload_nodump.debugIdentifier
  cases product <;>
    simp [symupload_nodump.parametersBeforeVersion, addProduct, Params.find_set_same,
      Params.find_set_other, b1, b2, b3, b4, b5, b6, b7]

/-- With three arguments after position `c` there is at least one URL. -/
theorem urls_ne_nil {α : Type} (f : String → α) (argv : List String) (c : Nat)
    (h3 : c + 3 ≤ argv.length) : (argv.drop (c + 2)).map f ≠ [] := by
  intro h
  have := congrArg List.length h
  simp at this
  omega

/-- The parameters of a call made by the upload loop. -/
theorem mem_calls_parameters (p : Params) (s : String) (t : Int) (urls : List String)
    (call : SendArgs) (h : call ∈ urls.map (callFor p s t)) : call.parameters = p := by
  obtain ⟨u, -, rfl⟩ := List.mem_map.1 h
  rfl

/-- Every run of `symupload_nodump` ends. -/
theorem symupload_nodump.nodump_wmain_total (env : Env) (argv : List String) :
    ∃ c o ev0 run, symupload_nodump.optionLoop env argv argv.length 1 {} = some (c, o, ev0) ∧
      symupload_nodump.wmain env argv = some run ∧
      (argv.length < c + 3 → sends run.trace = [] ∧ resolves run.trace = []) := by
  obtain ⟨c, o, ev0, hp, q1, -, q3, -⟩ :=
    symupload_nodump.nodump_optionLoop_spec env argv argv.length 1 {} (by omega)
  by_cases h : argv.length < c + 3
  · obtain ⟨-, u2, u3, -⟩ := printUsageAndExit_facts ev0 q1 q3
    exact ⟨c, o, ev0, _, hp, symupload_nodump.nodump_wmain_usage env argv c o ev0 hp h,
      fun _ => ⟨u2, u3⟩⟩
  · obtain ⟨sym, raw, run, -, -, hw, -⟩ :=
      symupload_nodump.nodump_upload_run env argv c o ev0 hp (by omega)
    exact ⟨c, o, ev0, run, hp, hw, fun h' => absurd h' h⟩

/-- The conversion `%d` of a value below `2 ^ 31` is its unsigned decimal rendering. -/
theorem fmtD_of_lt (v : Nat) (h : v < 2 ^ 31) : fmtD v = Nat.repr v := by
  have h1 : v % 2 ^ 32 = v := Nat.mod_eq_of_lt (by omega)
  simp only [fmtD, h1, h, if_true]

/-- A decimal rendering has at least one digit. -/
theorem repr_length_pos (n : Nat) : 1 ≤ (Nat.repr n).length := by
  simp only [Nat.repr, Nat.toDigits, String.length, List.asString, Nat.toDigitsCore]
  split
  · simp
  · rw [Nat.toDigitsCore_lens_eq]
    omega

/-- A 16-bit field is rendered with one to five digits. -/
theorem field_length (v : Nat) (h : v < 65536) :
    1 ≤ (fmtD v).length ∧ (fmtD v).length ≤ 5 := by
  rw [fmtD_of_lt v (by omega)]
  exact ⟨repr_length_pos v, Nat.repr_length v 5 (by decide) (by omega)⟩

/-- The high half of a 32-bit word is a 16-bit value. -/
theorem high_half_lt (w : Nat) (h : w < 2 ^ 32) : w >>> 16 < 65536 := by
  rw [Nat.shiftRight_eq_div_pow]
  omega

/-- The low half of a word is a 16-bit value. -/
theorem low_half_lt (w : Nat) : w &&& 0xffff < 65536 := by
  have := @Nat.and_le_right w 0xffff
  omega

/-- The length of the formatted version in terms of its four fields. -/
theorem formatVersion_length (MS LS : Nat) :
    (formatVersion MS LS).length =
      (fmtD (MS >>> 16)).length + (fmtD (MS &&& 0xffff)).length +
        (fmtD (LS >>> 16)).length + (fmtD (LS &&& 0xffff)).length + 3 := by
  simp only [formatVersion, String.length_append]
  have : (".").length = 1 := rfl
  omega

/-- The formatted version of two 32-bit words has between 7 and 23 characters. -/
theorem formatVersion_bounds (MS LS : Nat) (hMS : MS < 2 ^ 32) (hLS : LS < 2 ^ 32) :
    7 ≤ (formatVersion MS LS).length ∧ (formatVersion MS LS).length ≤ 23 := by
  rw [formatVersion_length]
  have a := field_length _ (high_half_lt MS hMS)
  have b := field_length _ (low_half_lt MS)
  have c := field_length _ (high_half_lt LS hLS)
  have d := field_length _ (low_half_lt LS)
  omega

/-- The buffer holds the whole formatted version of two 32-bit words. -/
theorem ver_string_eq (MS LS : Nat) (hMS : MS < 2 ^ 32) (hLS : LS < 2 ^ 32) :
    ver_string MS LS = formatVersion MS LS := by
  have h := (formatVersion_bounds MS LS hMS hLS).2
  unfold ver_string ver_string_size
  rw [List.take_of_length_le (show (formatVersion MS LS).data.length ≤ 24 - 1 from h)]

/-- Without further iterations the held value is the initial one. -/
theorem OptionMeaning.refl (argv : List String) (name : String) (c0 : Nat)
    (start : Option String) : OptionMeaning argv name c0 c0 start start :=
  ⟨⟨fun h => ⟨h, fun j a b => by omega⟩, fun h => h.1⟩,
    fun _ h => Or.inl ⟨h, fun j a b => by omega⟩⟩

/-- An iteration that consumes another option keeps the meaning. -/
theorem OptionMeaning.skip (argv : List String) (name : String) (c0 c : Nat)
    (start held : Option String) (hle : c0 + 2 ≤ c) (hother : argv[c0]? ≠ some name)
    (h : OptionMeaning argv name (c0 + 2) c start held) :
    OptionMeaning argv name c0 c start held := by
  obtain ⟨h1, h2⟩ := h
  have widen : (∀ j, c0 + 2 ≤ j → j < c → (j - (c0 + 2)) % 2 = 0 → argv[j]? ≠ some name) →
      ∀ j, c0 ≤ j → j < c → (j - c0) % 2 = 0 → argv[j]? ≠ some name := by
    intro hall j a b p
    by_cases hj : j = c0
    · subst hj
      exact hother
    · exact hall j (by omega) b (by omega)
  refine ⟨⟨fun hn => ⟨(h1.1 hn).1, widen (h1.1 hn).2⟩, fun hn => h1.2 ⟨hn.1, fun j a b p =>
    hn.2 j (by omega) b (by omega)⟩⟩, fun v hv => ?_⟩
  rcases h2 v hv with ⟨hs, hall⟩ | ⟨i, a, b, p, q, r, hlast⟩
  · exact Or.inl ⟨hs, widen hall⟩
  · exact Or.inr ⟨i, by omega, b, by omega, q, r, fun j a' b' p' =>
      hlast j a' b' (by omega)⟩

/-- An iteration that consumes the option `name` with value `v0` sets the
value the rest of the loop starts from. -/
theorem OptionMeaning.assign (argv : List String) (name : String) (c0 c : Nat)
    (start held : Option String) (v0 : String) (hle : c0 + 2 ≤ c)
    (hname : argv[c0]? = some name) (hval : argv[c0 + 1]? = some v0)
    (h : OptionMeaning argv name (c0 + 2) c (some v0) held) :
    OptionMeaning argv name c0 c start held := by
  obtain ⟨h1, h2⟩ := h
  refine ⟨⟨fun hn => absurd (h1.1 hn).1 (Option.some_ne_none v0), fun hn =>
    absurd hname (hn.2 c0 (le_refl _) (by omega) (by simp))⟩, fun v hv => ?_⟩
  rcases h2 v hv with ⟨hs, hall⟩ | ⟨i, a, b, p, q, r, hlast⟩
  · injection hs with hs
    subst hs
    exact Or.inr ⟨c0, le_refl _, by omega, by simp, hname, hval, fun j a' b' p' =>
      hall j (by omega) b' (by omega)⟩
  · exact Or.inr ⟨i, by omega, b, by omega, q, r, fun j a' b' p' =>
      hlast j a' b' (by omega)⟩

/-- The product `symupload` holds after its option loop, in terms of the
argument vector. -/
theorem symupload.optionLoop_meaning (env : Env) (argv : List String) :
    ∀ (fuel c0 : Nat) (o0 : symupload.Options) (c : Nat)
      (o : symupload.Options) (ev : List Event),
      symupload.optionLoop env argv fuel c0 o0 = some (c, o, ev) →
      c0 ≤ c ∧ OptionMeaning argv "--product" c0 c o0.product o.product := by
  intro fuel
  induction fuel with
  | zero =>
    intro c0 o0 c o ev h
    rw [symupload.optionLoop] at h
    split at h
    · cases h
    · injection h with h
      injection h with h1 h
      injection h with h2 h
      subst h1 h2
      exact ⟨le_refl _, OptionMeaning.refl _ _ _ _⟩
  | succ fuel ih =>
    intro c0 o0 c o ev h
    rw [symupload.optionLoop] at h
    by_cases hc : argv.length > c0 + 1
    · have h0 : argv[c0]? = some argv[c0] := List.getElem?_eq_getElem (by omega)
      have h1 : argv[c0 + 1]? = some argv[c0 + 1] := List.getElem?_eq_getElem (by omega)
      simp only [hc, if_true, h0, h1] at h
      by_cases ht : argv[c0] = "--timeout"
      · simp only [ht, if_true] at h
        cases hrec : symupload.optionLoop env argv fuel (c0 + 2)
            { o0 with timeout := env.wtoi argv[c0 + 1] } with
        | none => rw [hrec] at h; cases h
        | some r =>
          obtain ⟨c', o', later⟩ := r
          rw [hrec] at h
          injection h with h
          injection h with h1' h
          injection h with h2' h
          subst h1' h2'
          obtain ⟨hle, hp⟩ := ih _ _ _ _ _ hrec
          rw [ht] at h0
          exact ⟨by omega, OptionMeaning.skip _ _ _ _ _ _ hle (by rw [h0]; decide) hp⟩
      · by_cases hpr : argv[c0] = "--product"
        · simp only [hpr, if_true] at h
          simp only [show ¬ ("--product" = "--timeout") by decide, if_false] at h
          cases hrec : symupload.optionLoop env argv fuel (c0 + 2)
              { o0 with product := some argv[c0 + 1] } with
          | none => rw [hrec] at h; cases h
          | some r =>
            obtain ⟨c', o', later⟩ := r
            rw [hrec] at h
            injection h with h
            injection h with h1' h
            injection h with h2' h
            subst h1' h2'
            obtain ⟨hle, hp⟩ := ih _ _ _ _ _ hrec
            rw [hpr] at h0
            exact ⟨by omega, OptionMeaning.assign _ _ _ _ _ _ _ hle h0 h1 hp⟩
        · simp only [ht, hpr, if_false] at h
          injection h with h
          injection h with h1' h
          injection h with h2' h
          subst h1' h2'
          exact ⟨le_refl _, OptionMeaning.refl _ _ _ _⟩
    · simp only [hc, if_false] at h
      injection h with h
      injection h with h1 h
      injection h with h2 h
      subst h1 h2
      exact ⟨le_refl _, OptionMeaning.refl _ _ _ _⟩

/-- The options `symupload_nodump` holds after its option loop, in terms of the
argument vector. -/
theorem symupload_nodump.nodump_optionLoop_meaning (env : Env) (argv : List String) :
    ∀ (fuel c0 : Nat) (o0 : symupload_nodump.Options) (c : Nat)
      (o : symupload_nodump.Options) (ev : List Event),
      symupload_nodump.optionLoop env argv fuel c0 o0 = some (c, o, ev) →
      c0 ≤ c ∧ OptionMeaning argv "--product" c0 c o0.product o.product ∧
        OptionMeaning argv "--version" c0 c o0.version o.version := by
  intro fuel
  induction fuel with
  | zero =>
    intro c0 o0 c o ev h
    rw [symupload_nodump.optionLoop] at h
    split at h
    · cases h
    · injection h with h
      injection h with h1 h
      injection h with h2 h
      subst h1 h2
      exact ⟨le_refl _, OptionMeaning.refl _ _ _ _, OptionMeaning.refl _ _ _ _⟩
  | succ fuel ih =>
    intro c0 o0 c o ev h
    rw [symupload_nodump.optionLoop] at h
    by_cases hc : argv.length > c0 + 1
    · have h0 : argv[c0]? = some argv[c0] := List.getElem?_eq_getElem (by omega)
      have h1 : argv[c0 + 1]? = some argv[c0 + 1] := List.getElem?_eq_getElem (by omega)
      simp only [hc, if_true, h0, h1] at h
      by_cases ht : argv[c0] = "--timeout"
      · simp only [ht, if_true] at h
        cases hrec : symupload_nodump.optionLoop env argv fuel (c0 + 2)
            { o0 with timeout := env.wtoi argv[c0 + 1] } with
        | none => rw [hrec] at h; cases h
        | some r =>
          obtain ⟨c', o', later⟩ := r
          rw [hrec] at h
          injection h with h
          injection h with h1' h
          injection h with h2' h
          subst h1' h2'
          obtain ⟨hle, hp, hv⟩ := ih _ _ _ _ _ hrec
          rw [ht] at h0
          exact ⟨by omega,
            OptionMeaning.skip _ _ _ _ _ _ hle (by rw [h0]; decide) hp,
            OptionMeaning.skip _ _ _ _ _ _ hle (by rw [h0]; decide) hv⟩
      · by_cases hpr : argv[c0] = "--product"
        · simp only [hpr, if_true] at h
          simp only [show ¬ ("--product" = "--timeout") by decide, if_false] at h
          cases hrec : symupload_nodump.optionLoop env argv fuel (c0 + 2)
              { o0 with product := some argv[c0 + 1] } with
          | none => rw [hrec] at h; cases h
          | some r =>
            obtain ⟨c', o', later⟩ := r
            rw [hrec] at h
            injection h with h
            injection h with h1' h
            injection h with h2' h
            subst h1' h2'
            obtain ⟨hle, hp, hv⟩ := ih _ _ _ _ _ hrec
            rw [hpr] at h0
            exact ⟨by omega,
              OptionMeaning.assign _ _ _ _ _ _ _ hle h0 h1 hp,
              OptionMeaning.skip _ _ _ _ _ _ hle (by rw [h0]; decide) hv⟩
        · by_cases hvr : argv[c0] = "--version"
          · simp only [hvr, if_true] at h
            simp only [show ¬ ("--version" = "--timeout") by decide,
              show ¬ ("--version" = "--product") by decide, if_false] at h
            cases hrec : symupload_nodump.optionLoop env argv fuel (c0 + 2)
                { o0 with version := some argv[c0 + 1] } with
            | none => rw [hrec] at h; cases h
            | some r =>
              obtain ⟨c', o', later⟩ := r
              rw [hrec] at h
              injection h with h
              injection h with h1' h
              injection h with h2' h
              subst h1' h2'
              obtain ⟨hle, hp, hv⟩ := ih _ _ _ _ _ hrec
              rw [hvr] at h0
              exact ⟨by omega,
                OptionMeaning.skip _ _ _ _ _ _ hle (by rw [h0]; decide) hp,
                OptionMeaning.assign _ _ _ _ _ _ _ hle h0 h1 hv⟩
          · simp only [ht, hpr, hvr, if_false] at h
            injection h with h
            injection h with h1' h
            injection h with h2' h
            subst h1' h2'
            exact ⟨le_refl _, OptionMeaning.refl _ _ _ _, OptionMeaning.refl _ _ _ _⟩
    · simp only [hc, if_false] at h
      injection h with h
      injection h with h1 h
      injection h with h2 h
      subst h1 h2
      exact ⟨le_refl _, OptionMeaning.refl _ _ _ _, OptionMeaning.refl _ _ _ _⟩

theorem reads_append (a b : List Event) : reads (a ++ b) = reads a ++ reads b := by
  induction a with
  | nil => rfl
  | cons e rest ih => cases e <;> simp [reads, ih]

theorem sendResults_append (a b : List Event) :
    sendResults (a ++ b) = sendResults a ++ sendResults b := by
  induction a with
  | nil => rfl
  | cons e rest ih => cases e <;> simp [sendResults, ih]

theorem responseCodes_append (a b : List Line) :
    responseCodes (a ++ b) = responseCodes a ++ responseCodes b := by
  induction a with
  | nil => rfl
  | cons e rest ih => cases e <;> simp [responseCodes, ih]

theorem failures_append (a b : List Line) : failures (a ++ b) = failures a ++ failures b := by
  induction a with
  | nil => rfl
  | cons e rest ih => cases e <;> simp [failures, ih]

theorem summaries_append (a b : List Line) :
    summaries (a ++ b) = summaries a ++ summaries b := by
  induction a with
  | nil => rfl
  | cons e rest ih => cases e <;> simp [summaries, ih]

/-- The calls and flags of a trace are the components of its results. -/
theorem sendResults_components (ev : List Event) :
    (sendResults ev).map Prod.fst = sends ev ∧
    (sendResults ev).map (fun e => e.2.1) = sendFlags ev := by
  induction ev with
  | nil => exact ⟨rfl, rfl⟩
  | cons e rest ih => cases e <;> simp [sendResults, sends, sendFlags, ih.1, ih.2]

/-- The lines and reads of the upload loop: every call is recorded with the
reply of the uploader, every call prints one response-code line, every failed
call one failure line before it, no summary line is printed, and the reads are
those of the remaining arguments. -/
theorem uploadLoop_lines (env : Env) (argv : List String) (parameters : Params)
    (symbol_file : String) (timeout : Int) :
    ∀ (fuel currentarg : Nat) (made : List SendArgs) (success s : Bool) (ev : List Event),
      uploadLoop env argv parameters symbol_file timeout fuel currentarg made success
        = some (s, ev) →
      sendResults ev = (sends ev).zip (replies env made (sends ev)) ∧
      responseCodes (printed ev) = (sendResults ev).map (fun e => e.2.2) ∧
      failures (printed ev) = failedTargets (sendResults ev) ∧
      summaries (printed ev) = [] ∧
      (∀ i ∈ reads ev, currentarg ≤ i ∧ i < argv.length) := by
  intro fuel
  induction fuel with
  | zero =>
    intro c made success s ev h
    rw [uploadLoop] at h
    split at h
    · cases h
    · injection h with h
      injection h with _ h
      subst h
      simp [sendResults, sends, replies, printed, responseCodes, failures, failedTargets,
        summaries, reads]
  | succ fuel ih =>
    intro c made success s ev h
    by_cases hc : c < argv.length
    · rw [uploadLoop] at h
      simp only [hc, if_true, List.getElem?_eq_getElem hc] at h
      cases hrec : uploadLoop env argv parameters symbol_file timeout fuel (c + 1)
          (made ++ [callFor parameters symbol_file timeout argv[c]])
          (success && (env.SendRequest made (callFor parameters symbol_file timeout argv[c])).1)
        with
      | none => rw [hrec] at h; cases h
      | some r =>
        obtain ⟨s', later⟩ := r
        rw [hrec] at h
        injection h with h
        injection h with _ h
        subst h
        obtain ⟨i1, i2, i3, i4, i5⟩ := ih _ _ _ _ _ hrec
        have hreads : ∀ i ∈ reads later, c ≤ i ∧ i < argv.length := fun i hi =>
          ⟨by have := (i5 i hi).1; omega, (i5 i hi).2⟩
        cases hr : (env.SendRequest made (callFor parameters symbol_file timeout argv[c])).1
        · simp only [Bool.false_eq_true, if_false, List.cons_append, List.nil_append]
          simp only [sendResults, sends, printed, responseCodes, failures, summaries, reads,
            replies, List.zip_cons_cons, List.map_cons, failedTargets]
          refine ⟨?_, ?_, ?_, i4, ?_⟩
          · rw [i1, ← hr]
          · rw [i2]
          · rw [i3]
            simp [callFor]
          · intro i hi
            rcases List.mem_cons.1 hi with rfl | hi
            · exact ⟨le_refl _, hc⟩
            · rcases List.mem_cons.1 hi with rfl | hi
              · exact ⟨le_refl _, hc⟩
              · exact hreads i hi
        · simp only [if_true, List.cons_append, List.nil_append]
          simp only [sendResults, sends, printed, responseCodes, failures, summaries, reads,
            replies, List.zip_cons_cons, List.map_cons, failedTargets]
          refine ⟨?_, ?_, ?_, i4, ?_⟩
          · rw [i1, ← hr]
          · rw [i2]
          · rw [i3]
            simp [callFor]
          · intro i hi
            rcases List.mem_cons.1 hi with rfl | hi
            · exact ⟨le_refl _, hc⟩
            · exact hreads i hi
    · rw [uploadLoop] at h
      simp only [hc, if_false] at h
      injection h with h
      injection h with _ h
      subst h
      simp [sendResults, sends, replies, printed, responseCodes, failures, failedTargets,
        summaries, reads]

/-- Without further iterations the held timeout is the initial one. -/
theorem TimeoutMeaning.timeout_refl (wtoi : String → Int) (argv : List String) (c0 : Nat)
    (start : Int) : TimeoutMeaning wtoi argv c0 c0 start start :=
  Or.inl ⟨rfl, fun j a b => by omega⟩

/-- An iteration that consumes another option keeps the meaning of the timeout. -/
theorem TimeoutMeaning.timeout_skip (wtoi : String → Int) (argv : List String) (c0 c : Nat)
    (start held : Int) (hother : argv[c0]? ≠ some "--timeout")
    (h : TimeoutMeaning wtoi argv (c0 + 2) c start held) :
    TimeoutMeaning wtoi argv c0 c start held := by
  rcases h with ⟨he, hall⟩ | ⟨i, v, a, b, p, q, r, e, hlast⟩
  · refine Or.inl ⟨he, fun j a b p => ?_⟩
    by_cases hj : j = c0
    · subst hj
      exact hother
    · exact hall j (by omega) b (by omega)
  · exact Or.inr ⟨i, v, by omega, b, by omega, q, r, e, fun j a' b' p' =>
      hlast j a' b' (by omega)⟩

/-- An iteration that consumes `--timeout` with the argument `v0` sets the
value the rest of the loop starts from. -/
theorem TimeoutMeaning.timeout_assign (wtoi : String → Int) (argv : List String) (c0 c : Nat)
    (start held : Int) (v0 : String) (hle : c0 + 2 ≤ c)
    (hname : argv[c0]? = some "--timeout") (hval : argv[c0 + 1]? = some v0)
    (h : TimeoutMeaning wtoi argv (c0 + 2) c (wtoi v0) held) :
    TimeoutMeaning wtoi argv c0 c start held := by
  rcases h with ⟨he, hall⟩ | ⟨i, v, a, b, p, q, r, e, hlast⟩
  · exact Or.inr ⟨c0, v0, le_refl _, by omega, by simp, hname, hval, he, fun j a' b' p' =>
      hall j (by omega) b' (by omega)⟩
  · exact Or.inr ⟨i, v, by omega, b, by omega, q, r, e, fun j a' b' p' =>
      hlast j a' b' (by omega)⟩

/-- The timeout `symupload` holds after its option loop in terms of the
argument vector, and the reads of the loop. -/
theorem symupload.optionLoop_timeout (env : Env) (argv : List String) :
    ∀ (fuel c0 : Nat) (o0 : symupload.Options) (c : Nat)
      (o : symupload.Options) (ev : List Event),
      symupload.optionLoop env argv fuel c0 o0 = some (c, o, ev) →
      c0 ≤ c ∧ TimeoutMeaning env.wtoi argv c0 c o0.timeout o.timeout ∧
        ∀ i ∈ reads ev, c0 ≤ i ∧ i < argv.length := by
  intro fuel
  induction fuel with
  | zero =>
    intro c0 o0 c o ev h
    rw [symupload.optionLoop] at h
    split at h
    · cases h
    · injection h with h
      injection h with h1 h
      injection h with h2 h
      subst h1 h2 h
      exact ⟨le_refl _, TimeoutMeaning.timeout_refl _ _ _ _, fun i hi => by simp [reads] at hi⟩
  | succ fuel ih =>
    intro c0 o0 c o ev h
    rw [symupload.optionLoop] at h
    by_cases hc : argv.length > c0 + 1
    · have h0 : argv[c0]? = some argv[c0] := List.getElem?_eq_getElem (by omega)
      have h1 : argv[c0 + 1]? = some argv[c0 + 1] := List.getElem?_eq_getElem (by omega)
      simp only [hc, if_true, h0, h1] at h
      by_cases ht : argv[c0] = "--timeout"
      · simp only [ht, if_true] at h
        cases hrec : symupload.optionLoop env argv fuel (c0 + 2)
            { o0 with timeout := env.wtoi argv[c0 + 1] } with
        | none => rw [hrec] at h; cases h
        | some r =>
          obtain ⟨c', o', later⟩ := r
          rw [hrec] at h
          injection h with h
          injection h with h1' h
          injection h with h2' h
          subst h1' h2' h
          obtain ⟨hle, hm, hr⟩ := ih _ _ _ _ _ hrec
          rw [ht] at h0
          refine ⟨by omega, TimeoutMeaning.timeout_assign _ _ _ _ _ _ _ hle h0 h1 hm, fun i hi => ?_⟩
          simp only [List.cons_append, List.nil_append, reads, List.mem_cons] at hi
          rcases hi with rfl | rfl | hi
          · omega
          · omega
          · have := hr i hi
            omega
      · by_cases hpr : argv[c0] = "--product"
        · simp only [hpr, if_true] at h
          simp only [show ¬ ("--product" = "--timeout") by decide, if_false] at h
          cases hrec : symupload.optionLoop env argv fuel (c0 + 2)
              { o0 with product := some argv[c0 + 1] } with
          | none => rw [hrec] at h; cases h
          | some r =>
            obtain ⟨c', o', later⟩ := r
            rw [hrec] at h
            injection h with h
            injection h with h1' h
            injection h with h2' h
            subst h1' h2' h
            obtain ⟨hle, hm, hr⟩ := ih _ _ _ _ _ hrec
            rw [hpr] at h0
            refine ⟨by omega, TimeoutMeaning.timeout_skip _ _ _ _ _ _ (by rw [h0]; decide) hm,
              fun i hi => ?_⟩
            simp only [List.cons_append, List.nil_append, reads, List.mem_cons] at hi
            rcases hi with rfl | rfl | rfl | hi
            · omega
            · omega
            · omega
            · have := hr i hi
              omega
        · simp only [ht, hpr, if_false] at h
          injection h with h
          injection h with h1' h
          injection h with h2' h
          subst h1' h2' h
          refine ⟨le_refl _, TimeoutMeaning.timeout_refl _ _ _ _, fun i hi => ?_⟩
          simp only [reads, List.mem_cons, List.mem_nil_iff, or_false] at hi
          rcases hi with rfl | rfl <;> omega
    · simp only [hc, if_false] at h
      injection h with h
      injection h with h1 h
      injection h with h2 h
      subst h1 h2 h
      exact ⟨le_refl _, TimeoutMeaning.timeout_refl _ _ _ _, fun i hi => by simp [reads] at hi⟩

/-- The timeout `symupload_nodump` holds after its option loop in terms of the
argument vector, and the reads of the loop. -/
theorem symupload_nodump.nodump_optionLoop_timeout (env : Env) (argv : List String) :
    ∀ (fuel c0 : Nat) (o0 : symupload_nodump.Options) (c : Nat)
      (o : symupload_nodump.Options) (ev : List Event),
      symupload_nodump.optionLoop env argv fuel c0 o0 = some (c, o, ev) →
      c0 ≤ c ∧ TimeoutMeaning env.wtoi argv c0 c o0.timeout o.timeout ∧
        ∀ i ∈ reads ev, c0 ≤ i ∧ i < argv.length := by
  intro fuel
  induction fuel with
  | zero =>
    intro c0 o0 c o ev h
    rw [symupload_nodump.optionLoop] at h
    split at h
    · cases h
    · injection h with h
      injection h with h1 h
      injection h with h2 h
      subst h1 h2 h
      exact ⟨le_refl _, TimeoutMeaning.timeout_refl _ _ _ _, fun i hi => by simp [reads] at hi⟩
  | succ fuel ih =>
    intro c0 o0 c o ev h
    rw [symupload_nodump.optionLoop] at h
    by_cases hc : argv.length > c0 + 1
    · have h0 : argv[c0]? = some argv[c0] := List.getElem?_eq_getElem (by omega)
      have h1 : argv[c0 + 1]? = some argv[c0 + 1] := List.getElem?_eq_getElem (by omega)
      simp only [hc, if_true, h0, h1] at h
      by_cases ht : argv[c0] = "--timeout"
      · simp only [ht, if_true] at h
        cases hrec : symupload_nodump.optionLoop env argv fuel (c0 + 2)
            { o0 with timeout := env.wtoi argv[c0 + 1] } with
        | none => rw [hrec] at h; cases h
        | some r =>
          obtain ⟨c', o', later⟩ := r
          rw [hrec] at h
          injection h with h
          injection h with h1' h
          injection h with h2' h
          subst h1' h2' h
          obtain ⟨hle, hm, hr⟩ := ih _ _ _ _ _ hrec
          rw [ht] at h0
          refine ⟨by omega, TimeoutMeaning.timeout_assign _ _ _ _ _ _ _ hle h0 h1 hm, fun i hi => ?_⟩
          simp only [List.cons_append, List.nil_append, reads, List.mem_cons] at hi
          rcases hi with rfl | rfl | hi
          · omega
          · omega
          · have := hr i hi
            omega
      · by_cases hpr : argv[c0] = "--product"
        · simp only [hpr, if_true] at h
          simp only [show ¬ ("--product" = "--timeout") by decide, if_false] at h
          cases hrec : symupload_nodump.optionLoop env argv fuel (c0 + 2)
              { o0 with product := some argv[c0 + 1] } with
          | none => rw [hrec] at h; cases h
          | some r =>
            obtain ⟨c', o', later⟩ := r
            rw [hrec] at h
            injection h with h
            injection h with h1' h
            injection h with h2' h
            subst h1' h2' h
            obtain ⟨hle, hm, hr⟩ := ih _ _ _ _ _ hrec
            rw [hpr] at h0
            refine ⟨by omega, TimeoutMeaning.timeout_skip _ _ _ _ _ _ (by rw [h0]; decide) hm,
              fun i hi => ?_⟩
            simp only [List.cons_append, List.nil_append, reads, List.mem_cons] at hi
            rcases hi with rfl | rfl | rfl | hi
            · omega
            · omega
            · omega
            · have := hr i hi
              omega
        · by_cases hvr : argv[c0] = "--version"
          · simp only [hvr, if_true] at h
            simp only [show ¬ ("--version" = "--timeout") by decide,
              show ¬ ("--version" = "--product") by decide, if_false] at h
            cases hrec : symupload_nodump.optionLoop env argv fuel (c0 + 2)
                { o0 with version := some argv[c0 + 1] } with
            | none => rw [hrec] at h; cases h
            | some r =>
              obtain ⟨c', o', later⟩ := r
              rw [hrec] at h
              injection h with h
              injection h with h1' h
              injection h with h2' h
              subst h1' h2' h
              obtain ⟨hle, hm, hr⟩ := ih _ _ _ _ _ hrec
              rw [hvr] at h0
              refine ⟨by omega, TimeoutMeaning.timeout_skip _ _ _ _ _ _ (by rw [h0]; decide) hm,
                fun i hi => ?_⟩
              simp only [List.cons_append, List.nil_append, reads, List.mem_cons] at hi
              rcases hi with rfl | rfl | rfl | rfl | hi
              · omega
              · omega
              · omega
              · omega
              · have := hr i hi
                omega
          · simp only [ht, hpr, hvr, if_false] at h
            injection h with h
            injection h with h1' h
            injection h with h2' h
            subst h1' h2' h
            refine ⟨le_refl _, TimeoutMeaning.timeout_refl _ _ _ _, fun i hi => ?_⟩
            simp only [reads, List.mem_cons, List.mem_nil_iff, or_false] at hi
            rcases hi with rfl | rfl | rfl <;> omega
    · simp only [hc, if_false] at h
      injection h with h
      injection h with h1 h
      injection h with h2 h
      subst h1 h2 h
      exact ⟨le_refl _, TimeoutMeaning.timeout_refl _ _ _ _, fun i hi => by simp [reads] at hi⟩

theorem finish_reads (before : List Event) (success : Bool) (a b v : String) :
    reads (finish before success a b v).trace = reads before := by
  cases success <;> simp [finish, reads_append, reads]

theorem finish_sendResults (before : List Event) (success : Bool) (a b v : String) :
    sendResults (finish before success a b v).trace = sendResults before := by
  cases success <;> simp [finish, sendResults_append, sendResults]

theorem finish_printed (before : List Event) (success : Bool) (a b v : String) :
    printed (finish before success a b v).trace =
      printed before ++ (if success then [Line.uploaded a b v] else []) := by
  cases success <;> simp [finish, printed_append, printed]

/-- The statement about the product reads no argument and prints neither a
response-code, nor a failure, nor a summary line. -/
theorem addProduct_lines (m : Params) (product : Option String) (symbol_file : String) :
    reads (addProduct m product symbol_file).2 = [] ∧
    sendResults (addProduct m product symbol_file).2 = [] ∧
    responseCodes (printed (addProduct m product symbol_file).2) = [] ∧
    failures (printed (addProduct m product symbol_file).2) = [] ∧
    summaries (printed (addProduct m product symbol_file).2) = [] := by
  cases product <;>
    simp [addProduct, reads, sendResults, printed, responseCodes, failures, summaries]

/-- The version statement of `symupload` reads no argument and prints neither
a response-code, nor a failure, nor a summary line; `file_version` is the
resolved version, or empty. -/
theorem symupload.addVersion_lines (env : Env) (m : Params) (symbol_file : String) :
    reads (symupload.addVersion env m symbol_file).2.2 = [] ∧
    sendResults (symupload.addVersion env m symbol_file).2.2 = [] ∧
    responseCodes (printed (symupload.addVersion env m symbol_file).2.2) = [] ∧
    failures (printed (symupload.addVersion env m symbol_file).2.2) = [] ∧
    summaries (printed (symupload.addVersion env m symbol_file).2.2) = [] ∧
    (symupload.addVersion env m symbol_file).2.1
      = (GetFileVersionString env symbol_file).getD "" := by
  unfold symupload.addVersion
  cases GetFileVersionString env symbol_file <;>
    simp [reads, sendResults, printed, responseCodes, failures, summaries]

/-- The events of an option loop are reads only: no results and no lines. -/
theorem quiet_lines (ev0 : List Event) (q1 : sends ev0 = []) (q4 : printed ev0 = []) :
    sendResults ev0 = [] ∧ responseCodes (printed ev0) = [] ∧
    failures (printed ev0) = [] ∧ summaries (printed ev0) = [] := by
  refine ⟨?_, by rw [q4]; rfl, by rw [q4]; rfl, by rw [q4]; rfl⟩
  have h := (sendResults_components ev0).1
  rw [q1] at h
  exact List.map_eq_nil_iff.1 h

/-- The lines, results and reads of a run of `symupload` that gets past the
usage check. -/
theorem symupload.upload_lines (env : Env) (argv : List String) (c : Nat)
    (o : symupload.Options) (ev0 : List Event)
    (hp : symupload.optionLoop env argv argv.length 1 {} = some (c, o, ev0))
    (h3 : c + 3 ≤ argv.length) :
    ∃ symbol_file code_file_raw run,
      argv[c]? = some symbol_file ∧ argv[c + 1]? = some code_file_raw ∧
      symupload.wmain env argv = some run ∧
      sendResults run.trace = (sends run.trace).zip (replies env [] (sends run.trace)) ∧
      responseCodes (printed run.trace) = (sendResults run.trace).map (fun e => e.2.2) ∧
      failures (printed run.trace) = failedTargets (sendResults run.trace) ∧
      summaries (printed run.trace) =
        (if (sendFlags run.trace).all id then
          [(symbol_file, env.GetBaseName code_file_raw,
            (GetFileVersionString env symbol_file).getD "")]
        else []) ∧
      (∀ i ∈ reads run.trace, 1 ≤ i ∧ i < argv.length) := by
  obtain ⟨sym, raw, s, ev3, h0, h1, hl, hw⟩ := symupload.wmain_eq env argv c o ev0 hp h3
  obtain ⟨s', ev', hl', -, g2, g3, -, -⟩ := uploadLoop_spec env argv
    (symupload.parameters env sym raw o.product) sym o.timeout argv.length (c + 2) [] true
    (by omega)
  have hl2 := hl
  rw [show (symupload.addVersion env
          (addProduct (baseParameters (env.GetBaseName raw) sym
            (symupload.debugIdentifier env (env.GetBaseName raw) sym))
            o.product sym).1 sym).1 = symupload.parameters env sym raw o.product from rfl,
    hl'] at hl2
  injection hl2 with hl2
  injection hl2 with hs hev
  subst hs hev
  obtain ⟨f1, f2, f3, f4, f5⟩ := uploadLoop_lines env argv _ _ _ _ _ _ _ _ _ hl
  obtain ⟨q1, q2, -, q4⟩ := symupload.optionLoop_quiet env argv c o ev0 hp
  obtain ⟨r1, r2, r3, r4⟩ := quiet_lines ev0 q1 q4
  obtain ⟨hc1, -, hrd⟩ := symupload.optionLoop_timeout env argv _ _ _ _ _ _ hp
  obtain ⟨a0, a1, a2, a3, a4⟩ := addProduct_lines (baseParameters (env.GetBaseName raw) sym
    (symupload.debugIdentifier env (env.GetBaseName raw) sym)) o.product sym
  obtain ⟨b0, b1, b2, b3, b4, b5⟩ := symupload.addVersion_lines env
    (addProduct (baseParameters (env.GetBaseName raw) sym
      (symupload.debugIdentifier env (env.GetBaseName raw) sym)) o.product sym).1 sym
  obtain ⟨pa1, pa2, -⟩ := addProduct_quiet (baseParameters (env.GetBaseName raw) sym
    (symupload.debugIdentifier env (env.GetBaseName raw) sym)) o.product sym
  obtain ⟨pb1, pb2, -⟩ := symupload.addVersion_quiet env
    (addProduct (baseParameters (env.GetBaseName raw) sym
      (symupload.debugIdentifier env (env.GetBaseName raw) sym)) o.product sym).1 sym
  refine ⟨sym, raw, _, h0, h1, hw, ?_, ?_, ?_, ?_, ?_⟩
  · rw [finish_sendResults, finish_sends]
    simp only [sendResults_append, sends_append, r1, q1, a1, pa1, b1, pb1, sendResults, sends,
      List.nil_append, List.append_nil]
    exact f1
  · rw [finish_printed, finish_sendResults]
    simp only [printed_append, responseCodes_append, sendResults_append, r1, r2, a1, a2, b1, b2,
      printed, responseCodes, sendResults, List.nil_append, List.append_nil]
    rw [f2]
    cases s' <;> simp [responseCodes]
  · rw [finish_printed, finish_sendResults]
    simp only [printed_append, failures_append, sendResults_append, r1, r3, a1, a3, b1, b3,
      printed, failures, sendResults, List.nil_append, List.append_nil]
    rw [f3]
    cases s' <;> simp [failures]
  · rw [finish_printed, finish_sendFlags]
    simp only [printed_append, summaries_append, sendFlags_append, r4, q2, a4, pa2, b4, pb2,
      printed, summaries, sendFlags, f4, List.nil_append, List.append_nil]
    have g3' : s' = (sendFlags ev').all id := by rw [g3, Bool.true_and]
    rw [b5, ← g3']
    cases s' <;> simp [summaries]
  · rw [finish_reads]
    simp only [reads_append, a0, b0, reads, List.append_nil]
    intro i hi
    simp only [List.mem_append, List.mem_cons, List.mem_nil_iff, or_false] at hi
    rcases hi with ((hi | rfl) | rfl) | hi
    · exact hrd i hi
    · omega
    · omega
    · have := f5 i hi
      omega

theorem addProduct_silent (m : Params) (product : Option String) (symbol_file : String) :
    Silent (addProduct m product symbol_file).2 := by
  cases product <;>
    simp [Silent, addProduct, reads, sends, sendFlags, sendResults, printed, responseCodes,
      failures, summaries]

/-- The lines, results and reads of a run that goes through the upload loop
and `finish`, after the events `ev0` of the option loop, the reads of the two
positionals and the silent events `m1`, `m2` of the product and version
statements. -/
theorem finish_run_lines (env : Env) (argv : List String) (parameters : Params)
    (symbol_file code_file file_version : String) (timeout : Int) (c : Nat)
    (ev0 m1 m2 ev3 : List Event) (s : Bool) (h3 : c + 3 ≤ argv.length) (hc : 1 ≤ c)
    (hl : uploadLoop env argv parameters symbol_file timeout argv.length (c + 2) [] true
      = some (s, ev3))
    (q1 : sends ev0 = []) (q2 : sendFlags ev0 = []) (q4 : printed ev0 = [])
    (hrd : ∀ i ∈ reads ev0, 1 ≤ i ∧ i < argv.length) (s1 : Silent m1) (s2 : Silent m2) :
    sendResults (finish (ev0 ++ [Event.argvRead c] ++ [Event.argvRead (c + 1)] ++ m1 ++ m2 ++ ev3)
        s symbol_file code_file file_version).trace
      = (sends (finish (ev0 ++ [Event.argvRead c] ++ [Event.argvRead (c + 1)] ++ m1 ++ m2 ++ ev3)
          s symbol_file code_file file_version).trace).zip
        (replies env [] (sends (finish
          (ev0 ++ [Event.argvRead c] ++ [Event.argvRead (c + 1)] ++ m1 ++ m2 ++ ev3)
          s symbol_file code_file file_version).trace)) ∧
    responseCodes (printed (finish
        (ev0 ++ [Event.argvRead c] ++ [Event.argvRead (c + 1)] ++ m1 ++ m2 ++ ev3)
        s symbol_file code_file file_version).trace)
      = (sendResults (finish
          (ev0 ++ [Event.argvRead c] ++ [Event.argvRead (c + 1)] ++ m1 ++ m2 ++ ev3)
          s symbol_file code_file file_version).trace).map (fun e => e.2.2) ∧
    failures (printed (finish
        (ev0 ++ [Event.argvRead c] ++ [Event.argvRead (c + 1)] ++ m1 ++ m2 ++ ev3)
        s symbol_file code_file file_version).trace)
      = failedTargets (sendResults (finish
          (ev0 ++ [Event.argvRead c] ++ [Event.argvRead (c + 1)] ++ m1 ++ m2 ++ ev3)
          s symbol_file code_file file_version).trace) ∧
    summaries (printed (finish
        (ev0 ++ [Event.argvRead c] ++ [Event.argvRead (c + 1)] ++ m1 ++ m2 ++ ev3)
        s symbol_file code_file file_version).trace)
      = (if (sendFlags (finish
            (ev0 ++ [Event.argvRead c] ++ [Event.argvRead (c + 1)] ++ m1 ++ m2 ++ ev3)
            s symbol_file code_file file_version).trace).all id
          then [(symbol_file, code_file, file_version)] else []) ∧
    (∀ i ∈ reads (finish
        (ev0 ++ [Event.argvRead c] ++ [Event.argvRead (c + 1)] ++ m1 ++ m2 ++ ev3)
        s symbol_file code_file file_version).trace, 1 ≤ i ∧ i < argv.length) := by
  obtain ⟨s', ev', hl', -, g2, g3, -, -⟩ := uploadLoop_spec env argv parameters symbol_file
    timeout argv.length (c + 2) [] true (by omega)
  rw [hl] at hl'
  injection hl' with hl'
  injection hl' with hs hev
  subst hs hev
  obtain ⟨f1, f2, f3, f4, f5⟩ := uploadLoop_lines env argv _ _ _ _ _ _ _ _ _ hl
  obtain ⟨r1, r2, r3, r4⟩ := quiet_lines ev0 q1 q4
  obtain ⟨a0, pa1, pa2, a1, a2, a3, a4⟩ := s1
  obtain ⟨b0, pb1, pb2, b1, b2, b3, b4⟩ := s2
  refine ⟨?_, ?_, ?_, ?_, ?_⟩
  · rw [finish_sendResults, finish_sends]
    simp only [sendResults_append, sends_append, r1, q1, a1, pa1, b1, pb1, sendResults, sends,
      List.nil_append, List.append_nil]
    exact f1
  · rw [finish_printed, finish_sendResults]
    simp only [printed_append, responseCodes_append, sendResults_append, r1, r2, a1, a2, b1, b2,
      printed, responseCodes, sendResults, List.nil_append, List.append_nil]
    rw [f2]
    cases s <;> simp [responseCodes]
  · rw [finish_printed, finish_sendResults]
    simp only [printed_append, failures_append, sendResults_append, r1, r3, a1, a3, b1, b3,
      printed, failures, sendResults, List.nil_append, List.append_nil]
    rw [f3]
    cases s <;> simp [failures]
  · rw [finish_printed, finish_sendFlags]
    simp only [printed_append, summaries_append, sendFlags_append, r4, q2, a4, pa2, b4, pb2,
      printed, summaries, sendFlags, f4, List.nil_append, List.append_nil]
    have g3' : s = (sendFlags ev3).all id := by rw [g3, Bool.true_and]
    rw [← g3']
    cases s <;> simp [summaries]
  · rw [finish_reads]
    simp only [reads_append, a0, b0, reads, List.append_nil]
    intro i hi
    simp only [List.mem_append, List.mem_cons, List.mem_nil_iff, or_false] at hi
    rcases hi with ((hi | rfl) | rfl) | hi
    · exact hrd i hi
    · omega
    · omega
    · have := f5 i hi
      omega

/-- The lines, results and reads of a run of `symupload_nodump` that gets past
the usage check; the three cases are those of the version statement. -/
theorem symupload_nodump.nodump_upload_lines (env : Env) (argv : List String) (c : Nat)
    (o : symupload_nodump.Options) (ev0 : List Event)
    (hp : symupload_nodump.optionLoop env argv argv.length 1 {} = some (c, o, ev0))
    (h3 : c + 3 ≤ argv.length) :
    ∃ symbol_file code_file_raw run,
      argv[c]? = some symbol_file ∧ argv[c + 1]? = some code_file_raw ∧
      symupload_nodump.wmain env argv = some run ∧
      sendResults run.trace = (sends run.trace).zip (replies env [] (sends run.trace)) ∧
      responseCodes (printed run.trace) = (sendResults run.trace).map (fun e => e.2.2) ∧
      failures (printed run.trace) = failedTargets (sendResults run.trace) ∧
      (∀ i ∈ reads run.trace, 1 ≤ i ∧ i < argv.length) ∧
      ((o.version = none ∧ GetFileVersionString env symbol_file = none ∧
          run.status = -1 ∧ summaries (printed run.trace) = []) ∨
        (∃ v, o.version = some v ∧ run.status ≠ -1 ∧
          summaries (printed run.trace) =
            (if (sendFlags run.trace).all id then
              [(symbol_file, env.GetBaseName code_file_raw, "")] else [])) ∨
        (∃ v, o.version = none ∧ GetFileVersionString env symbol_file = some v ∧
          run.status ≠ -1 ∧
          summaries (printed run.trace) =
            (if (sendFlags run.trace).all id then
              [(symbol_file, env.GetBaseName code_file_raw, v)] else []))) := by
  obtain ⟨sym, raw, h0, h1, hw⟩ := symupload_nodump.nodump_wmain_eq env argv c o ev0 hp h3
  obtain ⟨q1, q2, q3, q4⟩ := symupload_nodump.nodump_optionLoop_quiet env argv c o ev0 hp
  obtain ⟨hc1, -, hrd⟩ := symupload_nodump.nodump_optionLoop_timeout env argv _ _ _ _ _ _ hp
  have s1 := addProduct_silent (baseParameters (env.GetBaseName raw) sym
    symupload_nodump.debugIdentifier) o.product sym
  rcases symupload_nodump.nodump_addVersion_cases env
      (addProduct (baseParameters (env.GetBaseName raw) sym
        symupload_nodump.debugIdentifier) o.product sym).1 o.version sym with
    ⟨v, hv, hadd⟩ | ⟨v, hv, hg, hadd⟩ | ⟨hv, hg, hadd⟩
  · rcases hw with ⟨evV, he, -⟩ | ⟨p2, s, ev3, he, hl, hw⟩
    · rw [hadd] at he; cases he
    · rw [hadd] at he
      injection he with he
      subst he
      have s2 : Silent ([] : List Event) := ⟨rfl, rfl, rfl, rfl, rfl, rfl, rfl⟩
      obtain ⟨k1, k2, k3, k4, k5⟩ := finish_run_lines env argv _ sym (env.GetBaseName raw) ""
        o.timeout c ev0 _ _ ev3 s h3 hc1 hl q1 q2 q4 hrd s1 s2
      refine ⟨sym, raw, _, h0, h1, hw, k1, k2, k3, k5, Or.inr (Or.inl ⟨v, hv, ?_, k4⟩)⟩
      rw [finish_status]
      cases s <;> decide
  · rcases hw with ⟨evV, he, -⟩ | ⟨p2, s, ev3, he, hl, hw⟩
    · rw [hadd] at he; cases he
    · rw [hadd] at he
      injection he with he
      subst he
      have s2 : Silent [Event.resolve sym] := ⟨rfl, rfl, rfl, rfl, rfl, rfl, rfl⟩
      obtain ⟨k1, k2, k3, k4, k5⟩ := finish_run_lines env argv _ sym (env.GetBaseName raw) v
        o.timeout c ev0 _ _ ev3 s h3 hc1 hl q1 q2 q4 hrd s1 s2
      refine ⟨sym, raw, _, h0, h1, hw, k1, k2, k3, k5, Or.inr (Or.inr ⟨v, hv, hg, ?_, k4⟩)⟩
      rw [finish_status]
      cases s <;> decide
  · rcases hw with ⟨evV, he, hw⟩ | ⟨p2, s, ev3, he, -⟩
    · rw [hadd] at he
      injection he with he
      subst he
      obtain ⟨r1, r2, r3, r4⟩ := quiet_lines ev0 q1 q4
      obtain ⟨a0, pa1, pa2, a1, a2, a3, a4⟩ := s1
      refine ⟨sym, raw, _, h0, h1, hw, ?_, ?_, ?_, ?_, Or.inl ⟨hv, hg, rfl, ?_⟩⟩
      · simp only [sendResults_append, sends_append, r1, q1, a1, pa1, sendResults, sends,
          List.nil_append, List.append_nil]
        rfl
      · simp only [printed_append, responseCodes_append, sendResults_append, r1, r2, a1, a2,
          printed, responseCodes, sendResults, List.nil_append, List.append_nil]
        rfl
      · simp only [printed_append, failures_append, sendResults_append, r1, r3, a1, a3,
          printed, failures, sendResults, List.nil_append, List.append_nil]
        rfl
      · simp only [reads_append, a0, reads, List.append_nil]
        intro i hi
        simp only [List.mem_append, List.mem_cons, List.mem_nil_iff, or_false] at hi
        rcases hi with (hi | rfl) | rfl
        · exact hrd i hi
        · omega
        · omega
      · simp only [printed_append, summaries_append, r4, a4, printed, summaries,
          List.nil_append, List.append_nil]
    · rw [hadd] at he; cases he

/-- There are as many failed targets as false flags. -/
theorem failedTargets_length (rs : List (SendArgs × Bool × Int)) :
    (failedTargets rs).length = ((rs.map (fun e => e.2.1)).filter (fun ok => !ok)).length := by
  induction rs with
  | nil => rfl
  | cons e rest ih =>
    obtain ⟨call, ok, r⟩ := e
    cases ok <;> simp [failedTargets, ih]

/-- Every failed target is the URL of a call that returned failure, with the
response code of that call. -/
theorem failedTargets_mem (rs : List (SendArgs × Bool × Int)) (t : String × Int) :
    t ∈ failedTargets rs ↔
      ∃ e ∈ rs, e.2.1 = false ∧ t = (e.1.url, e.2.2) := by
  induction rs with
  | nil => simp [failedTargets]
  | cons e rest ih =>
    obtain ⟨call, ok, r⟩ := e
    cases ok
    · simp only [failedTargets, Bool.false_eq_true, if_false, List.mem_cons, ih]
      constructor
      · rintro (h | ⟨e, he, h1, h2⟩)
        · exact ⟨_, Or.inl rfl, rfl, h⟩
        · exact ⟨e, Or.inr he, h1, h2⟩
      · rintro ⟨e, he | he, h1, h2⟩
        · subst he
          exact Or.inl h2
        · exact Or.inr ⟨e, he, h1, h2⟩
    · simp only [failedTargets, if_true, List.mem_cons, ih]
      constructor
      · rintro ⟨e, he, h1, h2⟩
        exact ⟨e, Or.inr he, h1, h2⟩
      · rintro ⟨e, he | he, h1, h2⟩
        · subst he
          cases h1
        · exact ⟨e, he, h1, h2⟩

/-- The conversion `%d` produces between 1 and 11 characters. -/
theorem fmtD_length (v : Nat) : 1 ≤ (fmtD v).length ∧ (fmtD v).length ≤ 11 := by
  unfold fmtD
  simp only []
  split
  · rename_i h
    exact ⟨repr_length_pos _, le_trans (Nat.repr_length _ 10 (by decide) (by omega)) (by decide)⟩
  · rename_i h
    rw [String.length_append]
    have h1 : ("-").length = 1 := rfl
    have h2 := repr_length_pos (2 ^ 32 - v % 2 ^ 32)
    have h3 := Nat.repr_length (2 ^ 32 - v % 2 ^ 32) 10 (by decide) (by omega)
    omega

/-- In every uploader call of every run of `symupload_nodump` the entry
`debug_identifier` is the placeholder. -/
theorem symupload_nodump.nodump_identifier_sent (env : Env) (argv : List String) :
    ∃ run, symupload_nodump.wmain env argv = some run ∧
      ∀ call ∈ sends run.trace,
        call.parameters.find "debug_identifier" = some symupload_nodump.debugIdentifier := by
  obtain ⟨c, o, ev0, hp, q1, -, q3, -⟩ :=
    symupload_nodump.nodump_optionLoop_spec env argv argv.length 1 {} (by omega)
  by_cases h : argv.length < c + 3
  · obtain ⟨-, u2, -, -⟩ := printUsageAndExit_facts ev0 q1 q3
    refine ⟨_, symupload_nodump.nodump_wmain_usage env argv c o ev0 hp h, ?_⟩
    intro call hc
    rw [u2] at hc
    cases hc
  · obtain ⟨sym, raw, run, h0, h1, hw, -, hr⟩ :=
      symupload_nodump.nodump_upload_run env argv c o ev0 hp (by omega)
    refine ⟨run, hw, ?_⟩
    intro call hc
    rcases hr with ⟨-, -, -, hse, -⟩ | ⟨v, -, f1, -⟩
    · rw [hse] at hc
      cases hc
    · rw [f1] at hc
      rw [mem_calls_parameters _ _ _ _ call hc]
      exact (symupload_nodump.nodump_parameters_facts env sym raw o.product v).2.2.1

/-- Every run of `symupload` ends. -/
theorem symupload.wmain_total (env : Env) (argv : List String) :
    ∃ c o ev0 run, symupload.optionLoop env argv argv.length 1 {} = some (c, o, ev0) ∧
      symupload.wmain env argv = some run := by
  obtain ⟨c, o, ev0, hp, -⟩ := symupload.optionLoop_spec env argv argv.length 1 {} (by omega)
  by_cases h : argv.length < c + 3
  · exact ⟨c, o, ev0, _, hp, symupload.wmain_usage env argv c o ev0 hp h⟩
  · obtain ⟨sym, raw, run, -, -, hw, -⟩ := symupload.upload_run env argv c o ev0 hp (by omega)
    exact ⟨c, o, ev0, run, hp, hw⟩

/-- In every uploader call of a run of `symupload` that gets past the usage
check the entry `debug_identifier` is the `%d` rendering of the hash of the
code-file base name followed by the symbol-file argument. -/
theorem symupload.identifier_sent (env : Env) (argv : List String) (c : Nat)
    (o : symupload.Options) (ev0 : List Event)
    (hp : symupload.optionLoop env argv argv.length 1 {} = some (c, o, ev0))
    (h3 : c + 3 ≤ argv.length) :
    ∃ symbol_file code_file_raw run,
      argv[c]? = some symbol_file ∧ argv[c + 1]? = some code_file_raw ∧
      symupload.wmain env argv = some run ∧ sends run.trace ≠ [] ∧
      ∀ call ∈ sends run.trace,
        call.parameters.find "debug_identifier"
          = some (fmtD (env.wstr_hash (env.GetBaseName code_file_raw ++ symbol_file))) := by
  obtain ⟨sym, raw, run, h0, h1, hw, f1, -⟩ := symupload.upload_run env argv c o ev0 hp h3
  refine ⟨sym, raw, run, h0, h1, hw, ?_, ?_⟩
  · rw [f1]
    exact urls_ne_nil _ argv c h3
  · intro call hc
    rw [f1] at hc
    rw [mem_calls_parameters _ _ _ _ call hc]
    exact (symupload.parameters_facts env sym raw o.product).2.2.1

/-- The timeout an option loop holds when no option name is `--timeout`, and
when the last `--timeout` is at `i` with the argument `v`. -/
theorem TimeoutMeaning.timeout_value (wtoi : String → Int) (argv : List String) (c : Nat)
    (held : Int) (h : TimeoutMeaning wtoi argv 1 c (-1) held) :
    ((∀ j, 1 ≤ j → j < c → (j - 1) % 2 = 0 → argv[j]? ≠ some "--timeout") → held = -1) ∧
    (∀ i v, 1 ≤ i → i + 1 < c → (i - 1) % 2 = 0 → argv[i]? = some "--timeout" →
      argv[i + 1]? = some v →
      (∀ j, i < j → j < c → (j - 1) % 2 = 0 → argv[j]? ≠ some "--timeout") →
      held = wtoi v) := by
  constructor
  · intro hall
    rcases h with ⟨he, -⟩ | ⟨i, v, a, b, p, q, -⟩
    · exact he
    · exact absurd q (hall i a (by omega) p)
  · intro i v a b p q r hlast
    rcases h with ⟨-, hall⟩ | ⟨i', v', a', b', p', q', r', e, hlast'⟩
    · exact absurd q (hall i a (by omega) p)
    · have hi : i = i' := by
        rcases Nat.lt_trichotomy i i' with hlt | heq | hgt
        · exact absurd q' (hlast i' hlt (by omega) p')
        · exact heq
        · exact absurd q (hlast' i hgt (by omega) p)
      subst hi
      rw [r] at r'
      injection r' with r'
      subst r'
      exact e

/-- The modelled base name contains no separator. -/
theorem GetBaseName_no_separator (s : String) :
    ∀ ch ∈ (GetBaseName s).data, isSeparator ch = false := by
  intro ch hch
  have h : ch ∈ (s.data.reverse.takeWhile (fun ch => !isSeparator ch)).reverse := hch
  rw [List.mem_reverse] at h
  have h2 := List.mem_takeWhile_imp h
  simpa using h2

/-- The modelled base name of a string without separator is the string. -/
theorem GetBaseName_of_no_separator (s : String)
    (h : ∀ ch ∈ s.data, isSeparator ch = false) : GetBaseName s = s := by
  apply String.ext
  show (s.data.reverse.takeWhile (fun ch => !isSeparator ch)).reverse = s.data
  have h1 : s.data.reverse.takeWhile (fun ch => !isSeparator ch) = s.data.reverse := by
    rw [List.takeWhile_eq_self_iff]
    intro x hx
    rw [List.mem_reverse] at hx
    simp [h x hx]
  rw [h1, List.reverse_reverse]

/-- The modelled base name of a directory prefix that ends in a separator,
followed by a name without separator, is the name. -/
theorem GetBaseName_of_prefix (dir name : String) (sep : Char)
    (hsep : isSeparator sep = true) (h : ∀ ch ∈ name.data, isSeparator ch = false) :
    GetBaseName (dir ++ String.singleton sep ++ name) = name := by
  apply String.ext
  show ((dir ++ String.singleton sep ++ name).data.reverse.takeWhile
    (fun ch => !isSeparator ch)).reverse = name.data
  rw [String.data_append, String.data_append, String.data_singleton, List.reverse_append,
    List.reverse_append, List.reverse_singleton, List.singleton_append,
    List.takeWhile_append_of_pos, List.takeWhile_cons_of_neg, List.append_nil,
    List.reverse_reverse]
  · simp [hsep]
  · intro x hx
    rw [List.mem_reverse] at hx
    simp [h x hx]

/-- When no option name read by the option loop of `symupload_nodump` is
`--version`, the option loop of `symupload` stops at the same `currentarg`
with the same product and timeout. -/
theorem optionLoop_agree (env : Env) (argv : List String) :
    ∀ (fuel c0 : Nat) (oA0 : symupload.Options) (oB0 : symupload_nodump.Options) (c : Nat)
      (oB : symupload_nodump.Options) (evB : List Event),
      oA0.product = oB0.product → oA0.timeout = oB0.timeout →
      symupload_nodump.optionLoop env argv fuel c0 oB0 = some (c, oB, evB) →
      (∀ j, c0 ≤ j → j < c → (j - c0) % 2 = 0 → argv[j]? ≠ some "--version") →
      ∃ oA evA, symupload.optionLoop env argv fuel c0 oA0 = some (c, oA, evA) ∧
        oA.product = oB.product ∧ oA.timeout = oB.timeout := by
  intro fuel
  induction fuel with
  | zero =>
    intro c0 oA0 oB0 c oB evB hp ht h hnv
    rw [symupload_nodump.optionLoop] at h
    rw [symupload.optionLoop]
    split at h
    · cases h
    · rename_i hc
      injection h with h
      injection h with h1 h
      injection h with h2 h
      subst h1 h2
      exact ⟨oA0, [], by simp only [hc, if_false], hp, ht⟩
  | succ fuel ih =>
    intro c0 oA0 oB0 c oB evB hp ht h hnv
    rw [symupload_nodump.optionLoop] at h
    rw [symupload.optionLoop]
    by_cases hc : argv.length > c0 + 1
    · have h0 : argv[c0]? = some argv[c0] := List.getElem?_eq_getElem (by omega)
      have h1 : argv[c0 + 1]? = some argv[c0 + 1] := List.getElem?_eq_getElem (by omega)
      simp only [hc, if_true, h0, h1] at h ⊢
      by_cases hto : argv[c0] = "--timeout"
      · simp only [hto, if_true] at h ⊢
        cases hrec : symupload_nodump.optionLoop env argv fuel (c0 + 2)
            { oB0 with timeout := env.wtoi argv[c0 + 1] } with
        | none => rw [hrec] at h; cases h
        | some r =>
          obtain ⟨c', o', later⟩ := r
          rw [hrec] at h
          injection h with h
          injection h with h1' h
          injection h with h2' h
          subst h1' h2'
          obtain ⟨hle, -⟩ := symupload_nodump.nodump_optionLoop_meaning env argv _ _ _ _ _ _ hrec
          obtain ⟨oA, evA, hA, e1, e2⟩ := ih (c0 + 2)
            { oA0 with timeout := env.wtoi argv[c0 + 1] }
            { oB0 with timeout := env.wtoi argv[c0 + 1] } c' o' later hp rfl hrec
            (fun j a b p => hnv j (by omega) b (by omega))
          rw [hA]
          exact ⟨oA, _, rfl, e1, e2⟩
      · by_cases hpr : argv[c0] = "--product"
        · simp only [hpr, if_true] at h ⊢
          simp only [show ¬ ("--product" = "--timeout") by decide, if_false] at h ⊢
          cases hrec : symupload_nodump.optionLoop env argv fuel (c0 + 2)
              { oB0 with product := some argv[c0 + 1] } with
          | none => rw [hrec] at h; cases h
          | some r =>
            obtain ⟨c', o', later⟩ := r
            rw [hrec] at h
            injection h with h
            injection h with h1' h
            injection h with h2' h
            subst h1' h2'
            obtain ⟨oA, evA, hA, e1, e2⟩ := ih (c0 + 2)
              { oA0 with product := some argv[c0 + 1] }
              { oB0 with product := some argv[c0 + 1] } c' o' later rfl ht hrec
              (fun j a b p => hnv j (by omega) b (by omega))
            rw [hA]
            exact ⟨oA, _, rfl, e1, e2⟩
        · by_cases hvr : argv[c0] = "--version"
          · simp only [hvr, if_true] at h
            simp only [show ¬ ("--version" = "--timeout") by decide,
              show ¬ ("--version" = "--product") by decide, if_false] at h
            cases hrec : symupload_nodump.optionLoop env argv fuel (c0 + 2)
                { oB0 with version := some argv[c0 + 1] } with
            | none => rw [hrec] at h; cases h
            | some r =>
              obtain ⟨c', o', later⟩ := r
              rw [hrec] at h
              injection h with h
              injection h with h1' h
              injection h with h2' h
              subst h1' h2'
              obtain ⟨hle, -⟩ :=
                symupload_nodump.nodump_optionLoop_meaning env argv _ _ _ _ _ _ hrec
              rw [hvr] at h0
              exact absurd h0 (hnv c0 (le_refl _) (by omega) (by simp))
          · simp only [hto, hpr, hvr, if_false] at h ⊢
            injection h with h
            injection h with h1' h
            injection h with h2' h
            subst h1' h2'
            exact ⟨oA0, _, rfl, hp, ht⟩
    · simp only [hc, if_false] at h ⊢
      injection h with h
      injection h with h1 h
      injection h with h2 h
      subst h1 h2
      exact ⟨oA0, [], rfl, hp, ht⟩

/-- The entries other than `debug_identifier` do not depend on the debug identifier. -/
theorem find_other_than_identifier (code_file symbol_file d1 d2 : String)
    (product : Option String) (version k : String) (hk : k ≠ "debug_identifier") :
    (((addProduct (baseParameters code_file symbol_file d1) product symbol_file).1).set
        "version" version).find k
      = (((addProduct (baseParameters code_file symbol_file d2) product symbol_file).1).set
        "version" version).find k := by
  have hb : ∀ k', k' ≠ "debug_identifier" →
      (baseParameters code_file symbol_file d1).find k'
        = (baseParameters code_file symbol_file d2).find k' := by
    intro k' hk'
    have hk2 : ¬ "debug_identifier" = k' := fun e => hk' e.symm
    simp [baseParameters, Params.set, Params.find, hk2]
  by_cases hv : k = "version"
  · subst hv
    rw [Params.find_set_same, Params.find_set_same]
  · rw [Params.find_set_other _ _ _ _ hv, Params.find_set_other _ _ _ _ hv]
    cases product with
    | none => exact hb k hk
    | some p =>
      simp only [addProduct]
      by_cases hp : k = "product"
      · subst hp
        rw [Params.find_set_same, Params.find_set_same]
      · rw [Params.find_set_other _ _ _ _ hp, Params.find_set_other _ _ _ _ hp]
        exact hb k hk

/-- The summary line of `symupload_nodump` after a `--version` option: the
third argument of the call is `file_version`, which is assigned only on the
resolver branch, so a successful run that sends the option value as `version`
prints an empty third field. -/
theorem symupload_nodump.nodump_summary_after_version_option (env : Env)
    (argv : List String) (c : Nat) (o : symupload_nodump.Options) (ev0 : List Event)
    (VER : String)
    (hp : symupload_nodump.optionLoop env argv argv.length 1 {} = some (c, o, ev0))
    (h3 : c + 3 ≤ argv.length) (hv : o.version = some VER) :
    ∃ symbol_file code_file_raw run,
      argv[c]? = some symbol_file ∧ argv[c + 1]? = some code_file_raw ∧
      symupload_nodump.wmain env argv = some run ∧
      (∀ call ∈ sends run.trace, call.parameters.find "version" = some VER) ∧
      (run.status = 0 →
        summaries (printed run.trace) = [(symbol_file, env.GetBaseName code_file_raw, "")]) := by
  obtain ⟨sym, raw, run, h0, h1, hw, -, -, -, -, k4⟩ :=
    symupload_nodump.nodump_upload_lines env argv c o ev0 hp h3
  obtain ⟨sym', raw', run', h0', h1', hw', -, hr⟩ :=
    symupload_nodump.nodump_upload_run env argv c o ev0 hp h3
  rw [hw] at hw'
  injection hw' with e
  rw [h0] at h0'
  injection h0' with e0
  rw [h1] at h1'
  injection h1' with e1
  subst e e0 e1
  rcases hr with ⟨hn, -⟩ | ⟨w, hcase, f1, -, f3⟩
  · rw [hv] at hn
    cases hn
  · have hw2 : w = VER := by
      rcases hcase with ⟨hv', -⟩ | ⟨hn, -⟩
      · rw [hv] at hv'
        injection hv' with hv'
        exact hv'.symm
      · rw [hv] at hn
        cases hn
    subst hw2
    refine ⟨sym, raw, run, h0, h1, hw, ?_, ?_⟩
    · intro call hc
      rw [f1] at hc
      rw [mem_calls_parameters _ _ _ _ call hc]
      exact (symupload_nodump.nodump_parameters_facts env sym raw o.product w).2.2.2.2.2.2
    · intro hst
      have hall : (sendFlags run.trace).all id = true := by
        by_cases ha : (sendFlags run.trace).all id = true
        · exact ha
        · rw [if_neg ha] at f3
          rw [f3] at hst
          cases hst
      rcases k4 with ⟨hn, -⟩ | ⟨v', -, -, k⟩ | ⟨v', hn, -⟩
      · rw [hv] at hn
        cases hn
      · rw [k, if_pos hall]
      · rw [hv] at hn
        cases hn

/-! ## The claims -/

/-- C1: in both variants, for every argument vector that gets past the usage
check (three arguments are left after the options) and, in `symupload_nodump`,
past the version check (a `--version` value or a resolvable file version), and
for every uploader, the run ends, the success flags of its trace are the
uploader's replies to the calls for the URLs, the exit status is 0 exactly when
every flag is true, and it is 1 otherwise. -/
theorem C1_exit_status_is_conjunction_of_uploads (env : Env) (argv : List String) :
    (∀ c o ev0, symupload.optionLoop env argv argv.length 1 {} = some (c, o, ev0) →
      c + 3 ≤ argv.length →
      ∃ run, symupload.wmain env argv = some run ∧
        (sends run.trace).map SendArgs.url = argv.drop (c + 2) ∧
        sendFlags run.trace = (replies env [] (sends run.trace)).map Prod.fst ∧
        (run.status = 0 ↔ ∀ ok ∈ sendFlags run.trace, ok = true) ∧
        (run.status = 1 ↔ ¬ ∀ ok ∈ sendFlags run.trace, ok = true)) ∧
    (∀ c o ev0 symbol_file,
      symupload_nodump.optionLoop env argv argv.length 1 {} = some (c, o, ev0) →
      c + 3 ≤ argv.length → argv[c]? = some symbol_file →
      (o.version ≠ none ∨ GetFileVersionString env symbol_file ≠ none) →
      ∃ run, symupload_nodump.wmain env argv = some run ∧
        (sends run.trace).map SendArgs.url = argv.drop (c + 2) ∧
        sendFlags run.trace = (replies env [] (sends run.trace)).map Prod.fst ∧
        (run.status = 0 ↔ ∀ ok ∈ sendFlags run.trace, ok = true) ∧
        (run.status = 1 ↔ ¬ ∀ ok ∈ sendFlags run.trace, ok = true)) := by
  constructor
  · intro c o ev0 hp h3
    obtain ⟨sym, raw, run, -, -, hw, f1, f2, f3, -, -⟩ :=
      symupload.upload_run env argv c o ev0 hp h3
    refine ⟨run, hw, ?_, f2, ?_, ?_⟩
    · rw [f1, List.map_map]
      exact List.map_id _
    · rw [f3]
      exact (status_of_flags _).1
    · rw [f3]
      exact (status_of_flags _).2
  · intro c o ev0 symbol_file hp h3 hs hv
    obtain ⟨sym, raw, run, h0, -, hw, -, hr⟩ :=
      symupload_nodump.nodump_upload_run env argv c o ev0 hp h3
    rw [hs] at h0
    injection h0 with h0
    subst h0
    rcases hr with ⟨hn, hg, -⟩ | ⟨v, -, f1, f2, f3⟩
    · rcases hv with hv | hv
      · exact absurd hn hv
      · exact absurd hg hv
    · refine ⟨run, hw, ?_, f2, ?_, ?_⟩
      · rw [f1, List.map_map]
        exact List.map_id _
      · rw [f3]
        exact (status_of_flags _).1
      · rw [f3]
        exact (status_of_flags _).2

/-- The statement of C1 at the sample environment: `symupload` on two URLs of
which the second fails, `symupload_nodump` with `--version 1.0` on one URL. -/
theorem C1_exit_status_witness :
    (∃ run, symupload.wmain demoEnv ["symupload", "app.sym", "app.dll", "http://a", "http://b"]
        = some run ∧
      (sends run.trace).map SendArgs.url = ["http://a", "http://b"] ∧
      sendFlags run.trace = (replies demoEnv [] (sends run.trace)).map Prod.fst ∧
      (run.status = 0 ↔ ∀ ok ∈ sendFlags run.trace, ok = true) ∧
      (run.status = 1 ↔ ¬ ∀ ok ∈ sendFlags run.trace, ok = true)) ∧
    (∃ run, symupload_nodump.wmain demoEnv
        ["symupload", "--version", "1.0", "x.sym", "app.dll", "http://a"] = some run ∧
      (sends run.trace).map SendArgs.url = ["http://a"] ∧
      sendFlags run.trace = (replies demoEnv [] (sends run.trace)).map Prod.fst ∧
      (run.status = 0 ↔ ∀ ok ∈ sendFlags run.trace, ok = true) ∧
      (run.status = 1 ↔ ¬ ∀ ok ∈ sendFlags run.trace, ok = true)) :=
  ⟨(C1_exit_status_is_conjunction_of_uploads demoEnv
      ["symupload", "app.sym", "app.dll", "http://a", "http://b"]).1 1 {}
      [Event.argvRead 1, Event.argvRead 1] (by decide) (by decide),
    (C1_exit_status_is_conjunction_of_uploads demoEnv
      ["symupload", "--version", "1.0", "x.sym", "app.dll", "http://a"]).2 3
      { version := some "1.0" }
      [Event.argvRead 1, Event.argvRead 1, Event.argvRead 1, Event.argvRead 2,
        Event.argvRead 3, Event.argvRead 3, Event.argvRead 3]
      "x.sym" (by decide) (by decide) (by decide) (Or.inl (by decide))⟩

/-- C2: in both variants, for every run that reaches the upload loop with the
URLs `argv[c+2], ..., argv[argc-1]`, the uploader calls of the trace are exactly
one call per URL in command-line order; all calls carry one and the same
parameter map, the symbol-file argument as payload, the field name
`symbol_file` and the same timeout argument. -/
theorem C2_one_call_per_url_in_order (env : Env) (argv : List String) :
    (∀ c o ev0, symupload.optionLoop env argv argv.length 1 {} = some (c, o, ev0) →
      c + 3 ≤ argv.length →
      ∃ symbol_file parameters run, argv[c]? = some symbol_file ∧
        symupload.wmain env argv = some run ∧
        sends run.trace = (argv.drop (c + 2)).map (fun url =>
          { url := url, parameters := parameters, upload_file := symbol_file,
            file_part_name := "symbol_file", timeout := timeoutArg o.timeout })) ∧
    (∀ c o ev0 symbol_file,
      symupload_nodump.optionLoop env argv argv.length 1 {} = some (c, o, ev0) →
      c + 3 ≤ argv.length → argv[c]? = some symbol_file →
      (o.version ≠ none ∨ GetFileVersionString env symbol_file ≠ none) →
      ∃ parameters run, symupload_nodump.wmain env argv = some run ∧
        sends run.trace = (argv.drop (c + 2)).map (fun url =>
          { url := url, parameters := parameters, upload_file := symbol_file,
            file_part_name := "symbol_file", timeout := timeoutArg o.timeout })) := by
  constructor
  · intro c o ev0 hp h3
    obtain ⟨sym, raw, run, h0, -, hw, f1, -⟩ := symupload.upload_run env argv c o ev0 hp h3
    exact ⟨sym, _, run, h0, hw, f1⟩
  · intro c o ev0 symbol_file hp h3 hs hv
    obtain ⟨sym, raw, run, h0, -, hw, -, hr⟩ :=
      symupload_nodump.nodump_upload_run env argv c o ev0 hp h3
    rw [hs] at h0
    injection h0 with h0
    subst h0
    rcases hr with ⟨hn, hg, -⟩ | ⟨v, -, f1, -⟩
    · rcases hv with hv | hv
      · exact absurd hn hv
      · exact absurd hg hv
    · exact ⟨_, run, hw, f1⟩

/-- The statement of C2 at the sample environment: two URLs of which the
second fails in `symupload`, a timeout option and a resolved version in
`symupload_nodump`. -/
theorem C2_one_call_per_url_witness :
    (∃ symbol_file parameters run,
      ["symupload", "app.sym", "app.dll", "http://b", "http://a"][1]? = some symbol_file ∧
      symupload.wmain demoEnv ["symupload", "app.sym", "app.dll", "http://b", "http://a"]
        = some run ∧
      sends run.trace = (["symupload", "app.sym", "app.dll", "http://b", "http://a"].drop 3).map
        (fun url =>
          { url := url, parameters := parameters, upload_file := symbol_file,
            file_part_name := "symbol_file", timeout := timeoutArg (-1) })) ∧
    (∃ parameters run, symupload_nodump.wmain demoEnv
        ["symupload", "--timeout", "5000", "app.sym", "app.dll", "http://a", "http://b"]
        = some run ∧
      sends run.trace =
        (["symupload", "--timeout", "5000", "app.sym", "app.dll", "http://a", "http://b"].drop
          5).map (fun url =>
          { url := url, parameters := parameters, upload_file := "app.sym",
            file_part_name := "symbol_file", timeout := timeoutArg 5000 })) :=
  ⟨(C2_one_call_per_url_in_order demoEnv
      ["symupload", "app.sym", "app.dll", "http://b", "http://a"]).1 1 {}
      [Event.argvRead 1, Event.argvRead 1] (by decide) (by decide),
    (C2_one_call_per_url_in_order demoEnv
      ["symupload", "--timeout", "5000", "app.sym", "app.dll", "http://a", "http://b"]).2 3
      { timeout := 5000 }
      [Event.argvRead 1, Event.argvRead 2, Event.argvRead 3, Event.argvRead 3,
        Event.argvRead 3]
      "app.sym" (by decide) (by decide) (by decide) (Or.inr (by decide))⟩

/-- C3: in both variants, for every run that reaches the upload loop, there is
at least one uploader call and the parameter map of every call holds
`code_file` (the base name of the code-file argument `argv[c+1]`), `debug_file`
(the symbol-file argument `argv[c]` as given), `debug_identifier`, `os`
(`windows`) and `cpu` (`x86`), whatever the option values are. -/
theorem C3_five_mandatory_parameters (env : Env) (argv : List String) :
    (∀ c o ev0, symupload.optionLoop env argv argv.length 1 {} = some (c, o, ev0) →
      c + 3 ≤ argv.length →
      ∃ symbol_file code_file_raw run,
        argv[c]? = some symbol_file ∧ argv[c + 1]? = some code_file_raw ∧
        symupload.wmain env argv = some run ∧ sends run.trace ≠ [] ∧
        ∀ call ∈ sends run.trace,
          call.parameters.find "code_file" = some (env.GetBaseName code_file_raw) ∧
          call.parameters.find "debug_file" = some symbol_file ∧
          call.parameters.find "debug_identifier"
            = some (symupload.debugIdentifier env (env.GetBaseName code_file_raw)
                symbol_file) ∧
          call.parameters.find "os" = some "windows" ∧
          call.parameters.find "cpu" = some "x86") ∧
    (∀ c o ev0 symbol_file,
      symupload_nodump.optionLoop env argv argv.length 1 {} = some (c, o, ev0) →
      c + 3 ≤ argv.length → argv[c]? = some symbol_file →
      (o.version ≠ none ∨ GetFileVersionString env symbol_file ≠ none) →
      ∃ code_file_raw run,
        argv[c + 1]? = some code_file_raw ∧
        symupload_nodump.wmain env argv = some run ∧ sends run.trace ≠ [] ∧
        ∀ call ∈ sends run.trace,
          call.parameters.find "code_file" = some (env.GetBaseName code_file_raw) ∧
          call.parameters.find "debug_file" = some symbol_file ∧
          call.parameters.find "debug_identifier" = some symupload_nodump.debugIdentifier ∧
          call.parameters.find "os" = some "windows" ∧
          call.parameters.find "cpu" = some "x86") := by
  constructor
  · intro c o ev0 hp h3
    obtain ⟨sym, raw, run, h0, h1, hw, f1, -⟩ := symupload.upload_run env argv c o ev0 hp h3
    refine ⟨sym, raw, run, h0, h1, hw, ?_, ?_⟩
    · rw [f1]
      exact urls_ne_nil _ argv c h3
    · intro call hc
      rw [f1] at hc
      rw [mem_calls_parameters _ _ _ _ call hc]
      obtain ⟨p1, p2, p3, p4, p5, -⟩ := symupload.parameters_facts env sym raw o.product
      exact ⟨p1, p2, p3, p4, p5⟩
  · intro c o ev0 symbol_file hp h3 hs hv
    obtain ⟨sym, raw, run, h0, h1, hw, -, hr⟩ :=
      symupload_nodump.nodump_upload_run env argv c o ev0 hp h3
    rw [hs] at h0
    injection h0 with h0
    subst h0
    rcases hr with ⟨hn, hg, -⟩ | ⟨v, -, f1, -⟩
    · rcases hv with hv | hv
      · exact absurd hn hv
      · exact absurd hg hv
    · refine ⟨raw, run, h1, hw, ?_, ?_⟩
      · rw [f1]
        exact urls_ne_nil _ argv c h3
      · intro call hc
        rw [f1] at hc
        rw [mem_calls_parameters _ _ _ _ call hc]
        obtain ⟨p1, p2, p3, p4, p5, -⟩ :=
          symupload_nodump.nodump_parameters_facts env symbol_file raw o.product v
        exact ⟨p1, p2, p3, p4, p5⟩

/-- The statement of C3 at the sample environment, with a product option in
`symupload` and a version option in `symupload_nodump`. -/
theorem C3_five_mandatory_parameters_witness :
    (∃ symbol_file code_file_raw run,
      ["symupload", "--product", "P", "app.sym", "app.dll", "http://a"][3]?
        = some symbol_file ∧
      ["symupload", "--product", "P", "app.sym", "app.dll", "http://a"][3 + 1]?
        = some code_file_raw ∧
      symupload.wmain demoEnv ["symupload", "--product", "P", "app.sym", "app.dll", "http://a"]
        = some run ∧ sends run.trace ≠ [] ∧
      ∀ call ∈ sends run.trace,
        call.parameters.find "code_file" = some (demoEnv.GetBaseName code_file_raw) ∧
        call.parameters.find "debug_file" = some symbol_file ∧
        call.parameters.find "debug_identifier"
          = some (symupload.debugIdentifier demoEnv (demoEnv.GetBaseName code_file_raw)
              symbol_file) ∧
        call.parameters.find "os" = some "windows" ∧
        call.parameters.find "cpu" = some "x86") ∧
    (∃ code_file_raw run,
      ["symupload", "--version", "1.0", "x.sym", "app.dll", "http://a"][3 + 1]?
        = some code_file_raw ∧
      symupload_nodump.wmain demoEnv
        ["symupload", "--version", "1.0", "x.sym", "app.dll", "http://a"] = some run ∧
      sends run.trace ≠ [] ∧
      ∀ call ∈ sends run.trace,
        call.parameters.find "code_file" = some (demoEnv.GetBaseName code_file_raw) ∧
        call.parameters.find "debug_file" = some "x.sym" ∧
        call.parameters.find "debug_identifier" = some symupload_nodump.debugIdentifier ∧
        call.parameters.find "os" = some "windows" ∧
        call.parameters.find "cpu" = some "x86") :=
  ⟨(C3_five_mandatory_parameters demoEnv
      ["symupload", "--product", "P", "app.sym", "app.dll", "http://a"]).1 3
      { product := some "P" }
      [Event.argvRead 1, Event.argvRead 1, Event.argvRead 2, Event.argvRead 3,
        Event.argvRead 3] (by decide) (by decide),
    (C3_five_mandatory_parameters demoEnv
      ["symupload", "--version", "1.0", "x.sym", "app.dll", "http://a"]).2 3
      { version := some "1.0" }
      [Event.argvRead 1, Event.argvRead 1, Event.argvRead 1, Event.argvRead 2,
        Event.argvRead 3, Event.argvRead 3, Event.argvRead 3]
      "x.sym" (by decide) (by decide) (by decide) (Or.inl (by decide))⟩

/-- C4: in `symupload`, for every argument vector with three arguments left
after the options, the run ends with status 0 or 1 after one uploader call per
URL, whether or not a product was given and a version could be resolved; in
every call the entry `product` is the value of the `--product` option (absent
when the option is), the entry `version` is the result of the version resolver
on the symbol file (absent when it fails), and the keys are the five mandatory
ones followed by `product` and `version` when present.  The value of the
`--product` option is the argument after the last `--product` among the option
names `argv[1], argv[3], ...` below `c` (`OptionMeaning`). -/
theorem C4_product_and_version_optional (env : Env) (argv : List String) (c : Nat)
    (o : symupload.Options) (ev0 : List Event)
    (hp : symupload.optionLoop env argv argv.length 1 {} = some (c, o, ev0))
    (h3 : c + 3 ≤ argv.length) :
    ∃ symbol_file run, argv[c]? = some symbol_file ∧
      OptionMeaning argv "--product" 1 c none o.product ∧
      symupload.wmain env argv = some run ∧
      (run.status = 0 ∨ run.status = 1) ∧
      (sends run.trace).map SendArgs.url = argv.drop (c + 2) ∧
      sends run.trace ≠ [] ∧
      ∀ call ∈ sends run.trace,
        call.parameters.find "product" = o.product ∧
        call.parameters.find "version" = GetFileVersionString env symbol_file ∧
        call.parameters.keys
          = ["code_file", "debug_file", "debug_identifier", "os", "cpu"] ++
            (if o.product.isSome then ["product"] else []) ++
            (if (GetFileVersionString env symbol_file).isSome then ["version"] else []) := by
  obtain ⟨sym, raw, run, h0, h1, hw, f1, f2, f3, -⟩ :=
    symupload.upload_run env argv c o ev0 hp h3
  refine ⟨sym, run, h0, (symupload.optionLoop_meaning env argv _ _ _ _ _ _ hp).2, hw,
    ?_, ?_, ?_, ?_⟩
  · rw [f3]
    by_cases h : (sendFlags run.trace).all id = true
    · exact Or.inl (if_pos h)
    · exact Or.inr (if_neg h)
  · rw [f1, List.map_map]
    exact List.map_id _
  · rw [f1]
    exact urls_ne_nil _ argv c h3
  · intro call hc
    rw [f1] at hc
    rw [mem_calls_parameters _ _ _ _ call hc]
    obtain ⟨-, -, -, -, -, p6, p7, p8⟩ := symupload.parameters_facts env sym raw o.product
    exact ⟨p6, p7, p8⟩

/-- The statement of C4 at the sample environment: no product option and a
symbol file without version resource. -/
theorem C4_product_and_version_optional_witness :
    ∃ symbol_file run, ["symupload", "x.sym", "app.dll", "http://a"][1]? = some symbol_file ∧
      OptionMeaning ["symupload", "x.sym", "app.dll", "http://a"] "--product" 1 1 none none ∧
      symupload.wmain demoEnv ["symupload", "x.sym", "app.dll", "http://a"] = some run ∧
      (run.status = 0 ∨ run.status = 1) ∧
      (sends run.trace).map SendArgs.url
        = ["symupload", "x.sym", "app.dll", "http://a"].drop (1 + 2) ∧
      sends run.trace ≠ [] ∧
      ∀ call ∈ sends run.trace,
        call.parameters.find "product" = (none : Option String) ∧
        call.parameters.find "version" = GetFileVersionString demoEnv symbol_file ∧
        call.parameters.keys
          = ["code_file", "debug_file", "debug_identifier", "os", "cpu"] ++
            (if (none : Option String).isSome then ["product"] else []) ++
            (if (GetFileVersionString demoEnv symbol_file).isSome then ["version"] else []) :=
  C4_product_and_version_optional demoEnv ["symupload", "x.sym", "app.dll", "http://a"] 1 {}
    [Event.argvRead 1, Event.argvRead 1] (by decide) (by decide)

/-- C5: in `symupload_nodump`, whenever the option loop has parsed a `--version`
value `VER` (the argument after the last `--version` among the option names
`argv[1], argv[3], ...` below `c`), the run ends, the entry `version` of every
uploader call is `VER` whatever the version resolver would return, the version
resolver is never called, and with three arguments left there is one call per
URL. -/
theorem C5_version_option_overrides_resolver (env : Env) (argv : List String) (c : Nat)
    (o : symupload_nodump.Options) (ev0 : List Event) (VER : String)
    (hp : symupload_nodump.optionLoop env argv argv.length 1 {} = some (c, o, ev0))
    (hv : o.version = some VER) :
    (∃ i, 1 ≤ i ∧ i + 1 < c ∧ (i - 1) % 2 = 0 ∧ argv[i]? = some "--version" ∧
      argv[i + 1]? = some VER ∧
      ∀ j, i < j → j < c → (j - 1) % 2 = 0 → argv[j]? ≠ some "--version") ∧
    ∃ run, symupload_nodump.wmain env argv = some run ∧
      (∀ call ∈ sends run.trace, call.parameters.find "version" = some VER) ∧
      resolves run.trace = [] ∧
      (c + 3 ≤ argv.length → (sends run.trace).map SendArgs.url = argv.drop (c + 2)) := by
  refine ⟨?_, ?_⟩
  · rcases (symupload_nodump.nodump_optionLoop_meaning env argv _ _ _ _ _ _ hp).2.2.2 VER hv
      with ⟨hs, -⟩ | h
    · cases hs
    · exact h
  · by_cases h : argv.length < c + 3
    · obtain ⟨q1, -, q3, -⟩ := symupload_nodump.nodump_optionLoop_quiet env argv c o ev0 hp
      obtain ⟨-, u2, u3, -⟩ := printUsageAndExit_facts ev0 q1 q3
      refine ⟨_, symupload_nodump.nodump_wmain_usage env argv c o ev0 hp h, ?_, u3, fun h' => ?_⟩
      · intro call hc
        rw [u2] at hc
        cases hc
      · omega
    · obtain ⟨sym, raw, run, h0, h1, hw, -, hr⟩ :=
        symupload_nodump.nodump_upload_run env argv c o ev0 hp (by omega)
      rcases hr with ⟨hn, -⟩ | ⟨v, hcase, f1, -⟩
      · rw [hv] at hn
        cases hn
      · rcases hcase with ⟨hv', hres⟩ | ⟨hn, -⟩
        · rw [hv] at hv'
          injection hv' with hv'
          subst hv'
          refine ⟨run, hw, ?_, hres, fun _ => ?_⟩
          · intro call hc
            rw [f1] at hc
            rw [mem_calls_parameters _ _ _ _ call hc]
            exact (symupload_nodump.nodump_parameters_facts env sym raw o.product VER).2.2.2.2.2.2
          · rw [f1, List.map_map]
            exact List.map_id _
        · rw [hv] at hn
          cases hn

/-- The statement of C5 at the sample environment with `VER = "1.0"`, on the
symbol file `app.sym` for which the resolver would return `1.2.3.4`. -/
theorem C5_version_option_witness :
    GetFileVersionString demoEnv "app.sym" = some "1.2.3.4" ∧
    (∃ i, 1 ≤ i ∧ i + 1 < 3 ∧ (i - 1) % 2 = 0 ∧
      ["symupload", "--version", "1.0", "app.sym", "app.dll", "http://a", "http://b"][i]?
        = some "--version" ∧
      ["symupload", "--version", "1.0", "app.sym", "app.dll", "http://a", "http://b"][i + 1]?
        = some "1.0" ∧
      ∀ j, i < j → j < 3 → (j - 1) % 2 = 0 →
        ["symupload", "--version", "1.0", "app.sym", "app.dll", "http://a", "http://b"][j]?
          ≠ some "--version") ∧
    ∃ run, symupload_nodump.wmain demoEnv
        ["symupload", "--version", "1.0", "app.sym", "app.dll", "http://a", "http://b"]
        = some run ∧
      (∀ call ∈ sends run.trace, call.parameters.find "version" = some "1.0") ∧
      resolves run.trace = [] ∧
      (3 + 3 ≤ ["symupload", "--version", "1.0", "app.sym", "app.dll", "http://a",
          "http://b"].length →
        (sends run.trace).map SendArgs.url
          = ["symupload", "--version", "1.0", "app.sym", "app.dll", "http://a",
              "http://b"].drop (3 + 2)) :=
  ⟨by decide,
    C5_version_option_overrides_resolver demoEnv
      ["symupload", "--version", "1.0", "app.sym", "app.dll", "http://a", "http://b"] 3
      { version := some "1.0" }
      [Event.argvRead 1, Event.argvRead 1, Event.argvRead 1, Event.argvRead 2,
        Event.argvRead 3, Event.argvRead 3, Event.argvRead 3]
      "1.0" (by decide) rfl⟩

/-- C6: in `symupload_nodump`, for every argument vector with three arguments
left after the options, if no `--version` value was parsed (none of the option
names `argv[1], argv[3], ...` below `c` is `--version`) and the version
resolver fails on the symbol file, the run ends with status `-1` and without
any uploader call; and in every run the uploader is called only if a
`--version` value was parsed or the resolver succeeded on the symbol file. -/
theorem C6_no_version_is_fatal (env : Env) (argv : List String) (c : Nat)
    (o : symupload_nodump.Options) (ev0 : List Event)
    (hp : symupload_nodump.optionLoop env argv argv.length 1 {} = some (c, o, ev0)) :
    (o.version = none ↔
      ∀ j, 1 ≤ j → j < c → (j - 1) % 2 = 0 → argv[j]? ≠ some "--version") ∧
    ∃ run, symupload_nodump.wmain env argv = some run ∧
      (∀ symbol_file, c + 3 ≤ argv.length → argv[c]? = some symbol_file →
        o.version = none → GetFileVersionString env symbol_file = none →
        run.status = -1 ∧ sends run.trace = []) ∧
      (sends run.trace ≠ [] →
        o.version ≠ none ∨
          ∃ symbol_file v, argv[c]? = some symbol_file ∧
            GetFileVersionString env symbol_file = some v) := by
  refine ⟨?_, ?_⟩
  · have h := (symupload_nodump.nodump_optionLoop_meaning env argv _ _ _ _ _ _ hp).2.2.1
    exact ⟨fun hn => (h.1 hn).2, fun hall => h.2 ⟨rfl, hall⟩⟩
  · by_cases h : argv.length < c + 3
    · obtain ⟨q1, -, q3, -⟩ := symupload_nodump.nodump_optionLoop_quiet env argv c o ev0 hp
      obtain ⟨-, u2, -, -⟩ := printUsageAndExit_facts ev0 q1 q3
      refine ⟨_, symupload_nodump.nodump_wmain_usage env argv c o ev0 hp h, ?_, fun hne => ?_⟩
      · intro symbol_file h3
        omega
      · exact absurd u2 hne
    · obtain ⟨sym, raw, run, h0, h1, hw, -, hr⟩ :=
        symupload_nodump.nodump_upload_run env argv c o ev0 hp (by omega)
      refine ⟨run, hw, ?_, ?_⟩
      · intro symbol_file _ hs hn hg
        rw [hs] at h0
        injection h0 with h0
        subst h0
        rcases hr with ⟨-, -, hst, hse, -⟩ | ⟨v, hcase, -⟩
        · exact ⟨hst, hse⟩
        · rcases hcase with ⟨hv', -⟩ | ⟨-, hg', -⟩
          · rw [hn] at hv'
            cases hv'
          · rw [hg] at hg'
            cases hg'
      · intro hne
        rcases hr with ⟨-, -, -, hse, -⟩ | ⟨v, hcase, -⟩
        · exact absurd hse hne
        · rcases hcase with ⟨hv', -⟩ | ⟨-, hg', -⟩
          · left
            rw [hv']
            exact Option.some_ne_none v
          · exact Or.inr ⟨sym, v, h0, hg'⟩

/-- The statement of C6 at the sample environment: no version option and the
symbol file `x.sym`, which has no version resource; the run returns `-1`. -/
theorem C6_no_version_is_fatal_witness :
    GetFileVersionString demoEnv "x.sym" = none ∧
    ∃ run, symupload_nodump.wmain demoEnv ["symupload", "x.sym", "app.dll", "http://a"]
        = some run ∧ run.status = -1 ∧ sends run.trace = [] := by
  refine ⟨by decide, ?_⟩
  obtain ⟨-, run, hw, h1, -⟩ := C6_no_version_is_fatal demoEnv
    ["symupload", "x.sym", "app.dll", "http://a"] 1 {}
    [Event.argvRead 1, Event.argvRead 1, Event.argvRead 1] (by decide)
  exact ⟨run, hw, h1 "x.sym" (by decide) (by decide) rfl (by decide)⟩

/-- C7: in both variants, with `c` the value of `currentarg` after the option
loop, the run prints the usage text if and only if fewer than three arguments
remain (`argc < c + 3`); such a run ends with exit status 0 and calls neither
the version resolver nor the uploader, and a run with three or more remaining
arguments never prints the usage text. -/
theorem C7_usage_iff_fewer_than_three_left (env : Env) (argv : List String) :
    (∀ c o ev0, symupload.optionLoop env argv argv.length 1 {} = some (c, o, ev0) →
      ∃ run, symupload.wmain env argv = some run ∧
        (Line.usage ∈ printed run.trace ↔ argv.length < c + 3) ∧
        (argv.length < c + 3 →
          run.status = 0 ∧ sends run.trace = [] ∧ resolves run.trace = [])) ∧
    (∀ c o ev0, symupload_nodump.optionLoop env argv argv.length 1 {} = some (c, o, ev0) →
      ∃ run, symupload_nodump.wmain env argv = some run ∧
        (Line.usage ∈ printed run.trace ↔ argv.length < c + 3) ∧
        (argv.length < c + 3 →
          run.status = 0 ∧ sends run.trace = [] ∧ resolves run.trace = [])) := by
  constructor
  · intro c o ev0 hp
    by_cases h : argv.length < c + 3
    · obtain ⟨q1, -, q3, -⟩ := symupload.optionLoop_quiet env argv c o ev0 hp
      obtain ⟨u1, u2, u3, u4⟩ := printUsageAndExit_facts ev0 q1 q3
      exact ⟨_, symupload.wmain_usage env argv c o ev0 hp h, ⟨fun _ => h, fun _ => u4⟩,
        fun _ => ⟨u1, u2, u3⟩⟩
    · obtain ⟨sym, raw, run, -, -, hw, -, -, -, -, hu⟩ :=
        symupload.upload_run env argv c o ev0 hp (by omega)
      exact ⟨run, hw, ⟨fun h' => absurd h' hu, fun h' => absurd h' h⟩, fun h' => absurd h' h⟩
  · intro c o ev0 hp
    by_cases h : argv.length < c + 3
    · obtain ⟨q1, -, q3, -⟩ := symupload_nodump.nodump_optionLoop_quiet env argv c o ev0 hp
      obtain ⟨u1, u2, u3, u4⟩ := printUsageAndExit_facts ev0 q1 q3
      exact ⟨_, symupload_nodump.nodump_wmain_usage env argv c o ev0 hp h, ⟨fun _ => h, fun _ => u4⟩,
        fun _ => ⟨u1, u2, u3⟩⟩
    · obtain ⟨sym, raw, run, -, -, hw, hu, -⟩ :=
        symupload_nodump.nodump_upload_run env argv c o ev0 hp (by omega)
      exact ⟨run, hw, ⟨fun h' => absurd h' hu, fun h' => absurd h' h⟩, fun h' => absurd h' h⟩

/-- The statement of C7 at the sample environment: a product option followed
by only two arguments is a usage error in `symupload`; three arguments after a
version option are not one in `symupload_nodump`. -/
theorem C7_usage_witness :
    (∃ run, symupload.wmain demoEnv ["symupload", "--product", "P", "app.sym", "app.dll"]
        = some run ∧
      (Line.usage ∈ printed run.trace ↔
        ["symupload", "--product", "P", "app.sym", "app.dll"].length < 3 + 3) ∧
      (["symupload", "--product", "P", "app.sym", "app.dll"].length < 3 + 3 →
        run.status = 0 ∧ sends run.trace = [] ∧ resolves run.trace = [])) ∧
    (∃ run, symupload_nodump.wmain demoEnv
        ["symupload", "--version", "1.0", "x.sym", "app.dll", "http://a"] = some run ∧
      (Line.usage ∈ printed run.trace ↔
        ["symupload", "--version", "1.0", "x.sym", "app.dll", "http://a"].length < 3 + 3) ∧
      (["symupload", "--version", "1.0", "x.sym", "app.dll", "http://a"].length < 3 + 3 →
        run.status = 0 ∧ sends run.trace = [] ∧ resolves run.trace = [])) :=
  ⟨(C7_usage_iff_fewer_than_three_left demoEnv
      ["symupload", "--product", "P", "app.sym", "app.dll"]).1 3 { product := some "P" }
      [Event.argvRead 1, Event.argvRead 1, Event.argvRead 2, Event.argvRead 3,
        Event.argvRead 3] (by decide),
    (C7_usage_iff_fewer_than_three_left demoEnv
      ["symupload", "--version", "1.0", "x.sym", "app.dll", "http://a"]).2 3
      { version := some "1.0" }
      [Event.argvRead 1, Event.argvRead 1, Event.argvRead 1, Event.argvRead 2,
        Event.argvRead 3, Event.argvRead 3, Event.argvRead 3] (by decide)⟩

/-- C8: for every pair of 32-bit values `(dwFileVersionMS, dwFileVersionLS)`
that the version-resource reader returns for a file, `GetFileVersionString`
succeeds with the four fields `MS >> 16`, `MS & 0xffff`, `LS >> 16`,
`LS & 0xffff` in unsigned decimal, separated by single dots. -/
theorem C8_version_string_format (env : Env) (filename : String) (MS LS : Nat)
    (hsize : sizeof_VS_FIXEDFILEINFO ≤ env.GetFileVersionInfoSize filename)
    (hinfo : env.GetFileVersionInfo filename = true)
    (hquery : env.VerQueryValue filename = some (MS, LS))
    (hMS : MS < 2 ^ 32) (hLS : LS < 2 ^ 32) :
    GetFileVersionString env filename =
      some (Nat.repr (MS >>> 16) ++ "." ++ Nat.repr (MS &&& 0xffff) ++ "." ++
        Nat.repr (LS >>> 16) ++ "." ++ Nat.repr (LS &&& 0xffff)) := by
  have hs : ¬ env.GetFileVersionInfoSize filename < sizeof_VS_FIXEDFILEINFO := by omega
  unfold GetFileVersionString
  simp only [hs, if_false, hinfo, Bool.not_true, Bool.false_eq_true, hquery]
  rw [ver_string_eq MS LS hMS hLS]
  unfold formatVersion
  rw [fmtD_of_lt _ (by have := high_half_lt MS hMS; omega),
    fmtD_of_lt _ (by have := low_half_lt MS; omega),
    fmtD_of_lt _ (by have := high_half_lt LS hLS; omega),
    fmtD_of_lt _ (by have := low_half_lt LS; omega)]

/-- The statement of C8 for `MS = 0x00010002`, `LS = 0x00030004`: the version
string is `1.2.3.4`. -/
theorem C8_version_string_format_witness :
    GetFileVersionString demoEnv "app.sym" = some "1.2.3.4" :=
  C8_version_string_format demoEnv "app.sym" 0x00010002 0x00030004 (by decide) rfl rfl
    (by decide) (by decide)

/-- C9: for every pair of 32-bit values the formatted version has at least 7 and
at most 23 characters, so the buffer of 24 elements holds it whole with its
terminator; the bound 23 is attained for `MS = LS = 0xffffffff`. -/
theorem C9_version_string_length (MS LS : Nat) (hMS : MS < 2 ^ 32) (hLS : LS < 2 ^ 32) :
    7 ≤ (formatVersion MS LS).length ∧ (formatVersion MS LS).length ≤ 23 ∧
    ver_string MS LS = formatVersion MS LS ∧
    (ver_string MS LS).length + 1 ≤ ver_string_size ∧
    (ver_string 0xffffffff 0xffffffff).length = 23 := by
  obtain ⟨h1, h2⟩ := formatVersion_bounds MS LS hMS hLS
  refine ⟨h1, h2, ver_string_eq MS LS hMS hLS, ?_, by decide⟩
  rw [ver_string_eq MS LS hMS hLS]
  unfold ver_string_size
  omega

/-- The statement of C9 at `MS = LS = 0xffffffff`, where the version is
`65535.65535.65535.65535`. -/
theorem C9_version_string_length_witness :
    ver_string 0xffffffff 0xffffffff = "65535.65535.65535.65535" ∧
    7 ≤ (formatVersion 0xffffffff 0xffffffff).length ∧
    (formatVersion 0xffffffff 0xffffffff).length ≤ 23 ∧
    ver_string 0xffffffff 0xffffffff = formatVersion 0xffffffff 0xffffffff ∧
    (ver_string 0xffffffff 0xffffffff).length + 1 ≤ ver_string_size ∧
    (ver_string 0xffffffff 0xffffffff).length = 23 :=
  ⟨by decide, C9_version_string_length 0xffffffff 0xffffffff (by decide) (by decide)⟩

/-- C10: in `symupload_nodump` every run ends, and in every uploader call of
every run, whatever the arguments, the resolver and the uploader are, the entry
`debug_identifier` is the string of exactly 33 characters `0`. -/
theorem C10_placeholder_debug_identifier (env : Env) (argv : List String) :
    ∃ run, symupload_nodump.wmain env argv = some run ∧
      ∀ call ∈ sends run.trace,
        call.parameters.find "debug_identifier" = some (String.mk (List.replicate 33 '0')) := by
  obtain ⟨c, o, ev0, hp, q1, -, q3, -⟩ :=
    symupload_nodump.nodump_optionLoop_spec env argv argv.length 1 {} (by omega)
  by_cases h : argv.length < c + 3
  · obtain ⟨-, u2, -, -⟩ := printUsageAndExit_facts ev0 q1 q3
    refine ⟨_, symupload_nodump.nodump_wmain_usage env argv c o ev0 hp h, ?_⟩
    intro call hc
    rw [u2] at hc
    cases hc
  · obtain ⟨sym, raw, run, h0, h1, hw, -, hr⟩ :=
      symupload_nodump.nodump_upload_run env argv c o ev0 hp (by omega)
    refine ⟨run, hw, ?_⟩
    intro call hc
    rcases hr with ⟨-, -, -, hse, -⟩ | ⟨v, -, f1, -⟩
    · rw [hse] at hc
      cases hc
    · rw [f1] at hc
      rw [mem_calls_parameters _ _ _ _ call hc]
      rw [(symupload_nodump.nodump_parameters_facts env sym raw o.product v).2.2.1]
      rfl

/-- The statement of C10 on a run of the sample environment with two uploader calls. -/
theorem C10_placeholder_debug_identifier_witness :
    ∃ run, symupload_nodump.wmain demoEnv
        ["symupload", "--product", "P", "app.sym", "app.dll", "http://a", "http://b"]
        = some run ∧
      (sends run.trace).length = 2 ∧
      ∀ call ∈ sends run.trace,
        call.parameters.find "debug_identifier" = some (String.mk (List.replicate 33 '0')) := by
  obtain ⟨run, hw, h⟩ := C10_placeholder_debug_identifier demoEnv
    ["symupload", "--product", "P", "app.sym", "app.dll", "http://a", "http://b"]
  refine ⟨run, hw, ?_, h⟩
  have hrun : symupload_nodump.wmain demoEnv
      ["symupload", "--product", "P", "app.sym", "app.dll", "http://a", "http://b"]
      ≠ none ∧ ((symupload_nodump.wmain demoEnv
      ["symupload", "--product", "P", "app.sym", "app.dll", "http://a", "http://b"]).map
        (fun r => (sends r.trace).length)) = some 2 := by decide
  rw [hw] at hrun
  simpa using hrun.2

/-- C11 as stated fails in `symupload`: with the sample hash, the runs for
`a.sym a.dll` and for `b.sym b.dll` send debug identifiers of 9 and of 10
characters, so no single length fits every code file and symbol file. -/
theorem C11_two_lengths_counterexample :
    ∃ run1 run2 call1 call2 id1 id2,
      symupload.wmain fnvEnv ["symupload", "a.sym", "a.dll", "http://a"] = some run1 ∧
      symupload.wmain fnvEnv ["symupload", "b.sym", "b.dll", "http://a"] = some run2 ∧
      call1 ∈ sends run1.trace ∧ call2 ∈ sends run2.trace ∧
      call1.parameters.find "debug_identifier" = some id1 ∧
      call2.parameters.find "debug_identifier" = some id2 ∧
      id1 = "257829342" ∧ id2 = "1080815238" ∧ id1.length = 9 ∧ id2.length = 10 := by
  obtain ⟨sym1, raw1, run1, a0, a1, hw1, n1, i1⟩ := symupload.identifier_sent fnvEnv
    ["symupload", "a.sym", "a.dll", "http://a"] 1 {} [Event.argvRead 1, Event.argvRead 1]
    (by decide) (by decide)
  obtain ⟨sym2, raw2, run2, b0, b1, hw2, n2, i2⟩ := symupload.identifier_sent fnvEnv
    ["symupload", "b.sym", "b.dll", "http://a"] 1 {} [Event.argvRead 1, Event.argvRead 1]
    (by decide) (by decide)
  obtain ⟨call1, m1⟩ := List.exists_mem_of_ne_nil _ n1
  obtain ⟨call2, m2⟩ := List.exists_mem_of_ne_nil _ n2
  have e1 : sym1 = "a.sym" := by
    have : some "a.sym" = some sym1 := a0
    injection this with h
    exact h.symm
  have e2 : raw1 = "a.dll" := by
    have : some "a.dll" = some raw1 := a1
    injection this with h
    exact h.symm
  have e3 : sym2 = "b.sym" := by
    have : some "b.sym" = some sym2 := b0
    injection this with h
    exact h.symm
  have e4 : raw2 = "b.dll" := by
    have : some "b.dll" = some raw2 := b1
    injection this with h
    exact h.symm
  subst e1 e2 e3 e4
  exact ⟨run1, run2, call1, call2, _, _, hw1, hw2, m1, m2, i1 call1 m1, i2 call2 m2,
    by decide, by decide, by decide, by decide⟩

/-- C11, amended: in `symupload_nodump` the entry `debug_identifier` of every
uploader call of every run has exactly 33 characters; in `symupload`, for
every run that gets past the usage check, it has between 1 and 11 characters,
and when the hash of the code-file base name followed by the symbol-file
argument is below `2 ^ 31` it is the decimal numeral of that hash, so that its
length is the number of digits of the hash. -/
theorem C11_identifier_length (env : Env) (argv : List String) :
    (∃ run, symupload_nodump.wmain env argv = some run ∧
      ∀ call ∈ sends run.trace,
        ∃ id, call.parameters.find "debug_identifier" = some id ∧ id.length = 33) ∧
    (∀ c o ev0, symupload.optionLoop env argv argv.length 1 {} = some (c, o, ev0) →
      c + 3 ≤ argv.length →
      ∃ symbol_file code_file_raw run,
        argv[c]? = some symbol_file ∧ argv[c + 1]? = some code_file_raw ∧
        symupload.wmain env argv = some run ∧ sends run.trace ≠ [] ∧
        ∀ call ∈ sends run.trace,
          ∃ id, call.parameters.find "debug_identifier" = some id ∧
            1 ≤ id.length ∧ id.length ≤ 11 ∧
            (env.wstr_hash (env.GetBaseName code_file_raw ++ symbol_file) < 2 ^ 31 →
              id = Nat.repr (env.wstr_hash (env.GetBaseName code_file_raw ++ symbol_file)))) := by
  constructor
  · obtain ⟨run, hw, h⟩ := symupload_nodump.nodump_identifier_sent env argv
    exact ⟨run, hw, fun call hc => ⟨_, h call hc, by decide⟩⟩
  · intro c o ev0 hp h3
    obtain ⟨sym, raw, run, h0, h1, hw, hn, h⟩ := symupload.identifier_sent env argv c o ev0 hp h3
    exact ⟨sym, raw, run, h0, h1, hw, hn, fun call hc => ⟨_, h call hc, (fmtD_length _).1,
      (fmtD_length _).2, fun hlt => fmtD_of_lt _ hlt⟩⟩

/-- The statement of C11 (amended) at the sample hash, for `a.sym a.dll`. -/
theorem C11_identifier_length_witness :
    (∃ run, symupload_nodump.wmain fnvEnv
        ["symupload", "--version", "1.0", "a.sym", "a.dll", "http://a"] = some run ∧
      ∀ call ∈ sends run.trace,
        ∃ id, call.parameters.find "debug_identifier" = some id ∧ id.length = 33) ∧
    ∃ symbol_file code_file_raw run,
      ["symupload", "a.sym", "a.dll", "http://a"][1]? = some symbol_file ∧
      ["symupload", "a.sym", "a.dll", "http://a"][1 + 1]? = some code_file_raw ∧
      symupload.wmain fnvEnv ["symupload", "a.sym", "a.dll", "http://a"] = some run ∧
      sends run.trace ≠ [] ∧
      ∀ call ∈ sends run.trace,
        ∃ id, call.parameters.find "debug_identifier" = some id ∧
          1 ≤ id.length ∧ id.length ≤ 11 ∧
          (fnvEnv.wstr_hash (fnvEnv.GetBaseName code_file_raw ++ symbol_file) < 2 ^ 31 →
            id = Nat.repr (fnvEnv.wstr_hash (fnvEnv.GetBaseName code_file_raw ++ symbol_file))) :=
  ⟨(C11_identifier_length fnvEnv
      ["symupload", "--version", "1.0", "a.sym", "a.dll", "http://a"]).1,
    (C11_identifier_length fnvEnv ["symupload", "a.sym", "a.dll", "http://a"]).2 1 {}
      [Event.argvRead 1, Event.argvRead 1] (by decide) (by decide)⟩

/-- C12 as stated fails: with the sample hash, the runs of `symupload` for the
pairs (code file `ab`, symbol file `c`) and (code file `a`, symbol file `bc`)
send the same debug identifier, and so do the runs of `symupload_nodump` for
these two pairs. -/
theorem C12_identifier_not_unique_counterexample :
    (∃ run1 run2 call1 call2 id,
      symupload.wmain fnvEnv ["symupload", "c", "ab", "http://a"] = some run1 ∧
      symupload.wmain fnvEnv ["symupload", "bc", "a", "http://a"] = some run2 ∧
      call1 ∈ sends run1.trace ∧ call2 ∈ sends run2.trace ∧
      call1.parameters.find "code_file" = some "ab" ∧
      call1.parameters.find "debug_file" = some "c" ∧
      call2.parameters.find "code_file" = some "a" ∧
      call2.parameters.find "debug_file" = some "bc" ∧
      call1.parameters.find "debug_identifier" = some id ∧
      call2.parameters.find "debug_identifier" = some id) ∧
    (∃ run1 run2 call1 call2 id,
      symupload_nodump.wmain fnvEnv ["symupload", "--version", "1.0", "c", "ab", "http://a"]
        = some run1 ∧
      symupload_nodump.wmain fnvEnv ["symupload", "--version", "1.0", "bc", "a", "http://a"]
        = some run2 ∧
      call1 ∈ sends run1.trace ∧ call2 ∈ sends run2.trace ∧
      call1.parameters.find "code_file" = some "ab" ∧
      call1.parameters.find "debug_file" = some "c" ∧
      call2.parameters.find "code_file" = some "a" ∧
      call2.parameters.find "debug_file" = some "bc" ∧
      call1.parameters.find "debug_identifier" = some id ∧
      call2.parameters.find "debug_identifier" = some id) := by
  constructor
  · obtain ⟨sym1, raw1, run1, a0, a1, hw1, f1, -⟩ := symupload.upload_run fnvEnv
      ["symupload", "c", "ab", "http://a"] 1 {} [Event.argvRead 1, Event.argvRead 1]
      (by decide) (by decide)
    obtain ⟨sym2, raw2, run2, b0, b1, hw2, f2, -⟩ := symupload.upload_run fnvEnv
      ["symupload", "bc", "a", "http://a"] 1 {} [Event.argvRead 1, Event.argvRead 1]
      (by decide) (by decide)
    have e1 : sym1 = "c" := by
      have : some "c" = some sym1 := a0
      injection this with h
      exact h.symm
    have e2 : raw1 = "ab" := by
      have : some "ab" = some raw1 := a1
      injection this with h
      exact h.symm
    have e3 : sym2 = "bc" := by
      have : some "bc" = some sym2 := b0
      injection this with h
      exact h.symm
    have e4 : raw2 = "a" := by
      have : some "a" = some raw2 := b1
      injection this with h
      exact h.symm
    subst e1 e2 e3 e4
    have n1 : sends run1.trace ≠ [] := by
      rw [f1]
      exact urls_ne_nil _ _ 1 (by decide)
    have n2 : sends run2.trace ≠ [] := by
      rw [f2]
      exact urls_ne_nil _ _ 1 (by decide)
    obtain ⟨call1, m1⟩ := List.exists_mem_of_ne_nil _ n1
    obtain ⟨call2, m2⟩ := List.exists_mem_of_ne_nil _ n2
    have p1 := m1
    rw [f1] at p1
    have p2 := m2
    rw [f2] at p2
    obtain ⟨x1, x2, x3, -⟩ := symupload.parameters_facts fnvEnv "c" "ab" none
    obtain ⟨y1, y2, y3, -⟩ := symupload.parameters_facts fnvEnv "bc" "a" none
    refine ⟨run1, run2, call1, call2, "-1373726339", hw1, hw2, m1, m2, ?_, ?_, ?_, ?_, ?_, ?_⟩
    · rw [mem_calls_parameters _ _ _ _ call1 p1, x1]
      decide
    · rw [mem_calls_parameters _ _ _ _ call1 p1, x2]
    · rw [mem_calls_parameters _ _ _ _ call2 p2, y1]
      decide
    · rw [mem_calls_parameters _ _ _ _ call2 p2, y2]
    · rw [mem_calls_parameters _ _ _ _ call1 p1, x3]
      decide
    · rw [mem_calls_parameters _ _ _ _ call2 p2, y3]
      decide
  · obtain ⟨sym1, raw1, run1, a0, a1, hw1, -, hr1⟩ := symupload_nodump.nodump_upload_run fnvEnv
      ["symupload", "--version", "1.0", "c", "ab", "http://a"] 3 { version := some "1.0" }
      [Event.argvRead 1, Event.argvRead 1, Event.argvRead 1, Event.argvRead 2,
        Event.argvRead 3, Event.argvRead 3, Event.argvRead 3] (by decide) (by decide)
    obtain ⟨sym2, raw2, run2, b0, b1, hw2, -, hr2⟩ := symupload_nodump.nodump_upload_run fnvEnv
      ["symupload", "--version", "1.0", "bc", "a", "http://a"] 3 { version := some "1.0" }
      [Event.argvRead 1, Event.argvRead 1, Event.argvRead 1, Event.argvRead 2,
        Event.argvRead 3, Event.argvRead 3, Event.argvRead 3] (by decide) (by decide)
    have e1 : sym1 = "c" := by
      have : some "c" = some sym1 := a0
      injection this with h
      exact h.symm
    have e2 : raw1 = "ab" := by
      have : some "ab" = some raw1 := a1
      injection this with h
      exact h.symm
    have e3 : sym2 = "bc" := by
      have : some "bc" = some sym2 := b0
      injection this with h
      exact h.symm
    have e4 : raw2 = "a" := by
      have : some "a" = some raw2 := b1
      injection this with h
      exact h.symm
    subst e1 e2 e3 e4
    rcases hr1 with ⟨hn, -⟩ | ⟨v1, -, f1, -⟩
    · cases hn
    rcases hr2 with ⟨hn, -⟩ | ⟨v2, -, f2, -⟩
    · cases hn
    have n1 : sends run1.trace ≠ [] := by
      rw [f1]
      exact urls_ne_nil _ _ 3 (by decide)
    have n2 : sends run2.trace ≠ [] := by
      rw [f2]
      exact urls_ne_nil _ _ 3 (by decide)
    obtain ⟨call1, m1⟩ := List.exists_mem_of_ne_nil _ n1
    obtain ⟨call2, m2⟩ := List.exists_mem_of_ne_nil _ n2
    have p1 := m1
    rw [f1] at p1
    have p2 := m2
    rw [f2] at p2
    obtain ⟨x1, x2, x3, -⟩ := symupload_nodump.nodump_parameters_facts fnvEnv "c" "ab"
      (none : Option String) v1
    obtain ⟨y1, y2, y3, -⟩ := symupload_nodump.nodump_parameters_facts fnvEnv "bc" "a"
      (none : Option String) v2
    refine ⟨run1, run2, call1, call2, symupload_nodump.debugIdentifier, hw1, hw2, m1, m2,
      ?_, ?_, ?_, ?_, ?_, ?_⟩
    · rw [mem_calls_parameters _ _ _ _ call1 p1, x1]
      decide
    · rw [mem_calls_parameters _ _ _ _ call1 p1, x2]
    · rw [mem_calls_parameters _ _ _ _ call2 p2, y1]
      decide
    · rw [mem_calls_parameters _ _ _ _ call2 p2, y2]
    · rw [mem_calls_parameters _ _ _ _ call1 p1, x3]
    · rw [mem_calls_parameters _ _ _ _ call2 p2, y3]

/-- C12, amended: the debug identifier is determined by the pair of code-file
base name and symbol-file argument, but does not label it uniquely.  In
`symupload` two runs that get past the usage check, with the same hash and
base-name functions, send the same debug identifier whenever the base name
followed by the symbol-file argument is the same string in both (in particular
for equal pairs); in `symupload_nodump` any two runs send the same debug
identifier. -/
theorem C12_identifier_determined_not_unique (env1 env2 : Env) (argv1 argv2 : List String) :
    (∀ c1 o1 ev1 c2 o2 ev2,
      symupload.optionLoop env1 argv1 argv1.length 1 {} = some (c1, o1, ev1) →
      c1 + 3 ≤ argv1.length →
      symupload.optionLoop env2 argv2 argv2.length 1 {} = some (c2, o2, ev2) →
      c2 + 3 ≤ argv2.length →
      env1.wstr_hash = env2.wstr_hash → env1.GetBaseName = env2.GetBaseName →
      ∃ symbol_file1 code_file_raw1 run1 symbol_file2 code_file_raw2 run2,
        argv1[c1]? = some symbol_file1 ∧ argv1[c1 + 1]? = some code_file_raw1 ∧
        argv2[c2]? = some symbol_file2 ∧ argv2[c2 + 1]? = some code_file_raw2 ∧
        symupload.wmain env1 argv1 = some run1 ∧ symupload.wmain env2 argv2 = some run2 ∧
        sends run1.trace ≠ [] ∧ sends run2.trace ≠ [] ∧
        (env1.GetBaseName code_file_raw1 ++ symbol_file1
            = env2.GetBaseName code_file_raw2 ++ symbol_file2 →
          ∀ call1 ∈ sends run1.trace, ∀ call2 ∈ sends run2.trace,
            call1.parameters.find "debug_identifier"
              = call2.parameters.find "debug_identifier")) ∧
    (∃ run1 run2, symupload_nodump.wmain env1 argv1 = some run1 ∧
      symupload_nodump.wmain env2 argv2 = some run2 ∧
      ∀ call1 ∈ sends run1.trace, ∀ call2 ∈ sends run2.trace,
        call1.parameters.find "debug_identifier"
          = call2.parameters.find "debug_identifier") := by
  constructor
  · intro c1 o1 ev1 c2 o2 ev2 hp1 h31 hp2 h32 hh hb
    obtain ⟨sym1, raw1, run1, a0, a1, hw1, n1, i1⟩ :=
      symupload.identifier_sent env1 argv1 c1 o1 ev1 hp1 h31
    obtain ⟨sym2, raw2, run2, b0, b1, hw2, n2, i2⟩ :=
      symupload.identifier_sent env2 argv2 c2 o2 ev2 hp2 h32
    refine ⟨sym1, raw1, run1, sym2, raw2, run2, a0, a1, b0, b1, hw1, hw2, n1, n2, ?_⟩
    intro he call1 m1 call2 m2
    rw [i1 call1 m1, i2 call2 m2, he, hh]
  · obtain ⟨run1, hw1, i1⟩ := symupload_nodump.nodump_identifier_sent env1 argv1
    obtain ⟨run2, hw2, i2⟩ := symupload_nodump.nodump_identifier_sent env2 argv2
    exact ⟨run1, run2, hw1, hw2, fun call1 m1 call2 m2 => by rw [i1 call1 m1, i2 call2 m2]⟩

/-- The statement of C12 (amended) at the sample hash for the pairs
(`ab`, `c`) and (`a`, `bc`). -/
theorem C12_identifier_determined_witness :
    ∃ symbol_file1 code_file_raw1 run1 symbol_file2 code_file_raw2 run2,
      ["symupload", "c", "ab", "http://a"][1]? = some symbol_file1 ∧
      ["symupload", "c", "ab", "http://a"][1 + 1]? = some code_file_raw1 ∧
      ["symupload", "bc", "a", "http://a"][1]? = some symbol_file2 ∧
      ["symupload", "bc", "a", "http://a"][1 + 1]? = some code_file_raw2 ∧
      symupload.wmain fnvEnv ["symupload", "c", "ab", "http://a"] = some run1 ∧
      symupload.wmain fnvEnv ["symupload", "bc", "a", "http://a"] = some run2 ∧
      sends run1.trace ≠ [] ∧ sends run2.trace ≠ [] ∧
      (fnvEnv.GetBaseName code_file_raw1 ++ symbol_file1
          = fnvEnv.GetBaseName code_file_raw2 ++ symbol_file2 →
        ∀ call1 ∈ sends run1.trace, ∀ call2 ∈ sends run2.trace,
          call1.parameters.find "debug_identifier"
            = call2.parameters.find "debug_identifier") :=
  (C12_identifier_determined_not_unique fnvEnv fnvEnv ["symupload", "c", "ab", "http://a"]
    ["symupload", "bc", "a", "http://a"]).1 1 {} [Event.argvRead 1, Event.argvRead 1] 1 {}
    [Event.argvRead 1, Event.argvRead 1] (by decide) (by decide) (by decide) (by decide) rfl rfl

/-- C13 at a failing input: with the sample hash, the hash of `app.dll`
followed by `app.sym` is 3837610030, and the run of `symupload` for these
files sends the debug identifier `-457357266`, the `%d` reading of that
value as a signed integer, not the decimal numeral of the hash. -/
theorem C13_identifier_of_large_hash :
    fnvEnv.wstr_hash (fnvEnv.GetBaseName "app.dll" ++ "app.sym") = 3837610030 ∧
    ∃ run, symupload.wmain fnvEnv ["symupload", "app.sym", "app.dll", "http://a"]
        = some run ∧ sends run.trace ≠ [] ∧
      ∀ call ∈ sends run.trace,
        call.parameters.find "debug_identifier" = some "-457357266" ∧
        call.parameters.find "debug_identifier" ≠ some (Nat.repr 3837610030) := by
  refine ⟨by decide, ?_⟩
  obtain ⟨sym, raw, run, a0, a1, hw, hn, h⟩ := symupload.identifier_sent fnvEnv
    ["symupload", "app.sym", "app.dll", "http://a"] 1 {} [Event.argvRead 1, Event.argvRead 1]
    (by decide) (by decide)
  have e1 : sym = "app.sym" := by
    have : some "app.sym" = some sym := a0
    injection this with h
    exact h.symm
  have e2 : raw = "app.dll" := by
    have : some "app.dll" = some raw := a1
    injection this with h
    exact h.symm
  subst e1 e2
  refine ⟨run, hw, hn, fun call hc => ?_⟩
  rw [h call hc]
  exact ⟨by decide, by decide⟩

/-- C14 as stated fails at `MS = -1`: in both variants the option
`--timeout -1` is given, `_wtoi` converts its value to `-1`, and yet every
uploader call receives no timeout instead of the timeout `-1`. -/
theorem C14_timeout_minus_one_counterexample :
    demoEnv.wtoi "-1" = -1 ∧
    (∃ run, symupload.wmain demoEnv
        ["symupload", "--timeout", "-1", "app.sym", "app.dll", "http://a"] = some run ∧
      sends run.trace ≠ [] ∧
      ∀ call ∈ sends run.trace, call.timeout = none ∧ call.timeout ≠ some (-1)) ∧
    (∃ run, symupload_nodump.wmain demoEnv
        ["symupload", "--timeout", "-1", "app.sym", "app.dll", "http://a"] = some run ∧
      sends run.trace ≠ [] ∧
      ∀ call ∈ sends run.trace, call.timeout = none ∧ call.timeout ≠ some (-1)) := by
  refine ⟨by decide, ?_, ?_⟩
  · obtain ⟨sym, raw, run, -, -, hw, f1, -⟩ := symupload.upload_run demoEnv
      ["symupload", "--timeout", "-1", "app.sym", "app.dll", "http://a"] 3 { timeout := -1 }
      [Event.argvRead 1, Event.argvRead 2, Event.argvRead 3, Event.argvRead 3]
      (by decide) (by decide)
    refine ⟨run, hw, ?_, ?_⟩
    · rw [f1]
      exact urls_ne_nil _ _ 3 (by decide)
    · intro call hc
      rw [f1] at hc
      obtain ⟨u, -, rfl⟩ := List.mem_map.1 hc
      exact ⟨rfl, (show (none : Option Int) ≠ some (-1) from by decide)⟩
  · obtain ⟨sym, raw, run, -, -, hw, -, hr⟩ := symupload_nodump.nodump_upload_run demoEnv
      ["symupload", "--timeout", "-1", "app.sym", "app.dll", "http://a"] 3 { timeout := -1 }
      [Event.argvRead 1, Event.argvRead 2, Event.argvRead 3, Event.argvRead 3,
        Event.argvRead 3]
      (by decide) (by decide)
    rcases hr with ⟨-, -, hst, -⟩ | ⟨v, -, f1, -⟩
    · have key : (symupload_nodump.wmain demoEnv
          ["symupload", "--timeout", "-1", "app.sym", "app.dll", "http://a"]).map Run.status
          = some 0 := by decide
      rw [hw] at key
      injection key with key
      rw [hst] at key
      cases key
    · refine ⟨run, hw, ?_, ?_⟩
      · rw [f1]
        exact urls_ne_nil _ _ 3 (by decide)
      · intro call hc
        rw [f1] at hc
        obtain ⟨u, -, rfl⟩ := List.mem_map.1 hc
        exact ⟨rfl, (show (none : Option Int) ≠ some (-1) from by decide)⟩

/-- C14, amended: in both variants, for every run that reaches the upload
loop, if no option name `argv[1], argv[3], ...` below `c` is `--timeout` then
every uploader call receives no timeout, and if the last `--timeout` among them
has the argument `v` then every uploader call receives the timeout `_wtoi v`,
including 0, unless `_wtoi v` is `-1`, in which case it receives no timeout. -/
theorem C14_timeout_follows_option (env : Env) (argv : List String) :
    (∀ c o ev0, symupload.optionLoop env argv argv.length 1 {} = some (c, o, ev0) →
      c + 3 ≤ argv.length →
      ∃ run, symupload.wmain env argv = some run ∧ sends run.trace ≠ [] ∧
        ((∀ j, 1 ≤ j → j < c → (j - 1) % 2 = 0 → argv[j]? ≠ some "--timeout") →
          ∀ call ∈ sends run.trace, call.timeout = none) ∧
        (∀ i v, 1 ≤ i → i + 1 < c → (i - 1) % 2 = 0 → argv[i]? = some "--timeout" →
          argv[i + 1]? = some v →
          (∀ j, i < j → j < c → (j - 1) % 2 = 0 → argv[j]? ≠ some "--timeout") →
          ∀ call ∈ sends run.trace,
            call.timeout = if env.wtoi v = -1 then none else some (env.wtoi v))) ∧
    (∀ c o ev0 symbol_file,
      symupload_nodump.optionLoop env argv argv.length 1 {} = some (c, o, ev0) →
      c + 3 ≤ argv.length → argv[c]? = some symbol_file →
      (o.version ≠ none ∨ GetFileVersionString env symbol_file ≠ none) →
      ∃ run, symupload_nodump.wmain env argv = some run ∧ sends run.trace ≠ [] ∧
        ((∀ j, 1 ≤ j → j < c → (j - 1) % 2 = 0 → argv[j]? ≠ some "--timeout") →
          ∀ call ∈ sends run.trace, call.timeout = none) ∧
        (∀ i v, 1 ≤ i → i + 1 < c → (i - 1) % 2 = 0 → argv[i]? = some "--timeout" →
          argv[i + 1]? = some v →
          (∀ j, i < j → j < c → (j - 1) % 2 = 0 → argv[j]? ≠ some "--timeout") →
          ∀ call ∈ sends run.trace,
            call.timeout = if env.wtoi v = -1 then none else some (env.wtoi v))) := by
  constructor
  · intro c o ev0 hp h3
    obtain ⟨sym, raw, run, -, -, hw, f1, -⟩ := symupload.upload_run env argv c o ev0 hp h3
    obtain ⟨-, hm, -⟩ := symupload.optionLoop_timeout env argv _ _ _ _ _ _ hp
    obtain ⟨v1, v2⟩ := TimeoutMeaning.timeout_value _ _ _ _ hm
    have ht : ∀ call ∈ sends run.trace, call.timeout = timeoutArg o.timeout := by
      intro call hc
      rw [f1] at hc
      obtain ⟨u, -, rfl⟩ := List.mem_map.1 hc
      rfl
    refine ⟨run, hw, ?_, ?_, ?_⟩
    · rw [f1]
      exact urls_ne_nil _ argv c h3
    · intro hall call hc
      rw [ht call hc, v1 hall]
      rfl
    · intro i v a b p q r hlast call hc
      rw [ht call hc, v2 i v a b p q r hlast]
      rfl
  · intro c o ev0 symbol_file hp h3 hs hv
    obtain ⟨sym, raw, run, h0, -, hw, -, hr⟩ :=
      symupload_nodump.nodump_upload_run env argv c o ev0 hp h3
    rw [hs] at h0
    injection h0 with h0
    subst h0
    obtain ⟨-, hm, -⟩ := symupload_nodump.nodump_optionLoop_timeout env argv _ _ _ _ _ _ hp
    obtain ⟨v1, v2⟩ := TimeoutMeaning.timeout_value _ _ _ _ hm
    rcases hr with ⟨hn, hg, -⟩ | ⟨v, -, f1, -⟩
    · rcases hv with hv | hv
      · exact absurd hn hv
      · exact absurd hg hv
    · have ht : ∀ call ∈ sends run.trace, call.timeout = timeoutArg o.timeout := by
        intro call hc
        rw [f1] at hc
        obtain ⟨u, -, rfl⟩ := List.mem_map.1 hc
        rfl
      refine ⟨run, hw, ?_, ?_, ?_⟩
      · rw [f1]
        exact urls_ne_nil _ argv c h3
      · intro hall call hc
        rw [ht call hc, v1 hall]
        rfl
      · intro i v a b p q r hlast call hc
        rw [ht call hc, v2 i v a b p q r hlast]
        rfl

/-- The statement of C14 (amended) at the sample environment: `--timeout 0`
gives every call the timeout 0 in `symupload`, and without the option no call
has a timeout in `symupload_nodump`. -/
theorem C14_timeout_follows_option_witness :
    (∃ run, symupload.wmain demoEnv
        ["symupload", "--timeout", "0", "app.sym", "app.dll", "http://a"] = some run ∧
      sends run.trace ≠ [] ∧ ∀ call ∈ sends run.trace, call.timeout = some 0) ∧
    (∃ run, symupload_nodump.wmain demoEnv ["symupload", "app.sym", "app.dll", "http://a"]
        = some run ∧
      sends run.trace ≠ [] ∧ ∀ call ∈ sends run.trace, call.timeout = none) := by
  constructor
  · obtain ⟨run, hw, hn, -, h⟩ := (C14_timeout_follows_option demoEnv
      ["symupload", "--timeout", "0", "app.sym", "app.dll", "http://a"]).1 3 { timeout := 0 }
      [Event.argvRead 1, Event.argvRead 2, Event.argvRead 3, Event.argvRead 3]
      (by decide) (by decide)
    refine ⟨run, hw, hn, fun call hc => ?_⟩
    rw [h 1 "0" (by decide) (by decide) (by decide) (by decide) (by decide)
      (fun j a b p => by omega) call hc]
    decide
  · obtain ⟨run, hw, hn, h, -⟩ := (C14_timeout_follows_option demoEnv
      ["symupload", "app.sym", "app.dll", "http://a"]).2 1 {}
      [Event.argvRead 1, Event.argvRead 1, Event.argvRead 1] "app.sym"
      (by decide) (by decide) (by decide) (Or.inr (by decide))
    exact ⟨run, hw, hn, h (fun j a b p => by omega)⟩

/-- C15: the base name modelled from the spec is idempotent, leaves a string
without `/` and `\` unchanged, and maps a directory prefix ending in `/` or `\`
followed by a separator-free name to that name; and for every environment both
variants put the same value, the base name of the code-file argument, into the
entry `code_file` of every uploader call when given the same code-file
argument. -/
theorem C15_basename_idempotent_and_shared :
    (∀ s, GetBaseName (GetBaseName s) = GetBaseName s) ∧
    (∀ s, (∀ ch ∈ s.data, ch ≠ '/' ∧ ch ≠ '\\') → GetBaseName s = s) ∧
    (∀ dir name sep, (sep = '/' ∨ sep = '\\') → (∀ ch ∈ name.data, ch ≠ '/' ∧ ch ≠ '\\') →
      GetBaseName (dir ++ String.singleton sep ++ name) = name) ∧
    (∀ env argvA argvB cA oA evA cB oB evB symbol_fileB code_file_raw,
      symupload.optionLoop env argvA argvA.length 1 {} = some (cA, oA, evA) →
      cA + 3 ≤ argvA.length → argvA[cA + 1]? = some code_file_raw →
      symupload_nodump.optionLoop env argvB argvB.length 1 {} = some (cB, oB, evB) →
      cB + 3 ≤ argvB.length → argvB[cB]? = some symbol_fileB →
      (oB.version ≠ none ∨ GetFileVersionString env symbol_fileB ≠ none) →
      argvB[cB + 1]? = some code_file_raw →
      ∃ runA runB, symupload.wmain env argvA = some runA ∧
        symupload_nodump.wmain env argvB = some runB ∧
        sends runA.trace ≠ [] ∧ sends runB.trace ≠ [] ∧
        (∀ call ∈ sends runA.trace,
          call.parameters.find "code_file" = some (env.GetBaseName code_file_raw)) ∧
        (∀ call ∈ sends runB.trace,
          call.parameters.find "code_file" = some (env.GetBaseName code_file_raw))) := by
  have sepFree : ∀ (l : List Char), (∀ ch ∈ l, ch ≠ '/' ∧ ch ≠ '\\') →
      ∀ ch ∈ l, isSeparator ch = false := by
    intro l h ch hch
    obtain ⟨h1, h2⟩ := h ch hch
    simp [isSeparator, h1, h2]
  refine ⟨?_, ?_, ?_, ?_⟩
  · intro s
    exact GetBaseName_of_no_separator _ (GetBaseName_no_separator s)
  · intro s h
    exact GetBaseName_of_no_separator s (sepFree _ h)
  · intro dir name sep hsep h
    refine GetBaseName_of_prefix dir name sep ?_ (sepFree _ h)
    rcases hsep with rfl | rfl <;> decide
  · intro env argvA argvB cA oA evA cB oB evB symB raw hpA h3A hrA hpB h3B hsB hvB hrB
    obtain ⟨symA, rawA, runA, -, a1, hwA, fA, -⟩ :=
      symupload.upload_run env argvA cA oA evA hpA h3A
    obtain ⟨symB', rawB, runB, b0, b1, hwB, -, hr⟩ :=
      symupload_nodump.nodump_upload_run env argvB cB oB evB hpB h3B
    rw [hrA] at a1
    injection a1 with a1
    rw [hrB] at b1
    injection b1 with b1
    rw [hsB] at b0
    injection b0 with b0
    subst a1 b1 b0
    rcases hr with ⟨hn, hg, -⟩ | ⟨v, -, fB, -⟩
    · rcases hvB with hv | hv
      · exact absurd hn hv
      · exact absurd hg hv
    · refine ⟨runA, runB, hwA, hwB, ?_, ?_, ?_, ?_⟩
      · rw [fA]
        exact urls_ne_nil _ argvA cA h3A
      · rw [fB]
        exact urls_ne_nil _ argvB cB h3B
      · intro call hc
        rw [fA] at hc
        rw [mem_calls_parameters _ _ _ _ call hc]
        exact (symupload.parameters_facts env symA raw oA.product).1
      · intro call hc
        rw [fB] at hc
        rw [mem_calls_parameters _ _ _ _ call hc]
        exact (symupload_nodump.nodump_parameters_facts env symB raw oB.product v).1

/-- The statement of C15 on the path `C:\build/out\app.dll`: its base name is
`app.dll`, and both variants send it as `code_file`. -/
theorem C15_basename_witness :
    GetBaseName "C:\\build/out\\app.dll" = "app.dll" ∧
    GetBaseName (GetBaseName "C:\\build/out\\app.dll") = GetBaseName "C:\\build/out\\app.dll" ∧
    ∃ runA runB,
      symupload.wmain fnvEnv ["symupload", "app.sym", "C:\\build/out\\app.dll", "http://a"]
        = some runA ∧
      symupload_nodump.wmain fnvEnv
        ["symupload", "--version", "1.0", "app.sym", "C:\\build/out\\app.dll", "http://a"]
        = some runB ∧
      sends runA.trace ≠ [] ∧ sends runB.trace ≠ [] ∧
      (∀ call ∈ sends runA.trace,
        call.parameters.find "code_file" = some (GetBaseName "C:\\build/out\\app.dll")) ∧
      (∀ call ∈ sends runB.trace,
        call.parameters.find "code_file" = some (GetBaseName "C:\\build/out\\app.dll")) :=
  ⟨by decide, C15_basename_idempotent_and_shared.1 _,
    C15_basename_idempotent_and_shared.2.2.2 fnvEnv
      ["symupload", "app.sym", "C:\\build/out\\app.dll", "http://a"]
      ["symupload", "--version", "1.0", "app.sym", "C:\\build/out\\app.dll", "http://a"]
      1 {} [Event.argvRead 1, Event.argvRead 1]
      3 { version := some "1.0" }
      [Event.argvRead 1, Event.argvRead 1, Event.argvRead 1, Event.argvRead 2,
        Event.argvRead 3, Event.argvRead 3, Event.argvRead 3]
      "app.sym" "C:\\build/out\\app.dll"
      (by decide) (by decide) (by decide) (by decide) (by decide) (by decide)
      (Or.inl (by decide)) (by decide)⟩

/-- C16: with the console output taken as the list of printed lines, in both
variants every run that reaches the upload loop over the URLs
`argv[c+2], ..., argv[argc-1]` records one uploader result per URL in order,
prints exactly one response-code line per result, in order and with that
result's code, prints one failure line for each result whose flag is false,
naming its URL and its response code, and prints the summary line (once) if and
only if every flag is true. -/
theorem C16_console_lines (env : Env) (argv : List String) :
    (∀ c o ev0, symupload.optionLoop env argv argv.length 1 {} = some (c, o, ev0) →
      c + 3 ≤ argv.length →
      ∃ run, symupload.wmain env argv = some run ∧
        (sendResults run.trace).map (fun e => e.1.url) = argv.drop (c + 2) ∧
        sendResults run.trace = (sends run.trace).zip (replies env [] (sends run.trace)) ∧
        responseCodes (printed run.trace) = (sendResults run.trace).map (fun e => e.2.2) ∧
        (responseCodes (printed run.trace)).length = (argv.drop (c + 2)).length ∧
        failures (printed run.trace) = failedTargets (sendResults run.trace) ∧
        (failures (printed run.trace)).length
          = ((sendFlags run.trace).filter (fun ok => !ok)).length ∧
        (summaries (printed run.trace) ≠ [] ↔ ∀ ok ∈ sendFlags run.trace, ok = true) ∧
        (summaries (printed run.trace)).length ≤ 1) ∧
    (∀ c o ev0 symbol_file,
      symupload_nodump.optionLoop env argv argv.length 1 {} = some (c, o, ev0) →
      c + 3 ≤ argv.length → argv[c]? = some symbol_file →
      (o.version ≠ none ∨ GetFileVersionString env symbol_file ≠ none) →
      ∃ run, symupload_nodump.wmain env argv = some run ∧
        (sendResults run.trace).map (fun e => e.1.url) = argv.drop (c + 2) ∧
        sendResults run.trace = (sends run.trace).zip (replies env [] (sends run.trace)) ∧
        responseCodes (printed run.trace) = (sendResults run.trace).map (fun e => e.2.2) ∧
        (responseCodes (printed run.trace)).length = (argv.drop (c + 2)).length ∧
        failures (printed run.trace) = failedTargets (sendResults run.trace) ∧
        (failures (printed run.trace)).length
          = ((sendFlags run.trace).filter (fun ok => !ok)).length ∧
        (summaries (printed run.trace) ≠ [] ↔ ∀ ok ∈ sendFlags run.trace, ok = true) ∧
        (summaries (printed run.trace)).length ≤ 1) := by
  have urls : ∀ (run : Run) (p : Params) (s : String) (t : Int) (l : List String),
      sends run.trace = l.map (callFor p s t) →
      (sendResults run.trace).map (fun e => e.1.url) = l := by
    intro run p s t l h
    have h1 := (sendResults_components run.trace).1
    rw [h] at h1
    have h2 := congrArg (List.map SendArgs.url) h1
    rw [List.map_map, List.map_map] at h2
    rw [show (fun e : SendArgs × Bool × Int => e.1.url) = SendArgs.url ∘ Prod.fst from rfl, h2]
    exact List.map_id _
  have summ : ∀ (l : List Bool) (x : String × String × String)
      (sm : List (String × String × String)),
      sm = (if l.all id = true then [x] else []) →
      (sm ≠ [] ↔ ∀ ok ∈ l, ok = true) ∧ sm.length ≤ 1 := by
    intro l x sm h
    have key : l.all id = true ↔ ∀ ok ∈ l, ok = true := by
      simp only [List.all_eq_true, id]
    by_cases ha : l.all id = true
    · rw [if_pos ha] at h
      subst h
      exact ⟨⟨fun _ => key.1 ha, fun _ => List.cons_ne_nil _ _⟩, le_refl _⟩
    · rw [if_neg ha] at h
      subst h
      exact ⟨⟨fun h' => absurd rfl h', fun h' => absurd (key.2 h') ha⟩, Nat.zero_le _⟩
  constructor
  · intro c o ev0 hp h3
    obtain ⟨sym, raw, run, -, -, hw, k1, k2, k3, k4, -⟩ :=
      symupload.upload_lines env argv c o ev0 hp h3
    obtain ⟨sym', raw', run', -, -, hw', f1, -⟩ := symupload.upload_run env argv c o ev0 hp h3
    rw [hw] at hw'
    injection hw' with e
    subst e
    have hu := urls run _ _ _ _ f1
    refine ⟨run, hw, hu, k1, k2, ?_, k3, ?_, (summ _ _ _ k4).1, (summ _ _ _ k4).2⟩
    · rw [k2, List.length_map, ← hu, List.length_map]
    · rw [k3, failedTargets_length, (sendResults_components run.trace).2]
  · intro c o ev0 symbol_file hp h3 hs hv
    obtain ⟨sym, raw, run, h0, -, hw, k1, k2, k3, -, k4⟩ :=
      symupload_nodump.nodump_upload_lines env argv c o ev0 hp h3
    obtain ⟨sym', raw', run', h0', -, hw', -, hr⟩ :=
      symupload_nodump.nodump_upload_run env argv c o ev0 hp h3
    rw [hw] at hw'
    injection hw' with e
    subst e
    rw [hs] at h0 h0'
    injection h0 with h0
    injection h0' with h0'
    subst h0 h0'
    rcases hr with ⟨hn, hg, -⟩ | ⟨v, -, f1, -⟩
    · rcases hv with hv | hv
      · exact absurd hn hv
      · exact absurd hg hv
    · have hu := urls run _ _ _ _ f1
      have hsum : (summaries (printed run.trace) ≠ [] ↔ ∀ ok ∈ sendFlags run.trace, ok = true) ∧
          (summaries (printed run.trace)).length ≤ 1 := by
        rcases k4 with ⟨hn, hg, -⟩ | ⟨v', -, -, k⟩ | ⟨v', -, -, -, k⟩
        · rcases hv with hv | hv
          · exact absurd hn hv
          · exact absurd hg hv
        · exact summ _ _ _ k
        · exact summ _ _ _ k
      refine ⟨run, hw, hu, k1, k2, ?_, k3, ?_, hsum.1, hsum.2⟩
      · rw [k2, List.length_map, ← hu, List.length_map]
      · rw [k3, failedTargets_length, (sendResults_components run.trace).2]

/-- The statement of C16 at the sample environment for the URLs `http://a`,
`http://b` with replies `(true, 200)` and `(false, 500)`: two response-code
lines, one failure line for `http://b`, no summary line and exit status 1. -/
theorem C16_console_lines_witness :
    ∃ run, symupload.wmain demoEnv ["symupload", "app.sym", "app.dll", "http://a", "http://b"]
        = some run ∧
      replies demoEnv [] (sends run.trace) = [(true, 200), (false, 500)] ∧
      responseCodes (printed run.trace) = [200, 500] ∧
      failures (printed run.trace) = [("http://b", 500)] ∧
      summaries (printed run.trace) = [] ∧ run.status = 1 ∧
      (responseCodes (printed run.trace)).length
        = (["symupload", "app.sym", "app.dll", "http://a", "http://b"].drop (1 + 2)).length ∧
      (failures (printed run.trace)).length
        = ((sendFlags run.trace).filter (fun ok => !ok)).length ∧
      (summaries (printed run.trace) ≠ [] ↔ ∀ ok ∈ sendFlags run.trace, ok = true) := by
  obtain ⟨run, hw, -, -, -, h4, -, h6, h7, -⟩ := (C16_console_lines demoEnv
    ["symupload", "app.sym", "app.dll", "http://a", "http://b"]).1 1 {}
    [Event.argvRead 1, Event.argvRead 1] (by decide) (by decide)
  have key : (symupload.wmain demoEnv
      ["symupload", "app.sym", "app.dll", "http://a", "http://b"]).map (fun r =>
        (replies demoEnv [] (sends r.trace), responseCodes (printed r.trace),
          failures (printed r.trace), summaries (printed r.trace), r.status))
      = some ([(true, 200), (false, 500)], [200, 500], [("http://b", 500)], [], 1) := by
    rfl
  rw [hw] at key
  injection key with key
  injection key with e1 key
  injection key with e2 key
  injection key with e3 key
  injection key with e4 e5
  exact ⟨run, hw, e1, e2, e3, e4, e5, h4, h6, h7⟩

/-- C17 as stated fails: the successful run of `symupload` with
`--product P` prints the summary line with the fields `app.sym`, `app.dll`,
`1.2.3.4` (symbol file, code file, version) and the product `P` is none of
them; and the successful run of `symupload_nodump` with `--version 1.0` sends
the version `1.0` but prints an empty third field, because the line prints
`file_version`, which is not assigned on the `--version` branch. -/
theorem C17_product_missing_counterexample :
    (∃ run, symupload.wmain demoEnv
        ["symupload", "--product", "P", "app.sym", "app.dll", "http://a"] = some run ∧
      run.status = 0 ∧
      (sends run.trace).map (fun call => call.parameters.find "product") = [some "P"] ∧
      summaries (printed run.trace) = [("app.sym", "app.dll", "1.2.3.4")] ∧
      summaries (printed run.trace) ≠ [("app.dll", "P", "1.2.3.4")]) ∧
    (∃ run, symupload_nodump.wmain demoEnv
        ["symupload", "--version", "1.0", "app.sym", "app.dll", "http://a"] = some run ∧
      run.status = 0 ∧
      (sends run.trace).map (fun call => call.parameters.find "version") = [some "1.0"] ∧
      summaries (printed run.trace) = [("app.sym", "app.dll", "")]) := by
  constructor
  · obtain ⟨c, o, ev0, run, -, hw⟩ := symupload.wmain_total demoEnv
      ["symupload", "--product", "P", "app.sym", "app.dll", "http://a"]
    have key : (symupload.wmain demoEnv
        ["symupload", "--product", "P", "app.sym", "app.dll", "http://a"]).map (fun r =>
          (r.status, (sends r.trace).map (fun call => call.parameters.find "product"),
            summaries (printed r.trace)))
        = some (0, [some "P"], [("app.sym", "app.dll", "1.2.3.4")]) := by
      rfl
    rw [hw] at key
    injection key with key
    injection key with e1 key
    injection key with e2 e3
    refine ⟨run, hw, e1, e2, e3, ?_⟩
    rw [e3]
    decide
  · obtain ⟨c, o, ev0, run, -, hw, -⟩ := symupload_nodump.nodump_wmain_total demoEnv
      ["symupload", "--version", "1.0", "app.sym", "app.dll", "http://a"]
    have key : (symupload_nodump.wmain demoEnv
        ["symupload", "--version", "1.0", "app.sym", "app.dll", "http://a"]).map (fun r =>
          (r.status, (sends r.trace).map (fun call => call.parameters.find "version"),
            summaries (printed r.trace)))
        = some (0, [some "1.0"], [("app.sym", "app.dll", "")]) := by
      rfl
    rw [hw] at key
    injection key with key
    injection key with e1 key
    injection key with e2 e3
    exact ⟨run, hw, e1, e2, e3⟩

/-- C17, amended: in both variants, on every run that ends with status 0 after
the upload loop, exactly one summary line is printed; its first two fields are
the symbol-file argument and the code-file base name (the value sent as
`code_file`), and the line has no field for the product.  Its third field is the
file version obtained from the version resolver: in `symupload` the resolved
version, which is the value sent as `version`, or the empty string when the
resolver failed; in `symupload_nodump`, when no `--version` value was parsed,
the resolved version, which is the value sent as `version`.  Nothing is stated
about the third field of `symupload_nodump` after a `--version` option. -/
theorem C17_summary_fields (env : Env) (argv : List String) :
    (∀ c o ev0, symupload.optionLoop env argv argv.length 1 {} = some (c, o, ev0) →
      c + 3 ≤ argv.length →
      ∃ symbol_file code_file_raw run,
        argv[c]? = some symbol_file ∧ argv[c + 1]? = some code_file_raw ∧
        symupload.wmain env argv = some run ∧
        (run.status = 0 →
          summaries (printed run.trace) =
            [(symbol_file, env.GetBaseName code_file_raw,
              (GetFileVersionString env symbol_file).getD "")] ∧
          ∀ call ∈ sends run.trace,
            call.parameters.find "code_file" = some (env.GetBaseName code_file_raw) ∧
            call.parameters.find "version" = GetFileVersionString env symbol_file)) ∧
    (∀ c o ev0, symupload_nodump.optionLoop env argv argv.length 1 {} = some (c, o, ev0) →
      c + 3 ≤ argv.length →
      ∃ symbol_file code_file_raw run,
        argv[c]? = some symbol_file ∧ argv[c + 1]? = some code_file_raw ∧
        symupload_nodump.wmain env argv = some run ∧
        (run.status = 0 →
          (∃ third,
            summaries (printed run.trace)
              = [(symbol_file, env.GetBaseName code_file_raw, third)] ∧
            (o.version = none →
              GetFileVersionString env symbol_file = some third ∧
              ∀ call ∈ sends run.trace, call.parameters.find "version" = some third)) ∧
          sends run.trace ≠ [] ∧
          ∀ call ∈ sends run.trace,
            call.parameters.find "code_file" = some (env.GetBaseName code_file_raw))) := by
  have allOf : ∀ (l : List Bool) (st : Int),
      st = (if l.all id = true then 0 else 1) → st = 0 → l.all id = true := by
    intro l st h h0
    by_cases ha : l.all id = true
    · exact ha
    · rw [if_neg ha] at h
      rw [h] at h0
      cases h0
  constructor
  · intro c o ev0 hp h3
    obtain ⟨sym, raw, run, h0, h1, hw, -, -, -, k4, -⟩ :=
      symupload.upload_lines env argv c o ev0 hp h3
    obtain ⟨sym', raw', run', h0', h1', hw', f1, -, f3, -⟩ :=
      symupload.upload_run env argv c o ev0 hp h3
    rw [hw] at hw'
    injection hw' with e
    rw [h0] at h0'
    injection h0' with e0
    rw [h1] at h1'
    injection h1' with e1
    subst e e0 e1
    refine ⟨sym, raw, run, h0, h1, hw, fun hst => ⟨?_, ?_⟩⟩
    · rw [k4, if_pos (allOf _ _ f3 hst)]
    · intro call hc
      rw [f1] at hc
      rw [mem_calls_parameters _ _ _ _ call hc]
      obtain ⟨p1, -, -, -, -, -, p7, -⟩ := symupload.parameters_facts env sym raw o.product
      exact ⟨p1, p7⟩
  · intro c o ev0 hp h3
    obtain ⟨sym, raw, run, h0, h1, hw, -, -, -, -, k4⟩ :=
      symupload_nodump.nodump_upload_lines env argv c o ev0 hp h3
    obtain ⟨sym', raw', run', h0', h1', hw', -, hr⟩ :=
      symupload_nodump.nodump_upload_run env argv c o ev0 hp h3
    rw [hw] at hw'
    injection hw' with e
    rw [h0] at h0'
    injection h0' with e0
    rw [h1] at h1'
    injection h1' with e1
    subst e e0 e1
    refine ⟨sym, raw, run, h0, h1, hw, fun hst => ?_⟩
    rcases hr with ⟨-, -, hm, -⟩ | ⟨w, hcase, f1, -, f3⟩
    · rw [hm] at hst
      cases hst
    · have hall := allOf _ _ f3 hst
      have hcode : ∀ call ∈ sends run.trace,
          call.parameters.find "code_file" = some (env.GetBaseName raw) := by
        intro call hc
        rw [f1] at hc
        rw [mem_calls_parameters _ _ _ _ call hc]
        exact (symupload_nodump.nodump_parameters_facts env sym raw o.product w).1
      have hver : ∀ call ∈ sends run.trace, call.parameters.find "version" = some w := by
        intro call hc
        rw [f1] at hc
        rw [mem_calls_parameters _ _ _ _ call hc]
        exact (symupload_nodump.nodump_parameters_facts env sym raw o.product w).2.2.2.2.2.2
      have hne : sends run.trace ≠ [] := by
        rw [f1]
        exact urls_ne_nil _ argv c h3
      refine ⟨?_, hne, hcode⟩
      rcases k4 with ⟨-, -, hm, -⟩ | ⟨v', hv', -, k⟩ | ⟨v', hn, hg, -, k⟩
      · rw [hm] at hst
        cases hst
      · refine ⟨"", by rw [k, if_pos hall], fun hn => ?_⟩
        rw [hv'] at hn
        cases hn
      · refine ⟨v', by rw [k, if_pos hall], fun _ => ⟨hg, ?_⟩⟩
        have hw2 : w = v' := by
          rcases hcase with ⟨hv, -⟩ | ⟨-, hg', -⟩
          · rw [hn] at hv
            cases hv
          · rw [hg] at hg'
            injection hg' with hg'
            exact hg'.symm
        subst hw2
        exact hver

/-- The statement of C17 (amended) at the sample environment, for the symbol
file `app.sym` with the version `1.2.3.4`: a run of `symupload` with a product
option, and runs of `symupload_nodump` with and without a version option. -/
theorem C17_summary_fields_witness :
    (∃ symbol_file code_file_raw run,
      ["symupload", "--product", "P", "app.sym", "app.dll", "http://a"][3]?
        = some symbol_file ∧
      ["symupload", "--product", "P", "app.sym", "app.dll", "http://a"][3 + 1]?
        = some code_file_raw ∧
      symupload.wmain demoEnv ["symupload", "--product", "P", "app.sym", "app.dll", "http://a"]
        = some run ∧
      (run.status = 0 →
        summaries (printed run.trace) =
          [(symbol_file, demoEnv.GetBaseName code_file_raw,
            (GetFileVersionString demoEnv symbol_file).getD "")] ∧
        ∀ call ∈ sends run.trace,
          call.parameters.find "code_file" = some (demoEnv.GetBaseName code_file_raw) ∧
          call.parameters.find "version" = GetFileVersionString demoEnv symbol_file)) ∧
    (∃ symbol_file code_file_raw run,
      ["symupload", "--version", "1.0", "app.sym", "app.dll", "http://a"][3]?
        = some symbol_file ∧
      ["symupload", "--version", "1.0", "app.sym", "app.dll", "http://a"][3 + 1]?
        = some code_file_raw ∧
      symupload_nodump.wmain demoEnv
        ["symupload", "--version", "1.0", "app.sym", "app.dll", "http://a"] = some run ∧
      (run.status = 0 →
        (∃ third,
          summaries (printed run.trace)
            = [(symbol_file, demoEnv.GetBaseName code_file_raw, third)] ∧
          ((some "1.0" : Option String) = none →
            GetFileVersionString demoEnv symbol_file = some third ∧
            ∀ call ∈ sends run.trace, call.parameters.find "version" = some third)) ∧
        sends run.trace ≠ [] ∧
        ∀ call ∈ sends run.trace,
          call.parameters.find "code_file" = some (demoEnv.GetBaseName code_file_raw))) ∧
    (∃ symbol_file code_file_raw run,
      ["symupload", "app.sym", "app.dll", "http://a"][1]? = some symbol_file ∧
      ["symupload", "app.sym", "app.dll", "http://a"][1 + 1]? = some code_file_raw ∧
      symupload_nodump.wmain demoEnv ["symupload", "app.sym", "app.dll", "http://a"]
        = some run ∧
      (run.status = 0 →
        (∃ third,
          summaries (printed run.trace)
            = [(symbol_file, demoEnv.GetBaseName code_file_raw, third)] ∧
          ((none : Option String) = none →
            GetFileVersionString demoEnv symbol_file = some third ∧
            ∀ call ∈ sends run.trace, call.parameters.find "version" = some third)) ∧
        sends run.trace ≠ [] ∧
        ∀ call ∈ sends run.trace,
          call.parameters.find "code_file" = some (demoEnv.GetBaseName code_file_raw))) :=
  ⟨(C17_summary_fields demoEnv
      ["symupload", "--product", "P", "app.sym", "app.dll", "http://a"]).1 3
      { product := some "P" }
      [Event.argvRead 1, Event.argvRead 1, Event.argvRead 2, Event.argvRead 3,
        Event.argvRead 3] (by decide) (by decide),
    (C17_summary_fields demoEnv
      ["symupload", "--version", "1.0", "app.sym", "app.dll", "http://a"]).2 3
      { version := some "1.0" }
      [Event.argvRead 1, Event.argvRead 1, Event.argvRead 1, Event.argvRead 2,
        Event.argvRead 3, Event.argvRead 3, Event.argvRead 3] (by decide) (by decide),
    (C17_summary_fields demoEnv ["symupload", "app.sym", "app.dll", "http://a"]).2 1 {}
      [Event.argvRead 1, Event.argvRead 1, Event.argvRead 1] (by decide) (by decide)⟩

/-- C18: in both variants every run ends without an out-of-range read (the
model returns a run, never `none`), and every read `argv[i]` of the run, in the
option loop, of the two positionals and in the upload loop, has
`1 ≤ i < argc`. -/
theorem C18_argv_reads_in_range (env : Env) (argv : List String) :
    (∃ run, symupload.wmain env argv = some run ∧
      ∀ i ∈ reads run.trace, 1 ≤ i ∧ i < argv.length) ∧
    (∃ run, symupload_nodump.wmain env argv = some run ∧
      ∀ i ∈ reads run.trace, 1 ≤ i ∧ i < argv.length) := by
  constructor
  · obtain ⟨c, o, ev0, hp, -⟩ := symupload.optionLoop_spec env argv argv.length 1 {} (by omega)
    obtain ⟨-, -, hrd⟩ := symupload.optionLoop_timeout env argv _ _ _ _ _ _ hp
    by_cases h : argv.length < c + 3
    · refine ⟨_, symupload.wmain_usage env argv c o ev0 hp h, ?_⟩
      intro i hi
      simp only [printUsageAndExit, reads_append, reads, List.append_nil] at hi
      exact hrd i hi
    · obtain ⟨sym, raw, run, -, -, hw, -, -, -, -, k⟩ :=
        symupload.upload_lines env argv c o ev0 hp (by omega)
      exact ⟨run, hw, k⟩
  · obtain ⟨c, o, ev0, hp, -⟩ :=
      symupload_nodump.nodump_optionLoop_spec env argv argv.length 1 {} (by omega)
    obtain ⟨-, -, hrd⟩ := symupload_nodump.nodump_optionLoop_timeout env argv _ _ _ _ _ _ hp
    by_cases h : argv.length < c + 3
    · refine ⟨_, symupload_nodump.nodump_wmain_usage env argv c o ev0 hp h, ?_⟩
      intro i hi
      simp only [printUsageAndExit, reads_append, reads, List.append_nil] at hi
      exact hrd i hi
    · obtain ⟨sym, raw, run, -, -, hw, -, -, -, k, -⟩ :=
        symupload_nodump.nodump_upload_lines env argv c o ev0 hp (by omega)
      exact ⟨run, hw, k⟩

/-- The statement of C18 at the sample environment, with the reads of the two
runs listed: options, positionals, one read per successful upload and two for
the failed one. -/
theorem C18_argv_reads_witness :
    (∃ run, symupload.wmain demoEnv
        ["symupload", "--timeout", "0", "app.sym", "app.dll", "http://a", "http://b"]
        = some run ∧
      reads run.trace = [1, 2, 3, 3, 3, 4, 5, 6, 6] ∧
      ∀ i ∈ reads run.trace, 1 ≤ i ∧ i < 7) ∧
    (∃ run, symupload_nodump.wmain demoEnv ["symupload", "--version"] = some run ∧
      reads run.trace = [] ∧
      ∀ i ∈ reads run.trace, 1 ≤ i ∧ i < 2) := by
  constructor
  · obtain ⟨run, hw, h⟩ := (C18_argv_reads_in_range demoEnv
      ["symupload", "--timeout", "0", "app.sym", "app.dll", "http://a", "http://b"]).1
    have key : (symupload.wmain demoEnv
        ["symupload", "--timeout", "0", "app.sym", "app.dll", "http://a", "http://b"]).map
          (fun r => reads r.trace) = some [1, 2, 3, 3, 3, 4, 5, 6, 6] := by
      decide
    rw [hw] at key
    injection key with key
    exact ⟨run, hw, key, h⟩
  · obtain ⟨run, hw, h⟩ := (C18_argv_reads_in_range demoEnv ["symupload", "--version"]).2
    have key : (symupload_nodump.wmain demoEnv ["symupload", "--version"]).map
          (fun r => reads r.trace) = some [] := by
      decide
    rw [hw] at key
    injection key with key
    exact ⟨run, hw, key, h⟩

/-- C19: in both variants, once the symbol-file check `argc >= currentarg + 3`
has passed, the code-file check passes too: the run never ends through the
second usage exit (a usage exit after the read of the symbol file), both
positionals are read, the usage text is not printed and at least one URL
remains.  In `symupload` the run makes at least one uploader call, in
`symupload_nodump` it does unless it returns `-1`, and in both a run that
returns 0 has at least one uploader call that returned success. -/
theorem C19_second_usage_exit_unreachable (env : Env) (argv : List String) :
    (∀ c o ev0, symupload.optionLoop env argv argv.length 1 {} = some (c, o, ev0) →
      symupload.wmain env argv ≠ some (printUsageAndExit (ev0 ++ [Event.argvRead c])) ∧
      (c + 3 ≤ argv.length →
        c + 1 + 2 ≤ argv.length ∧ argv.drop (c + 2) ≠ [] ∧
        ∃ symbol_file code_file_raw run,
          argv[c]? = some symbol_file ∧ argv[c + 1]? = some code_file_raw ∧
          symupload.wmain env argv = some run ∧ Line.usage ∉ printed run.trace ∧
          sends run.trace ≠ [] ∧
          (run.status = 0 → ∃ ok ∈ sendFlags run.trace, ok = true))) ∧
    (∀ c o ev0, symupload_nodump.optionLoop env argv argv.length 1 {} = some (c, o, ev0) →
      symupload_nodump.wmain env argv ≠ some (printUsageAndExit (ev0 ++ [Event.argvRead c])) ∧
      (c + 3 ≤ argv.length →
        c + 1 + 2 ≤ argv.length ∧ argv.drop (c + 2) ≠ [] ∧
        ∃ symbol_file code_file_raw run,
          argv[c]? = some symbol_file ∧ argv[c + 1]? = some code_file_raw ∧
          symupload_nodump.wmain env argv = some run ∧ Line.usage ∉ printed run.trace ∧
          (run.status ≠ -1 → sends run.trace ≠ []) ∧
          (run.status = 0 → ∃ ok ∈ sendFlags run.trace, ok = true))) := by
  have someOk : ∀ (tr : List Event) (st : Int),
      sends tr ≠ [] → sendFlags tr = (sendResults tr).map (fun e => e.2.1) →
      sends tr = (sendResults tr).map Prod.fst →
      st = (if (sendFlags tr).all id = true then 0 else 1) → st = 0 →
      ∃ ok ∈ sendFlags tr, ok = true := by
    intro tr st hne hf hs hst h0
    have hall : (sendFlags tr).all id = true := by
      by_cases ha : (sendFlags tr).all id = true
      · exact ha
      · rw [if_neg ha] at hst
        rw [hst] at h0
        cases h0
    have hne2 : sendFlags tr ≠ [] := by
      intro h
      rw [hf] at h
      rw [hs, List.map_eq_nil_iff.1 h] at hne
      exact hne rfl
    obtain ⟨ok, hok⟩ := List.exists_mem_of_ne_nil _ hne2
    refine ⟨ok, hok, ?_⟩
    have := List.all_eq_true.1 hall ok hok
    simpa using this
  have dropNe : ∀ c, c + 3 ≤ argv.length → argv.drop (c + 2) ≠ [] := by
    intro c h3 h
    have := congrArg List.length h
    simp at this
    omega
  have second : ∀ (ev0 : List Event) (c : Nat) (run : Run),
      (Line.usage ∉ printed run.trace ∨ run = printUsageAndExit ev0) →
      some run ≠ some (printUsageAndExit (ev0 ++ [Event.argvRead c])) := by
    intro ev0 c run h e
    injection e with e
    rcases h with h | h
    · apply h
      rw [e]
      simp [printUsageAndExit, printed_append, printed]
    · rw [h] at e
      have := congrArg (fun r => r.trace.length) e
      simp [printUsageAndExit] at this
  constructor
  · intro c o ev0 hp
    constructor
    · by_cases h : argv.length < c + 3
      · rw [symupload.wmain_usage env argv c o ev0 hp h]
        exact second ev0 c _ (Or.inr rfl)
      · obtain ⟨sym, raw, run, -, -, hw, -, -, -, -, hu⟩ :=
          symupload.upload_run env argv c o ev0 hp (by omega)
        rw [hw]
        exact second ev0 c run (Or.inl hu)
    · intro h3
      obtain ⟨sym, raw, run, h0, h1, hw, f1, -, f3, -, hu⟩ :=
        symupload.upload_run env argv c o ev0 hp h3
      have hne : sends run.trace ≠ [] := by
        rw [f1]
        exact urls_ne_nil _ argv c h3
      exact ⟨by omega, dropNe c h3, sym, raw, run, h0, h1, hw, hu, hne,
        someOk run.trace run.status hne (sendResults_components run.trace).2.symm
          (sendResults_components run.trace).1.symm f3⟩
  · intro c o ev0 hp
    constructor
    · by_cases h : argv.length < c + 3
      · rw [symupload_nodump.nodump_wmain_usage env argv c o ev0 hp h]
        exact second ev0 c _ (Or.inr rfl)
      · obtain ⟨sym, raw, run, -, -, hw, hu, -⟩ :=
          symupload_nodump.nodump_upload_run env argv c o ev0 hp (by omega)
        rw [hw]
        exact second ev0 c run (Or.inl hu)
    · intro h3
      obtain ⟨sym, raw, run, h0, h1, hw, hu, hr⟩ :=
        symupload_nodump.nodump_upload_run env argv c o ev0 hp h3
      refine ⟨by omega, dropNe c h3, sym, raw, run, h0, h1, hw, hu, ?_, ?_⟩
      · intro hst
        rcases hr with ⟨-, -, hm, -⟩ | ⟨v, -, f1, -⟩
        · exact absurd hm hst
        · rw [f1]
          exact urls_ne_nil _ argv c h3
      · intro hst
        rcases hr with ⟨-, -, hm, -⟩ | ⟨v, -, f1, -, f3⟩
        · rw [hm] at hst
          cases hst
        · have hne : sends run.trace ≠ [] := by
            rw [f1]
            exact urls_ne_nil _ argv c h3
          exact someOk run.trace run.status hne (sendResults_components run.trace).2.symm
            (sendResults_components run.trace).1.symm f3 hst

/-- The statement of C19 at the sample environment: runs with exactly three
arguments left, one URL each, returning 0 after one successful upload. -/
theorem C19_second_usage_exit_witness :
    (∃ symbol_file code_file_raw run,
      ["symupload", "app.sym", "app.dll", "http://a"][1]? = some symbol_file ∧
      ["symupload", "app.sym", "app.dll", "http://a"][1 + 1]? = some code_file_raw ∧
      symupload.wmain demoEnv ["symupload", "app.sym", "app.dll", "http://a"] = some run ∧
      Line.usage ∉ printed run.trace ∧ sends run.trace ≠ [] ∧
      (run.status = 0 → ∃ ok ∈ sendFlags run.trace, ok = true)) ∧
    (∃ symbol_file code_file_raw run,
      ["symupload", "app.sym", "app.dll", "http://a"][1]? = some symbol_file ∧
      ["symupload", "app.sym", "app.dll", "http://a"][1 + 1]? = some code_file_raw ∧
      symupload_nodump.wmain demoEnv ["symupload", "app.sym", "app.dll", "http://a"]
        = some run ∧
      Line.usage ∉ printed run.trace ∧ (run.status ≠ -1 → sends run.trace ≠ []) ∧
      (run.status = 0 → ∃ ok ∈ sendFlags run.trace, ok = true)) :=
  ⟨(((C19_second_usage_exit_unreachable demoEnv
      ["symupload", "app.sym", "app.dll", "http://a"]).1 1 {}
      [Event.argvRead 1, Event.argvRead 1] (by decide)).2 (by decide)).2.2,
    (((C19_second_usage_exit_unreachable demoEnv
      ["symupload", "app.sym", "app.dll", "http://a"]).2 1 {}
      [Event.argvRead 1, Event.argvRead 1, Event.argvRead 1] (by decide)).2 (by decide)).2.2⟩

/-- C20: for every argument vector in which no option name read by
`symupload_nodump` (`argv[1], argv[3], ...` below `c`) is `--version`, both
variants stop the option loop at the same `c` and take the same usage
decision; on the usage path both return 0 without uploader call; otherwise,
when the version resolver succeeds on the symbol file, both issue the same
sequence of uploader calls as to URL, payload, field name and timeout, the
parameter maps of any two calls agree on every key other than
`debug_identifier`, and if the uploader returns the same flags in both runs
the exit statuses are equal. -/
theorem C20_variants_agree (env : Env) (argv : List String) (c : Nat)
    (oB : symupload_nodump.Options) (evB : List Event)
    (hpB : symupload_nodump.optionLoop env argv argv.length 1 {} = some (c, oB, evB))
    (hnv : ∀ j, 1 ≤ j → j < c → (j - 1) % 2 = 0 → argv[j]? ≠ some "--version") :
    ∃ oA evA runA runB,
      symupload.optionLoop env argv argv.length 1 {} = some (c, oA, evA) ∧
      symupload.wmain env argv = some runA ∧ symupload_nodump.wmain env argv = some runB ∧
      (Line.usage ∈ printed runA.trace ↔ Line.usage ∈ printed runB.trace) ∧
      (Line.usage ∈ printed runA.trace ↔ argv.length < c + 3) ∧
      (argv.length < c + 3 →
        runA.status = 0 ∧ runB.status = 0 ∧ sends runA.trace = [] ∧ sends runB.trace = []) ∧
      (c + 3 ≤ argv.length → ∀ symbol_file v, argv[c]? = some symbol_file →
        GetFileVersionString env symbol_file = some v →
        sends runA.trace ≠ [] ∧
        (sends runA.trace).map
            (fun call => (call.url, call.upload_file, call.file_part_name, call.timeout))
          = (sends runB.trace).map
            (fun call => (call.url, call.upload_file, call.file_part_name, call.timeout)) ∧
        (∀ callA ∈ sends runA.trace, ∀ callB ∈ sends runB.trace, ∀ k,
          k ≠ "debug_identifier" → callA.parameters.find k = callB.parameters.find k) ∧
        (sendFlags runA.trace = sendFlags runB.trace → runA.status = runB.status)) := by
  obtain ⟨oA, evA, hpA, ep, et⟩ := optionLoop_agree env argv argv.length 1 {} {} c oB evB
    rfl rfl hpB hnv
  by_cases h : argv.length < c + 3
  · obtain ⟨qa1, -, qa3, -⟩ := symupload.optionLoop_quiet env argv c oA evA hpA
    obtain ⟨qb1, -, qb3, -⟩ := symupload_nodump.nodump_optionLoop_quiet env argv c oB evB hpB
    obtain ⟨ua1, ua2, -, ua4⟩ := printUsageAndExit_facts evA qa1 qa3
    obtain ⟨ub1, ub2, -, ub4⟩ := printUsageAndExit_facts evB qb1 qb3
    exact ⟨oA, evA, _, _, hpA, symupload.wmain_usage env argv c oA evA hpA h,
      symupload_nodump.nodump_wmain_usage env argv c oB evB hpB h,
      ⟨fun _ => ub4, fun _ => ua4⟩, ⟨fun _ => h, fun _ => ua4⟩,
      fun _ => ⟨ua1, ub1, ua2, ub2⟩, fun h3 => by omega⟩
  · have h3 : c + 3 ≤ argv.length := by omega
    obtain ⟨symA, rawA, runA, a0, a1, hwA, fA1, -, fA3, -, huA⟩ :=
      symupload.upload_run env argv c oA evA hpA h3
    obtain ⟨symB, rawB, runB, b0, b1, hwB, huB, hr⟩ :=
      symupload_nodump.nodump_upload_run env argv c oB evB hpB h3
    rw [a0] at b0
    injection b0 with b0
    rw [a1] at b1
    injection b1 with b1
    subst b0 b1
    refine ⟨oA, evA, runA, runB, hpA, hwA, hwB,
      ⟨fun h' => absurd h' huA, fun h' => absurd h' huB⟩,
      ⟨fun h' => absurd h' huA, fun h' => absurd h' h⟩, fun h' => absurd h' h, ?_⟩
    intro _ symbol_file v hs hg
    rw [a0] at hs
    injection hs with hs
    subst hs
    have hne : sends runA.trace ≠ [] := by
      rw [fA1]
      exact urls_ne_nil _ argv c h3
    rcases hr with ⟨-, hg', -⟩ | ⟨w, hcase, fB1, -, fB3⟩
    · rw [hg] at hg'
      cases hg'
    · have hvn : oB.version = none :=
        ((symupload_nodump.nodump_optionLoop_meaning env argv _ _ _ _ _ _ hpB).2.2.1).2
          ⟨rfl, hnv⟩
      have hw2 : w = v := by
        rcases hcase with ⟨hv, -⟩ | ⟨-, hg', -⟩
        · rw [hvn] at hv
          cases hv
        · rw [hg] at hg'
          injection hg' with hg'
          exact hg'.symm
      subst hw2
      refine ⟨hne, ?_, ?_, ?_⟩
      · rw [fA1, fB1, List.map_map, List.map_map, et]
        rfl
      · intro callA hA callB hB k hk
        rw [fA1] at hA
        rw [fB1] at hB
        rw [mem_calls_parameters _ _ _ _ callA hA, mem_calls_parameters _ _ _ _ callB hB]
        have hPA : symupload.parameters env symA rawA oA.product
            = ((addProduct (baseParameters (env.GetBaseName rawA) symA
                (symupload.debugIdentifier env (env.GetBaseName rawA) symA))
                oA.product symA).1).set "version" w := by
          simp only [symupload.parameters, symupload.addVersion, hg]
        rw [hPA, ep]
        exact find_other_than_identifier _ _ _ _ _ _ k hk
      · intro hf
        rw [fA3, fB3, hf]

/-- The statement of C20 at the sample environment, with a timeout and a
product option, two URLs and the symbol file `app.sym`. -/
theorem C20_variants_agree_witness :
    ∃ oA evA runA runB,
      symupload.optionLoop demoEnv
        ["symupload", "--timeout", "0", "--product", "P", "app.sym", "app.dll", "http://a",
          "http://b"] 9 1 {} = some (5, oA, evA) ∧
      symupload.wmain demoEnv
        ["symupload", "--timeout", "0", "--product", "P", "app.sym", "app.dll", "http://a",
          "http://b"] = some runA ∧
      symupload_nodump.wmain demoEnv
        ["symupload", "--timeout", "0", "--product", "P", "app.sym", "app.dll", "http://a",
          "http://b"] = some runB ∧
      sends runA.trace ≠ [] ∧
      (sends runA.trace).map
          (fun call => (call.url, call.upload_file, call.file_part_name, call.timeout))
        = (sends runB.trace).map
          (fun call => (call.url, call.upload_file, call.file_part_name, call.timeout)) ∧
      (∀ callA ∈ sends runA.trace, ∀ callB ∈ sends runB.trace, ∀ k,
        k ≠ "debug_identifier" → callA.parameters.find k = callB.parameters.find k) ∧
      (sendFlags runA.trace = sendFlags runB.trace → runA.status = runB.status) := by
  obtain ⟨oA, evA, runA, runB, hpA, hwA, hwB, -, -, -, h⟩ := C20_variants_agree demoEnv
    ["symupload", "--timeout", "0", "--product", "P", "app.sym", "app.dll", "http://a",
      "http://b"] 5 { product := some "P", timeout := 0 }
    [Event.argvRead 1, Event.argvRead 2, Event.argvRead 3, Event.argvRead 3, Event.argvRead 4,
      Event.argvRead 5, Event.argvRead 5, Event.argvRead 5]
    (by decide)
    (fun j a b p => by
      have hj : j = 1 ∨ j = 3 := by omega
      rcases hj with rfl | rfl <;> decide)
  exact ⟨oA, evA, runA, runB, hpA, hwA, hwB,
    h (by decide) "app.sym" "1.2.3.4" (by decide) (by decide)⟩
